import Mathlib

/-!
# Verification of the inventory graph store (`ansible/inventory/data.py`)

This file gives a shallow embedding of the inventory graph store
(`InventoryData` in `ansible/inventory/data.py`) and proves / refutes the
frozen claims about it.

The `Host` and `Group` entity classes, the localhost alias set
`C.LOCALHOST`, `helpers.remove_trust`, `utils.vars.combine_vars` and
`utils.path.basedir` are not part of the sources; following the design
document they are modelled from the specification.  As the specification
recommends (design notes, "arena + index pattern"), entity
cross-references are represented by interned names rather than mutual
object pointers: a group's member set, child set and parent set are lists
of names, and a host's group back-references are a list of group names.
All registries are association lists that preserve insertion order,
mirroring Python dictionaries.
-/

set_option maxRecDepth 4000

namespace Inventory

/-- Variable mappings: key to value, where a value is `none` (Python `None`)
or a string.  Insertion order preserved, last write overwrites in place. -/
abbrev Vars := List (String × Option String)

/-- Generic association-list lookup (registries keyed by name). -/
def alookup {α : Type} (l : List (String × α)) (k : String) : Option α :=
  match l with
  | [] => none
  | (k2, v) :: rest => if k2 = k then some v else alookup rest k

/-- First-match lookup in a variable mapping. -/
def vlookup (vs : Vars) (k : String) : Option (Option String) :=
  alookup vs k

/-- Last-write-wins update of a variable mapping: overwrite in place if the
key is present, append otherwise. -/
def vset (vs : Vars) (k : String) (v : Option String) : Vars :=
  match vs with
  | [] => [(k, v)]
  | (k2, v2) :: rest => if k2 = k then (k2, v) :: rest else (k2, v2) :: vset rest k v

/-- Update the value stored at a key in place; no-op if the key is absent. -/
def aupdate {α : Type} (l : List (String × α)) (k : String) (f : α → α) :
    List (String × α) :=
  l.map (fun p => if p.1 = k then (p.1, f p.2) else p)

/-- Delete every entry stored at a key. -/
def aerase {α : Type} (l : List (String × α)) (k : String) : List (String × α) :=
  l.filter (fun p => p.1 ≠ k)

/-- Append an element to a list unless it is already present (set-like
insertion used for membership and back-reference sets). -/
def insertNew (l : List String) (x : String) : List String :=
  if x ∈ l then l else l ++ [x]

/-- Modelled from the spec: a `Host` value-object — unique name, optional
connection port, a variable mapping, a set of group-membership
back-references (names), the synthetic-localhost `implicit` flag, and an
address (fixed to the loopback address for the implicit localhost; the
spec does not constrain it otherwise). -/
structure Host where
  name : String
  port : Option Nat := none
  address : String := ""
  implicit : Bool := false
  vars : Vars := []
  groups : List String := []
deriving DecidableEq

/-- Modelled from the spec: a `Group` value-object — canonicalized name, a
variable mapping, child-group names, parent-group names (maintained
symmetrically with child insertion) and directly-owned member host names. -/
structure Group where
  name : String
  vars : Vars := []
  child_groups : List String := []
  parent_groups : List String := []
  hosts : List String := []
deriving DecidableEq

/-- The canonical-localhost reference: either an alias of a registered host
(the explicit case, where the store's `localhost` points at the registry
entry) or an owned implicit host that was never registered. -/
inductive LocalhostRef where
  | registered (name : String)
  | implicitHost (h : Host)
deriving DecidableEq

/-- The inventory graph store (`InventoryData`): the group and host
registries, the derived-view (groups-dict) cache, the canonical localhost,
the ambient current-source context, and the warning log (the spec's
explicit logger/collector replacing the ambient warning sink). -/
structure InventoryData where
  groups : List (String × Group) := []
  hosts : List (String × Host) := []
  groups_dict_cache : List (String × List String) := []
  localhost : Option LocalhostRef := none
  current_source : Option String := none
  warnings : List String := []
deriving DecidableEq

/-- Modelled from the spec: the fixed, externally-supplied set of
recognized localhost aliases (`C.LOCALHOST`), "a small finite set of
strings naming the local machine". -/
def LOCALHOST : List String := ["localhost", "127.0.0.1", "::1"]

/-- Modelled from the spec: `helpers.remove_trust` — the spec treats names
as plain strings with no trust tagging, so trust removal is the identity. -/
def remove_trust (s : String) : String := s

/-- Modelled from the spec: group-name canonicalization.  The spec leaves
sanitization unspecified ("the store may sanitize/normalize the requested
name"); it is modelled as the identity. -/
def to_canonical (s : String) : String := s

/-- Modelled from the spec: the interpreter path "resolved from the running
process's own executable path when available, falling back to a fixed
default path" — an environment-supplied constant in this model. -/
def py_interp : String := "/usr/bin/python"

/-- Modelled from the spec: `utils.path.basedir`, the provenance directory
recorded for a source path.  The spec only requires that the active source
context be recorded as host metadata; modelled as the identity on paths. -/
def basedir (p : String) : String := p

/-- Modelled from the spec: `combine_vars` — merge two variable mappings
where keys of the second argument override keys of the first (the
reconcile pass calls it so that existing host-set variables take priority
over the inherited group variables). -/
def combine_vars (a b : Vars) : Vars :=
  a.map (fun p => (p.1, ((vlookup b p.1).getD p.2))) ++
    b.filter (fun p => (vlookup a p.1).isNone)

/-- Fuel bound for transitive-closure walks: one unit per initial frontier
element plus one unit per registered group and per stored parent link. -/
def sumParents (reg : List (String × Group)) : Nat :=
  (reg.map (fun p => p.2.parent_groups.length + 1)).sum

/-- Step bound for the parent-closure walk: pending frontier entries plus
one unit (and its parent links) for every not-yet-visited registered
group. -/
def closureMeasure (reg : List (String × Group)) (frontier visited : List String) : Nat :=
  frontier.length +
    ((reg.filter (fun p => p.1 ∉ visited)).map
      (fun p => p.2.parent_groups.length + 1)).sum

/-- Worklist walk of the transitive parent closure (`Group.get_ancestors`,
modelled from the spec): pop a name; if unseen, record it and, when it is
registered, enqueue its parents.  The visited set guards against cycles as
the spec requires; fuel makes the recursion structural. -/
def closureAux (reg : List (String × Group)) :
    Nat → List String → List String → List String
  | 0, _, visited => visited
  | _ + 1, [], visited => visited
  | fuel + 1, g :: rest, visited =>
    if g ∈ visited then closureAux reg fuel rest visited
    else
      match alookup reg g with
      | none => closureAux reg fuel rest (visited ++ [g])
      | some gr => closureAux reg fuel (rest ++ gr.parent_groups) (visited ++ [g])

/-- Modelled from the spec: `Group.get_ancestors`, the transitive closure
over parent links. -/
def get_ancestors (reg : List (String × Group)) (g : Group) : List String :=
  closureAux reg (g.parent_groups.length + sumParents reg) g.parent_groups []

/-- Worklist walk collecting transitively-owned member host names
(`Group.get_hosts`): a group contributes its direct members and then its
child groups' members, first occurrence kept. -/
def hostsAux (reg : List (String × Group)) :
    Nat → List String → List String → List String → List String
  | 0, _, _, acc => acc
  | _ + 1, [], _, acc => acc
  | fuel + 1, g :: rest, seen, acc =>
    if g ∈ seen then hostsAux reg fuel rest seen acc
    else
      match alookup reg g with
      | none => hostsAux reg fuel rest (seen ++ [g]) acc
      | some gr =>
          hostsAux reg fuel (rest ++ gr.child_groups) (seen ++ [g])
            (gr.hosts.foldl insertNew acc)

/-- Fuel bound for the member walk. -/
def sumChildren (reg : List (String × Group)) : Nat :=
  (reg.map (fun p => p.2.child_groups.length + 1)).sum

/-- Modelled from the spec: `Group.get_hosts`, the transitive union of the
group's directly-owned hosts and the hosts of every descendant group: the
group's own members first, then the walk over its child closure. -/
def get_hosts (reg : List (String × Group)) (g : Group) : List String :=
  hostsAux reg (g.child_groups.length + sumChildren reg) g.child_groups [g.name]
    (g.hosts.foldl insertNew [])

/-- Modelled from the spec: `Group.add_host` — add the host to the group's
owned-member set and symmetrically record the group in the host's
back-reference set; returns whether a new relation was created.  `gkey` and
`hkey` are the registry keys of the group and host. -/
def groupAddHost (st : InventoryData) (gkey hkey : String) : Bool × InventoryData :=
  match alookup st.groups gkey, alookup st.hosts hkey with
  | some g, some h =>
    if h.name ∈ g.hosts then (false, st)
    else
      (true,
        { st with
          groups := aupdate st.groups gkey (fun g2 => { g2 with hosts := g2.hosts ++ [h.name] }),
          hosts := aupdate st.hosts hkey (fun h2 => { h2 with groups := insertNew h2.groups g.name }) })
  | _, _ => (false, st)

/-- Modelled from the spec: `Group.remove_host` — remove the host from the
group's owned-member set and the group from the host's back-references. -/
def groupRemoveHost (st : InventoryData) (gkey hkey : String) : InventoryData :=
  match alookup st.groups gkey with
  | none => st
  | some g =>
    { st with
      groups := aupdate st.groups gkey (fun g2 => { g2 with hosts := g2.hosts.filter (· ≠ hkey) }),
      hosts := aupdate st.hosts hkey (fun h2 => { h2 with groups := h2.groups.filter (· ≠ g.name) }) }

/-- Modelled from the spec: `Group.add_child_group` — add the child to this
group's children and this group to the child's parents; adding an existing
relation returns `false` without error.  Following the spec's recommended
resolution of the cycle open question (design notes), a cyclic attachment
(the child being the group itself or one of its ancestors) is rejected
eagerly with an error. -/
def groupAddChildGroup (st : InventoryData) (pkey ckey : String) :
    Except String (Bool × InventoryData) :=
  match alookup st.groups pkey, alookup st.groups ckey with
  | some p, some c =>
    if p.name = c.name then .error "Can not add group to itself"
    else if c.name ∈ p.child_groups then .ok (false, st)
    else if c.name ∈ get_ancestors st.groups p then
      .error "Adding the group creates a recursive dependency loop"
    else
      .ok (true,
        { st with
          groups :=
            aupdate (aupdate st.groups pkey
                (fun p2 => { p2 with child_groups := p2.child_groups ++ [c.name] }))
              ckey (fun c2 => { c2 with parent_groups := c2.parent_groups ++ [p.name] }) })
  | _, _ => .error "unknown group"

/-- `InventoryData.add_group`: register a group if not already there,
returning the canonical name actually used; empty names are rejected;
registration invalidates the derived-view cache. -/
def add_group (st : InventoryData) (group : String) :
    Except String (String × InventoryData) :=
  if group = "" then .error "Invalid empty/false group name provided"
  else if (alookup st.groups group).isSome then .ok (group, st)
  else if (alookup st.groups (to_canonical group)).isSome then .ok (to_canonical group, st)
  else
    .ok (to_canonical group,
      { st with
        groups := st.groups ++ [(to_canonical group, ({ name := to_canonical group } : Group))],
        groups_dict_cache := [] })

/-- `InventoryData.remove_group`: delete the group's registry entry if
present (invalidating the cache only in that case), then drop the group
from every host's back-reference set.  Parent and child links of other
groups are not cleaned up. -/
def remove_group (st : InventoryData) (gname : String) : InventoryData :=
  let st1 :=
    if (alookup st.groups gname).isSome then
      { st with groups := aerase st.groups gname, groups_dict_cache := [] }
    else st
  { st1 with
    hosts := st1.hosts.map (fun p => (p.1, { p.2 with groups := p.2.groups.filter (· ≠ gname) })) }

/-- `InventoryData.set_variable`: resolve the entity name against groups
first, then hosts; overwrite the variable (last-write-wins); error if the
name matches neither registry. -/
def set_variable (st : InventoryData) (entity varname : String) (value : Option String) :
    Except String InventoryData :=
  match alookup st.groups entity with
  | some g =>
    .ok { st with groups := aupdate st.groups entity (fun _ => { g with vars := vset g.vars varname value }) }
  | none =>
    match alookup st.hosts entity with
    | some h =>
      .ok { st with hosts := aupdate st.hosts entity (fun _ => { h with vars := vset h.vars varname value }) }
    | none => .error "Could not identify group or host"

/-- `InventoryData.add_child`: attach a child (a registered group,
preferred, else a registered host) to a registered group; errors if the
parent is not a group or the child is unknown; invalidates the cache and
returns whether a new relation was created. -/
def add_child (st : InventoryData) (group child : String) :
    Except String (Bool × InventoryData) :=
  match alookup st.groups group with
  | none => .error "is not a known group"
  | some _ =>
    match alookup st.groups child with
    | some _ =>
      match groupAddChildGroup st group child with
      | .error e => .error e
      | .ok (added, st1) => .ok (added, { st1 with groups_dict_cache := [] })
    | none =>
      match alookup st.hosts child with
      | some _ =>
        let r := groupAddHost st group child
        .ok (r.1, { r.2 with groups_dict_cache := [] })
      | none => .error "is not a known host nor group"

/-- A freshly constructed implicit localhost (address fixed to the loopback
address, `implicit` set, connection mode `local`, interpreter path from the
environment). -/
def freshLocalhost (pattern : String) : Host :=
  { name := pattern, port := none, address := "127.0.0.1", implicit := true,
    vars := vset (vset [] "ansible_python_interpreter" (some py_interp))
      "ansible_connection" (some "local"),
    groups := [] }

/-- `InventoryData._create_implicit_localhost`: return the existing
canonical localhost if one is set (resolving a registered alias through
the host registry), otherwise construct the implicit localhost and record
it as canonical. -/
def create_implicit_localhost (st : InventoryData) (pattern : String) :
    Host × InventoryData :=
  match st.localhost with
  | some (LocalhostRef.registered n) => ((alookup st.hosts n).getD (freshLocalhost pattern), st)
  | some (LocalhostRef.implicitHost h) => (h, st)
  | none =>
    let h := freshLocalhost pattern
    (h, { st with localhost := some (LocalhostRef.implicitHost h) })

/-- `InventoryData.get_host`: fetch the registered host; on a miss for a
recognized localhost alias, fall back to the implicit-localhost factory;
otherwise absent. -/
def get_host (st : InventoryData) (hostname : String) :
    Option Host × InventoryData :=
  let hostname := remove_trust hostname
  match alookup st.hosts hostname with
  | some h => (some h, st)
  | none =>
    if hostname ∈ LOCALHOST then
      let r := create_implicit_localhost st hostname
      (some r.1, r.2)
    else (none, st)

/-- Register a fresh host entry (name and port only). -/
def addHostRaw (st : InventoryData) (host : String) (port : Option Nat) : InventoryData :=
  { st with hosts := st.hosts ++ [(host, ({ name := host, port := port } : Host))] }

/-- `set_variable` with the operation's error swallowed (used where the
source cannot fail because the entity was just registered). -/
def setVarSoft (st : InventoryData) (e k : String) (v : Option String) : InventoryData :=
  match set_variable st e k v with
  | .ok s => s
  | .error _ => st

/-- The localhost-defaulting step of host registration: the first
registered recognized alias becomes the default localhost; later aliases
only draw a warning. -/
def localhostDefault (st : InventoryData) (host : String) : InventoryData :=
  if host ∈ LOCALHOST then
    match st.localhost with
    | none => { st with localhost := some (LocalhostRef.registered host) }
    | some _ =>
      { st with warnings := st.warnings ++ ["A duplicate localhost-like entry was found"] }
  else st

/-- The creation branch of `add_host`: register the host, record the
provenance metadata from the current source context, and apply localhost
defaulting. -/
def addHostNew (st : InventoryData) (host : String) (port : Option Nat) : InventoryData :=
  localhostDefault
    (setVarSoft
      (setVarSoft (addHostRaw st host port) host "inventory_file" st.current_source)
      host "inventory_dir" (st.current_source.map basedir))
    host

/-- `InventoryData.add_host`: register a host if new (recording provenance
metadata from the current source context and, for a recognized localhost
alias, making it the default localhost when none is set — otherwise only a
duplicate-localhost warning is emitted); an optional group additively
assigns membership and invalidates the cache. -/
def add_host (st : InventoryData) (host : String) (group : Option String)
    (port : Option Nat) : Except String (String × InventoryData) :=
  if remove_trust host = "" then .error "Invalid empty host name provided"
  else
    match (match group with
      | some gname => if gname = "" then none else some gname
      | none => none) with
    | some gname =>
      if (alookup st.groups gname).isNone then .error "Could not find group in inventory"
      else
        .ok (remove_trust host,
          { (groupAddHost
              (if (alookup st.hosts (remove_trust host)).isSome then st
               else addHostNew st (remove_trust host) port)
              gname (remove_trust host)).2 with
            groups_dict_cache := [] })
    | none =>
      .ok (remove_trust host,
        if (alookup st.hosts (remove_trust host)).isSome then st
        else addHostNew st (remove_trust host) port)

/-- `InventoryData.remove_host`: delete the host's registry entry if
present, then remove it from every group's member set (which also clears
the dangling host's back-references, observable through the canonical
localhost, whose alias is converted to a snapshot if it pointed at the
removed entry).  The derived-view cache is not touched. -/
def remove_host (st : InventoryData) (h : Host) : InventoryData :=
  let gnames := st.groups.map (fun p => p.2.name)
  let newLocalhost :=
    match st.localhost, alookup st.hosts h.name with
    | some (LocalhostRef.registered n), some hr =>
      if n = h.name then
        some (LocalhostRef.implicitHost
          { hr with groups := hr.groups.filter (fun gn => gn ∉ gnames) })
      else st.localhost
    | _, _ => st.localhost
  { st with
    hosts := aerase st.hosts h.name,
    groups := st.groups.map (fun p => (p.1, { p.2 with hosts := p.2.hosts.filter (· ≠ h.name) })),
    localhost := newLocalhost }

/-- `InventoryData.get_groups_dict`: return the derived-view cache,
rebuilding the whole mapping (group name to transitive member host names)
when the cache is empty. -/
def get_groups_dict (st : InventoryData) :
    List (String × List String) × InventoryData :=
  if st.groups_dict_cache = [] then
    let c := st.groups.map (fun p => (p.1, get_hosts st.groups p.2))
    (c, { st with groups_dict_cache := c })
  else (st.groups_dict_cache, st)

/-- One step of the reconciliation group pass: ensure the group inherits
from `all` by attaching it as a child of `all` when it has no ancestors. -/
def reconcileGroupStep (st : InventoryData) (gname : String) :
    Except String InventoryData :=
  match alookup st.groups gname with
  | none => .ok st
  | some group =>
    if group.name ≠ "all" ∧ get_ancestors st.groups group = [] then
      match add_child st "all" group.name with
      | .error e => .error e
      | .ok (_, st1) => .ok st1
    else .ok st

/-- The reconciliation group pass over the registry's key sequence. -/
def reconcileGroups (st : InventoryData) : Except String InventoryData :=
  (st.groups.map (fun p => p.1)).foldlM reconcileGroupStep st

/-- The membership branches of one reconciliation host-pass step: clear
`ungrouped` of a host that also belongs to another real group; attach a
non-implicit host whose group set is empty or exactly `all` to `ungrouped`
(through `add_child`, which prefers a group of the same name).  Registry
lookups of `all` fail (KeyError) exactly where the source performs them. -/
def reconcileHostBranches (st : InventoryData) (host : Host) :
    Except String InventoryData :=
  if "ungrouped" ∈ host.groups then
    match alookup st.groups "all" with
    | none => .error "KeyError: all"
    | some _ =>
      if host.groups.any (fun gn => gn ≠ "all" ∧ gn ≠ "ungrouped") then
        .ok (groupRemoveHost st "ungrouped" host.name)
      else .ok st
  else if ¬ host.implicit then
    if host.groups.length = 0 then
      match add_child st "ungrouped" host.name with
      | .error e => .error e
      | .ok r => .ok r.2
    else if host.groups.length = 1 then
      match alookup st.groups "all" with
      | none => .error "KeyError: all"
      | some _ =>
        if "all" ∈ host.groups then
          match add_child st "ungrouped" host.name with
          | .error e => .error e
          | .ok r => .ok r.2
        else .ok st
    else .ok st
  else .ok st

/-- The variable-inheritance step for an implicit host. -/
def reconcileHostMerge (st : InventoryData) (host : Host) (hname : String) :
    Except String InventoryData :=
  if host.implicit then
    match alookup st.groups "all" with
    | none => .error "KeyError: all"
    | some allg =>
      .ok { st with
        hosts := aupdate st.hosts hname
          (fun h2 => { h2 with vars := combine_vars allg.vars h2.vars }) }
  else .ok st

/-- One step of the reconciliation host pass, for the host registered at
`hname`: the membership branches followed by variable inheritance for
implicit hosts.  The source's unconditional `ungrouped` registry access
fails (KeyError) when that group is missing. -/
def reconcileHostStep (st : InventoryData) (hname : String) :
    Except String InventoryData :=
  match alookup st.hosts hname with
  | none => .ok st
  | some host =>
    match alookup st.groups "ungrouped" with
    | none => .error "KeyError: ungrouped"
    | some _ =>
      match reconcileHostBranches st host with
      | .error e => .error e
      | .ok st1 => reconcileHostMerge st1 host hname

/-- The reconciliation host pass over the registry's key sequence. -/
def reconcileHosts (st : InventoryData) : Except String InventoryData :=
  (st.hosts.map (fun p => p.1)).foldlM reconcileHostStep st

/-- Names registered both as a group and as a host, in registry order:
these draw the non-fatal overloaded-identifier warnings. -/
def conflictWarnings (st : InventoryData) : List String :=
  ((st.groups.map (fun p => p.2.name)).filter
      (fun n => n ∈ st.hosts.map (fun p => p.2.name))).map
    (fun n => "Found both group and host with same name: " ++ n)

/-- `InventoryData.reconcile_inventory`: clear the source context, run the
group pass and the host pass, emit the name-collision warnings, and
invalidate the derived-view cache. -/
def reconcile_inventory (st : InventoryData) : Except String InventoryData :=
  let st0 := { st with current_source := none }
  match reconcileGroups st0 with
  | .error e => .error e
  | .ok st1 =>
    match reconcileHosts st1 with
    | .error e => .error e
    | .ok st2 =>
      .ok { st2 with
        warnings := st2.warnings ++ conflictWarnings st2,
        groups_dict_cache := [] }

/-- The store before `__init__` populates it. -/
def emptyInv : InventoryData := {}

/-- `InventoryData.__init__`: always create the `all` and `ungrouped`
groups and make `ungrouped` a child of `all`. -/
def initInv : InventoryData :=
  let st1 := match add_group emptyInv "all" with
    | .ok r => r.2
    | .error _ => emptyInv
  let st2 := match add_group st1 "ungrouped" with
    | .ok r => r.2
    | .error _ => st1
  match add_child st2 "all" "ungrouped" with
  | .ok r => r.2
  | .error _ => st2

/-- The public operations of the inventory graph, as invoked by loaders
and readers. -/
inductive Op where
  | addGroup (g : String)
  | removeGroup (g : String)
  | addHost (h : String) (group : Option String) (port : Option Nat)
  | removeHost (h : Host)
  | setVariable (entity varname : String) (value : Option String)
  | addChild (group child : String)
  | reconcile
  | getHost (name : String)
  | getGroupsDict
  | setCurrentSource (s : Option String)

/-- Apply one public operation to the store.  Operations that fail raise
before mutating, so a failed operation leaves the state unchanged. -/
def applyOp (st : InventoryData) (op : Op) : InventoryData :=
  match op with
  | .addGroup g =>
    match add_group st g with
    | .ok r => r.2
    | .error _ => st
  | .removeGroup g => remove_group st g
  | .addHost h group port =>
    match add_host st h group port with
    | .ok r => r.2
    | .error _ => st
  | .removeHost h => remove_host st h
  | .setVariable e k v =>
    match set_variable st e k v with
    | .ok s => s
    | .error _ => st
  | .addChild g c =>
    match add_child st g c with
    | .ok r => r.2
    | .error _ => st
  | .reconcile =>
    match reconcile_inventory st with
    | .ok s => s
    | .error _ => st
  | .getHost n => (get_host st n).2
  | .getGroupsDict => (get_groups_dict st).2
  | .setCurrentSource s => { st with current_source := s }

/-- Run a sequence of public operations from a freshly constructed store. -/
def runOps (ops : List Op) : InventoryData :=
  ops.foldl applyOp initInv

/-- Operations that never target the `all` or `ungrouped` groups for
removal. -/
def SafeOp (op : Op) : Prop :=
  match op with
  | .removeGroup g => g ≠ "all" ∧ g ≠ "ungrouped"
  | _ => True

instance (op : Op) : Decidable (SafeOp op) := by
  cases op <;> simp [SafeOp] <;> infer_instance

/-- Registry records carry their own key as their name. -/
def NameConsistent (st : InventoryData) : Prop :=
  (∀ p ∈ st.groups, p.2.name = p.1) ∧ (∀ p ∈ st.hosts, p.2.name = p.1)

/-- Registry keys are free of duplicates. -/
def KeysNodup (st : InventoryData) : Prop :=
  (st.groups.map (fun p => p.1)).Nodup ∧ (st.hosts.map (fun p => p.1)).Nodup

/-- Group member sets and host back-reference sets agree (membership is the
symmetric relation the entity model maintains). -/
def SymHG (st : InventoryData) : Prop :=
  ∀ p ∈ st.groups, ∀ q ∈ st.hosts, (q.1 ∈ p.2.hosts ↔ p.1 ∈ q.2.groups)

/-- Child links are mirrored by parent back-links. -/
def ChildParentSym (st : InventoryData) : Prop :=
  ∀ p ∈ st.groups, ∀ q ∈ st.groups, q.1 ∈ p.2.child_groups → p.1 ∈ q.2.parent_groups

/-- Every stored parent link points at a registered group. -/
def NoDanglingParents (st : InventoryData) : Prop :=
  ∀ p ∈ st.groups, ∀ q ∈ p.2.parent_groups, (alookup st.groups q).isSome

/-- No group is its own ancestor. -/
def AcyclicParents (st : InventoryData) : Prop :=
  ∀ p ∈ st.groups, p.1 ∉ get_ancestors st.groups p.2

/-- The whole effect of one reconciliation host-pass step on the host's own
record, as a function of the pre-pass record: `A` is `all`'s variable
mapping and `gkeys` the group registry's key sequence (a host whose name
collides with a group key has the group, not the host, attached to
`ungrouped`). -/
def hostStepSpec (A : Vars) (gkeys : List String) (h : Host) : Host :=
  { h with
    groups :=
      if "ungrouped" ∈ h.groups then
        if h.groups.any (fun gn => gn ≠ "all" ∧ gn ≠ "ungrouped") then
          h.groups.filter (· ≠ "ungrouped")
        else h.groups
      else if ¬ h.implicit ∧
          (h.groups.length = 0 ∨ (h.groups.length = 1 ∧ "all" ∈ h.groups)) then
        if h.name ∈ gkeys then h.groups else h.groups ++ ["ungrouped"]
      else h.groups,
    vars := if h.implicit then combine_vars A h.vars else h.vars }

/-- Whether the host-pass step moves the host into `ungrouped`'s member
set, removes it, or leaves its membership alone. -/
def memberSpec (gu0hosts : List String) (gkeys : List String) (h : Host) (n : String) :
    Prop :=
  if "ungrouped" ∈ h.groups then
    if h.groups.any (fun gn => gn ≠ "all" ∧ gn ≠ "ungrouped") then False
    else n ∈ gu0hosts
  else if ¬ h.implicit ∧
      (h.groups.length = 0 ∨ (h.groups.length = 1 ∧ "all" ∈ h.groups)) then
    if h.name ∈ gkeys then n ∈ gu0hosts else True
  else n ∈ gu0hosts

/-- `all`'s variable mapping (empty when `all` is unregistered). -/
def allVars (st : InventoryData) : Vars :=
  match alookup st.groups "all" with
  | some g => g.vars
  | none => []

/-- The observable state of the store named by the idempotence claim: the
group registry, host registry, derived-view cache, canonical localhost and
source context (everything except the warning log). -/
def obs (st : InventoryData) :
    List (String × Group) × List (String × Host) × List (String × List String) ×
      Option LocalhostRef × Option String :=
  (st.groups, st.hosts, st.groups_dict_cache, st.localhost, st.current_source)

/-- Concrete run refuting the cache-invalidation part of the
`remove_host` contract: register `h1` in `ungrouped`, materialize the
derived-view cache, then remove the host. -/
def cx1state : InventoryData :=
  remove_host (runOps [Op.addHost "h1" (some "ungrouped") none, Op.getGroupsDict])
    { name := "h1" }

/-- Concrete run refuting the universal existence invariant: a single
public `remove_group` call on `all`. -/
def cx2state : InventoryData := runOps [Op.removeGroup "all"]

/-- Concrete run refuting the ungrouped-membership claim: a host whose
name collides with a registered group name. -/
def cx3state : InventoryData := runOps [Op.addGroup "x", Op.addHost "x" none none]

/-- Concrete run refuting the everything-reaches-`all` claim: a removed
group leaves a dangling parent reference. -/
def cx4state : InventoryData :=
  runOps [Op.addGroup "g1", Op.addGroup "g2", Op.addChild "g1" "g2", Op.removeGroup "g1"]

/-- Concrete run refuting the no-failure-mode claim: with `ungrouped`
removed and a host registered, the pass hits a missing-key error. -/
def cx5state : InventoryData :=
  runOps [Op.addHost "h1" none none, Op.removeGroup "ungrouped"]

/-- A populated, reconciled inventory used as a witness state. -/
def wit5state : InventoryData :=
  runOps [Op.addGroup "web", Op.addGroup "db", Op.addHost "h1" none none,
    Op.addChild "web" "h1", Op.reconcile]

/-- A small well-formed store exercising the reconciliation pass:
one real group and one group-less host. -/
def witA : InventoryData :=
  runOps [Op.addGroup "web", Op.addHost "h1" none none]

/-- The state the reconciliation pass produces from `witA`. -/
def witAres : InventoryData :=
  match reconcile_inventory witA with
  | .ok r => r
  | .error _ => witA

/-- A well-formed store holding an implicit host, with a variable on `all`:
exercises the implicit-host variable-inheritance step. -/
def witB : InventoryData :=
  { runOps [Op.setVariable "all" "k2" (some "v2")] with
    hosts := [("localhost",
      { name := "localhost", implicit := true,
        vars := [("k1", some "v1"), ("k2", some "host")] })] }

/-- The state the reconciliation pass produces from `witB`. -/
def witBres : InventoryData :=
  match reconcile_inventory witB with
  | .ok r => r
  | .error _ => witB

/-- The root-structure invariant: `all` and `ungrouped` are registered and
`ungrouped` carries `all` as a parent back-link (hence `all` is among its
ancestors and `ungrouped` is reachable from `all`). -/
def RootInv (reg : List (String × Group)) : Prop :=
  (∃ g, alookup reg "all" = some g ∧ g.name = "all") ∧
  (∃ g, alookup reg "ungrouped" = some g ∧ g.name = "ungrouped" ∧
    "all" ∈ g.parent_groups)

/-- Frame relation between group registries: every registered group stays
registered with the same name and at least its old parent links (record
fields may otherwise change and entries may be added). -/
def gframe (l l2 : List (String × Group)) : Prop :=
  ∀ k g, alookup l k = some g → ∃ g2, alookup l2 k = some g2 ∧
    g2.name = g.name ∧ ∀ q ∈ g.parent_groups, q ∈ g2.parent_groups

/-- Invariant carried through the reconciliation group pass: `st0` is the
state at the start of the pass, `s` the current state, `names` the keys
not yet visited. -/
structure GPInv (st0 s : InventoryData) (names : List String) : Prop where
  gkeys : s.groups.map (fun p => p.1) = st0.groups.map (fun p => p.1)
  gvals : ∀ k, (alookup s.groups k).map (fun g => (g.name, g.vars, g.hosts)) =
    (alookup st0.groups k).map (fun g => (g.name, g.vars, g.hosts))
  gpar : ∀ k g0 g, alookup st0.groups k = some g0 → alookup s.groups k = some g →
    ∀ q ∈ g0.parent_groups, q ∈ g.parent_groups
  gne : ∀ k, k ∉ names → ∀ g, alookup s.groups k = some g → g.name ≠ "all" →
    g.parent_groups ≠ []
  cps : ∀ p ∈ s.groups, ∀ q ∈ s.groups, q.1 ∈ p.2.child_groups →
    p.1 ∈ q.2.parent_groups
  hfix : s.hosts = st0.hosts
  lloc : s.localhost = st0.localhost
  lcs : s.current_source = st0.current_source
  lwarn : s.warnings = st0.warnings

/-- Invariant carried through the reconciliation host pass: `st0` is the
state at the start of the pass, `s` the current state, `names` the host
keys not yet visited. -/
structure HPInv (st0 s : InventoryData) (names : List String) : Prop where
  gkeys : s.groups.map (fun p => p.1) = st0.groups.map (fun p => p.1)
  gvals : ∀ k, (alookup s.groups k).map (fun g => (g.name, g.vars)) =
    (alookup st0.groups k).map (fun g => (g.name, g.vars))
  gpar : ∀ k g0 g, alookup st0.groups k = some g0 → alookup s.groups k = some g →
    ∀ q ∈ g0.parent_groups, q ∈ g.parent_groups
  hkeys : s.hosts.map (fun p => p.1) = st0.hosts.map (fun p => p.1)
  hunproc : ∀ n ∈ names, alookup s.hosts n = alookup st0.hosts n
  hproc : ∀ n, n ∉ names →
    alookup s.hosts n = (alookup st0.hosts n).map
      (hostStepSpec (allVars st0) (st0.groups.map (fun p => p.1)))
  umem : ∀ n ∈ names, ∀ g0 g, alookup st0.groups "ungrouped" = some g0 →
    alookup s.groups "ungrouped" = some g → (n ∈ g.hosts ↔ n ∈ g0.hosts)
  umem2 : ∀ n, n ∉ names → ∀ h0 g0 g, alookup st0.hosts n = some h0 →
    alookup st0.groups "ungrouped" = some g0 → alookup s.groups "ungrouped" = some g →
    (n ∈ g.hosts ↔ memberSpec g0.hosts (st0.groups.map (fun p => p.1)) h0 n)
  collis : ∀ n, n ∉ names → ∀ h0, alookup st0.hosts n = some h0 →
    "ungrouped" ∉ h0.groups → ¬ h0.implicit = true →
    (h0.groups.length = 0 ∨ (h0.groups.length = 1 ∧ "all" ∈ h0.groups)) →
    h0.name ∈ st0.groups.map (fun p => p.1) →
    h0.name ≠ "ungrouped" ∧ ∃ g, alookup s.groups "ungrouped" = some g ∧
      h0.name ∈ g.child_groups
  lloc : s.localhost = st0.localhost
  lcs : s.current_source = st0.current_source
  lwarn : s.warnings = st0.warnings

instance (st : InventoryData) : Decidable (NameConsistent st) := by
  unfold NameConsistent
  infer_instance

instance (st : InventoryData) : Decidable (KeysNodup st) := by
  unfold KeysNodup
  infer_instance

instance (st : InventoryData) : Decidable (SymHG st) := by
  unfold SymHG
  infer_instance

instance (st : InventoryData) : Decidable (ChildParentSym st) := by
  unfold ChildParentSym
  infer_instance

instance (st : InventoryData) : Decidable (NoDanglingParents st) := by
  unfold NoDanglingParents
  infer_instance

instance (st : InventoryData) : Decidable (AcyclicParents st) := by
  unfold AcyclicParents
  infer_instance

/-! ## Association-list lemmas -/

theorem alookup_cons {α : Type} (p : String × α) (rest : List (String × α)) (k : String) :
    alookup (p :: rest) k = if p.1 = k then some p.2 else alookup rest k := rfl

theorem aupdate_cons {α : Type} (p : String × α) (rest : List (String × α)) (k : String)
    (f : α → α) :
    aupdate (p :: rest) k f =
      (if p.1 = k then (p.1, f p.2) else p) :: aupdate rest k f := by
  simp [aupdate]

theorem aerase_cons {α : Type} (p : String × α) (rest : List (String × α)) (k : String) :
    aerase (p :: rest) k =
      if p.1 = k then aerase rest k else p :: aerase rest k := by
  by_cases h : p.1 = k <;> simp [aerase, h]

theorem alookup_append {α : Type} (l₁ l₂ : List (String × α)) (k : String) :
    alookup (l₁ ++ l₂) k = (alookup l₁ k).or (alookup l₂ k) := by
  induction l₁ with
  | nil => simp [alookup]
  | cons p rest ih =>
    by_cases h : p.1 = k <;> simp [alookup_cons, h, ih]

theorem alookup_eq_none {α : Type} (l : List (String × α)) (k : String) :
    alookup l k = none ↔ k ∉ l.map (fun p => p.1) := by
  induction l with
  | nil => simp [alookup]
  | cons p rest ih =>
    rw [alookup_cons, List.map_cons]
    by_cases h : p.1 = k
    · rw [if_pos h, h]
      simp
    · rw [if_neg h, ih]
      constructor
      · intro hn hmem
        rcases List.mem_cons.mp hmem with he | he
        · exact h he.symm
        · exact hn he
      · intro hn hmem
        exact hn (List.mem_cons_of_mem _ hmem)

theorem alookup_mem {α : Type} {l : List (String × α)} {k : String} {v : α}
    (h : alookup l k = some v) : (k, v) ∈ l := by
  induction l with
  | nil => simp [alookup] at h
  | cons p rest ih =>
    by_cases hp : p.1 = k
    · rw [alookup_cons, if_pos hp] at h
      have hpv : p = (k, v) := by
        cases p with
        | mk a b =>
          simp only at hp
          simp only [Option.some.injEq] at h
          rw [hp, h]
      rw [← hpv]
      exact List.mem_cons_self _ _
    · rw [alookup_cons, if_neg hp] at h
      exact List.mem_cons_of_mem _ (ih h)

theorem alookup_isSome {α : Type} (l : List (String × α)) (k : String) :
    (alookup l k).isSome = true ↔ k ∈ l.map (fun p => p.1) := by
  constructor
  · intro h
    rcases Option.isSome_iff_exists.mp h with ⟨v, hv⟩
    exact List.mem_map_of_mem _ (alookup_mem hv)
  · intro h
    by_contra hn
    exact (alookup_eq_none l k).mp (Option.not_isSome_iff_eq_none.mp hn) h

theorem alookup_of_mem_nodup {α : Type} {l : List (String × α)} {p : String × α}
    (hnd : (l.map (fun q => q.1)).Nodup) (hp : p ∈ l) : alookup l p.1 = some p.2 := by
  induction l with
  | nil => simp at hp
  | cons q rest ih =>
    rw [List.map_cons, List.nodup_cons] at hnd
    rcases List.mem_cons.mp hp with hp | hp
    · rw [hp, alookup_cons, if_pos rfl]
    · have hne : q.1 ≠ p.1 := by
        intro he
        exact hnd.1 (he ▸ List.mem_map_of_mem (fun q => q.1) hp)
      rw [alookup_cons, if_neg hne]
      exact ih hnd.2 hp

theorem aupdate_keys {α : Type} (l : List (String × α)) (k : String) (f : α → α) :
    (aupdate l k f).map (fun p => p.1) = l.map (fun p => p.1) := by
  induction l with
  | nil => rfl
  | cons p rest ih =>
    rw [aupdate_cons]
    by_cases h : p.1 = k <;> simp [h, ih]

theorem alookup_aupdate_self {α : Type} (l : List (String × α)) (k : String) (f : α → α) :
    alookup (aupdate l k f) k = (alookup l k).map f := by
  induction l with
  | nil => rfl
  | cons p rest ih =>
    rw [aupdate_cons]
    by_cases h : p.1 = k
    · rw [if_pos h, alookup_cons, alookup_cons, if_pos h, if_pos h]
      rfl
    · rw [if_neg h, alookup_cons, alookup_cons, if_neg h, if_neg h, ih]

theorem alookup_aupdate_ne {α : Type} (l : List (String × α)) (k k2 : String) (f : α → α)
    (h : k2 ≠ k) : alookup (aupdate l k f) k2 = alookup l k2 := by
  induction l with
  | nil => rfl
  | cons p rest ih =>
    rw [aupdate_cons]
    by_cases hp : p.1 = k
    · have hne : p.1 ≠ k2 := by rw [hp]; exact fun he => h he.symm
      rw [if_pos hp, alookup_cons, alookup_cons, if_neg hne]
      simp only [hne, if_false, ih]
    · rw [if_neg hp, alookup_cons, alookup_cons, ih]

theorem aupdate_eq_self {α : Type} {l : List (String × α)} {k : String} {f : α → α}
    (hnd : (l.map (fun p => p.1)).Nodup)
    (hfix : ∀ v, alookup l k = some v → f v = v) : aupdate l k f = l := by
  induction l with
  | nil => rfl
  | cons p rest ih =>
    rw [List.map_cons, List.nodup_cons] at hnd
    rw [aupdate_cons]
    by_cases hp : p.1 = k
    · have hv : alookup (p :: rest) k = some p.2 := by rw [alookup_cons, if_pos hp]
      have hfp : f p.2 = p.2 := hfix p.2 hv
      have hrest : aupdate rest k f = rest := by
        apply ih hnd.2
        intro v hv2
        exact absurd (hp ▸ List.mem_map_of_mem (fun q => q.1) (alookup_mem hv2)) hnd.1
      rw [if_pos hp, hfp, hrest]
    · have hrest : aupdate rest k f = rest := by
        apply ih hnd.2
        intro v hv2
        apply hfix
        rw [alookup_cons, if_neg hp]
        exact hv2
      rw [if_neg hp, hrest]

theorem alookup_aerase_self {α : Type} (l : List (String × α)) (k : String) :
    alookup (aerase l k) k = none := by
  induction l with
  | nil => rfl
  | cons p rest ih =>
    rw [aerase_cons]
    by_cases h : p.1 = k
    · rw [if_pos h]
      exact ih
    · rw [if_neg h, alookup_cons, if_neg h]
      exact ih

theorem alookup_aerase_ne {α : Type} (l : List (String × α)) (k k2 : String)
    (h : k2 ≠ k) : alookup (aerase l k) k2 = alookup l k2 := by
  induction l with
  | nil => rfl
  | cons p rest ih =>
    rw [aerase_cons]
    by_cases hp : p.1 = k
    · have hne : p.1 ≠ k2 := by rw [hp]; exact fun he => h he.symm
      rw [if_pos hp, alookup_cons, if_neg hne, ih]
    · rw [if_neg hp, alookup_cons, alookup_cons, ih]

theorem alookup_map_value {α β : Type} (l : List (String × α)) (f : String → α → β)
    (k : String) :
    alookup (l.map (fun p => (p.1, f p.1 p.2))) k = (alookup l k).map (f k) := by
  induction l with
  | nil => rfl
  | cons p rest ih =>
    rw [List.map_cons]
    by_cases h : p.1 = k
    · rw [alookup_cons, alookup_cons]
      simp only [if_pos h]
      rw [h]
      rfl
    · rw [alookup_cons, alookup_cons, if_neg h, if_neg h, ih]

theorem mem_insertNew (l : List String) (x y : String) :
    y ∈ insertNew l x ↔ y ∈ l ∨ y = x := by
  by_cases h : x ∈ l
  · simp [insertNew, h]
    intro he
    rw [he] at *
    tauto
  · simp [insertNew, h]

theorem insertNew_of_not_mem {l : List String} {x : String} (h : x ∉ l) :
    insertNew l x = l ++ [x] := by
  simp [insertNew, h]

theorem mem_foldl_insertNew (l : List String) (acc : List String) (x : String) :
    x ∈ l.foldl insertNew acc ↔ x ∈ acc ∨ x ∈ l := by
  induction l generalizing acc with
  | nil => simp
  | cons y rest ih =>
    rw [List.foldl_cons, ih, mem_insertNew, List.mem_cons]
    tauto

/-! ## Variable mapping lemmas -/

theorem vlookup_vset_self (vs : Vars) (k : String) (v : Option String) :
    vlookup (vset vs k v) k = some v := by
  induction vs with
  | nil => simp [vset, vlookup, alookup]
  | cons p rest ih =>
    by_cases h : p.1 = k
    · cases p
      simp only at h
      simp [vset, h, vlookup, alookup_cons]
    · cases p
      simp only at h
      simp only [vset, h, if_false]
      simpa [vlookup, alookup_cons, h] using ih

theorem vlookup_vset_ne (vs : Vars) (k k2 : String) (v : Option String)
    (h : k2 ≠ k) : vlookup (vset vs k v) k2 = vlookup vs k2 := by
  have hkk : ¬ k = k2 := fun he => h he.symm
  induction vs with
  | nil =>
    show alookup [(k, v)] k2 = alookup [] k2
    rw [alookup_cons]
    simp only [alookup, hkk, if_false]
  | cons p rest ih =>
    cases p with
    | mk a b =>
      simp only [vlookup] at ih ⊢
      by_cases hp : a = k
      · subst hp
        simp only [vset, if_pos rfl, if_true]
        rw [alookup_cons, alookup_cons]
        simp only
        rw [if_neg hkk, if_neg hkk]
      · simp only [vset, hp, if_false]
        rw [alookup_cons, alookup_cons]
        simp only
        by_cases ha : a = k2
        · rw [if_pos ha, if_pos ha]
        · rw [if_neg ha, if_neg ha]
          exact ih

theorem vset_keys (vs : Vars) (k : String) (v : Option String) :
    (vset vs k v).map (fun p => p.1) =
      if k ∈ vs.map (fun p => p.1) then vs.map (fun p => p.1)
      else vs.map (fun p => p.1) ++ [k] := by
  induction vs with
  | nil => simp [vset]
  | cons p rest ih =>
    by_cases hp : p.1 = k
    · cases p
      simp only at hp
      simp [vset, hp]
    · cases p
      simp only at hp
      have : ¬ k = _ := fun he => hp he.symm
      simp only [vset, hp, if_false, List.map_cons, List.mem_cons, this, false_or]
      rw [ih]
      by_cases hk : k ∈ rest.map (fun p => p.1) <;> simp [hk]

theorem vset_keys_nodup {vs : Vars} (hnd : (vs.map (fun p => p.1)).Nodup)
    (k : String) (v : Option String) : ((vset vs k v).map (fun p => p.1)).Nodup := by
  rw [vset_keys]
  by_cases hk : k ∈ vs.map (fun p => p.1)
  · simpa [hk] using hnd
  · simp only [hk, if_false]
    simpa [List.nodup_append, hk] using hnd

/-! ## `combine_vars` lemmas -/

theorem vlookup_filter_key (b : Vars) (P : String → Bool) (k : String) :
    vlookup (b.filter (fun p => P p.1)) k =
      if P k then vlookup b k else none := by
  induction b with
  | nil => simp [vlookup, alookup]
  | cons p rest ih =>
    rw [vlookup] at ih ⊢
    have hvrest : vlookup rest k = alookup rest k := rfl
    by_cases hp : p.1 = k
    · subst hp
      by_cases hP : P p.1
      · rw [List.filter_cons, if_pos (by simpa using hP), alookup_cons, if_pos rfl]
        rw [if_pos hP, vlookup, alookup_cons, if_pos rfl]
      · rw [List.filter_cons, if_neg (by simpa using hP), ih, if_neg hP, if_neg hP]
    · by_cases hP : P p.1
      · rw [List.filter_cons, if_pos (by simpa using hP), alookup_cons, if_neg hp, ih]
        by_cases hk : P k
        · rw [if_pos hk, if_pos hk, hvrest, vlookup, alookup_cons, if_neg hp]
        · rw [if_neg hk, if_neg hk]
      · rw [List.filter_cons, if_neg (by simpa using hP), ih]
        by_cases hk : P k
        · rw [if_pos hk, if_pos hk, hvrest, vlookup, alookup_cons, if_neg hp]
        · rw [if_neg hk, if_neg hk]

theorem vlookup_combine (a b : Vars) (k : String) :
    vlookup (combine_vars a b) k = (vlookup b k).or (vlookup a k) := by
  rw [combine_vars, vlookup, alookup_append]
  have h1 : alookup (a.map (fun p => (p.1, (vlookup b p.1).getD p.2))) k =
      (alookup a k).map (fun v => (vlookup b k).getD v) := by
    exact alookup_map_value a (fun k2 v => (vlookup b k2).getD v) k
  rw [h1]
  have h2 : alookup (b.filter (fun p => (vlookup a p.1).isNone)) k =
      if (vlookup a k).isNone then vlookup b k else none := by
    exact vlookup_filter_key b (fun k2 => (vlookup a k2).isNone) k
  rw [h2]
  cases ha : vlookup a k with
  | none =>
    rw [vlookup] at ha
    rw [ha]
    simp [ha]
  | some v =>
    rw [vlookup] at ha
    rw [ha]
    cases hb : vlookup b k <;> simp [hb, ha]

theorem vlookup_of_mem_nodup {vs : Vars} {p : String × Option String}
    (hnd : (vs.map (fun q => q.1)).Nodup) (hp : p ∈ vs) : vlookup vs p.1 = some p.2 :=
  alookup_of_mem_nodup hnd hp

theorem combine_vars_idem {a : Vars} (hnd : (a.map (fun p => p.1)).Nodup) (b : Vars) :
    combine_vars a (combine_vars a b) = combine_vars a b := by
  have hfirst : a.map (fun p => (p.1, (vlookup (combine_vars a b) p.1).getD p.2)) =
      a.map (fun p => (p.1, (vlookup b p.1).getD p.2)) := by
    apply List.map_congr_left
    intro p hp
    have hap : vlookup a p.1 = some p.2 := vlookup_of_mem_nodup hnd hp
    rw [vlookup_combine, hap]
    cases hb : vlookup b p.1 <;> simp [hb]
  have hsecond : (combine_vars a b).filter (fun p => (vlookup a p.1).isNone) =
      b.filter (fun p => (vlookup a p.1).isNone) := by
    rw [combine_vars, List.filter_append]
    have hleft : (a.map (fun p => (p.1, (vlookup b p.1).getD p.2))).filter
        (fun p => (vlookup a p.1).isNone) = [] := by
      rw [List.filter_eq_nil_iff]
      intro p hp
      rcases List.mem_map.mp hp with ⟨q, hq, hqe⟩
      have : vlookup a q.1 = some q.2 := vlookup_of_mem_nodup hnd hq
      rw [← hqe]
      simp [this]
    rw [hleft, List.nil_append, List.filter_filter]
    apply List.filter_congr
    intro p hp
    simp
  rw [combine_vars, hfirst, hsecond]
  rfl

/-! ## Parent-closure (`get_ancestors`) lemmas -/

theorem sum_map_filter_le {α : Type} (l : List α) (f : α → Nat) (P Q : α → Bool)
    (h : ∀ p ∈ l, P p → Q p) :
    ((l.filter P).map f).sum ≤ ((l.filter Q).map f).sum := by
  induction l with
  | nil => simp
  | cons p rest ih =>
    have hrest := ih (fun q hq => h q (List.mem_cons_of_mem _ hq))
    by_cases hP : P p
    · rw [List.filter_cons, if_pos hP, List.filter_cons, if_pos (h p (List.mem_cons_self _ _) hP)]
      simpa using hrest
    · rw [List.filter_cons, if_neg (by simpa using hP)]
      by_cases hQ : Q p
      · rw [List.filter_cons, if_pos hQ, List.map_cons, List.sum_cons]
        omega
      · rw [List.filter_cons, if_neg (by simpa using hQ)]
        exact hrest

theorem filter_visited_stable (reg : List (String × Group)) (visited : List String)
    (a : String) (h : alookup reg a = none) :
    reg.filter (fun p => p.1 ∉ visited ++ [a]) =
      reg.filter (fun p => p.1 ∉ visited) := by
  apply List.filter_congr
  intro p hp
  have hne : p.1 ≠ a := by
    intro he
    exact (alookup_eq_none reg a).mp h (he ▸ List.mem_map_of_mem (fun q => q.1) hp)
  simp [List.mem_append, hne]

theorem sumFiltered_drop (reg : List (String × Group)) (visited : List String)
    (a : String) (ha : a ∉ visited) (gr : Group) (halk : alookup reg a = some gr) :
    ((reg.filter (fun p => p.1 ∉ visited ++ [a])).map
        (fun p => p.2.parent_groups.length + 1)).sum
      + (gr.parent_groups.length + 1)
    ≤ ((reg.filter (fun p => p.1 ∉ visited)).map
        (fun p => p.2.parent_groups.length + 1)).sum := by
  induction reg with
  | nil => simp [alookup] at halk
  | cons q rest ih =>
    by_cases hq : q.1 = a
    · rw [alookup_cons, if_pos hq] at halk
      have hgr : q.2 = gr := by simpa using halk
      have hqin : (q.1 ∉ visited) = True := by
        rw [hq]
        simp [ha]
      have hqout : (q.1 ∉ visited ++ [a]) = False := by
        rw [hq]
        simp
      rw [List.filter_cons, List.filter_cons]
      simp only [hqout, decide_False, Bool.false_eq_true, if_false, hqin, decide_True, if_true]
      rw [List.map_cons, List.sum_cons, hgr]
      have hmono : ((rest.filter (fun p => p.1 ∉ visited ++ [a])).map
          (fun p => p.2.parent_groups.length + 1)).sum ≤
          ((rest.filter (fun p => p.1 ∉ visited)).map
            (fun p => p.2.parent_groups.length + 1)).sum := by
        apply sum_map_filter_le
        intro p _ hP
        simp only [decide_eq_true_eq, List.mem_append] at hP ⊢
        intro hc
        exact hP (Or.inl hc)
      omega
    · rw [alookup_cons, if_neg hq] at halk
      have hrec := ih halk
      rw [List.filter_cons, List.filter_cons]
      by_cases hv : q.1 ∈ visited
      · have h1 : (q.1 ∉ visited ++ [a]) = False := by simp [List.mem_append, hv]
        have h2 : (q.1 ∉ visited) = False := by simp [hv]
        simp only [h1, h2, decide_False, Bool.false_eq_true, if_false]
        exact hrec
      · have h1 : (q.1 ∉ visited ++ [a]) = True := by simp [List.mem_append, hv, hq]
        have h2 : (q.1 ∉ visited) = True := by simp [hv]
        simp only [h1, h2, decide_True, if_true, List.map_cons, List.sum_cons]
        omega

theorem closureAux_zero (reg : List (String × Group)) (frontier visited : List String) :
    closureAux reg 0 frontier visited = visited := rfl

theorem closureAux_succ_nil (reg : List (String × Group)) (n : Nat) (visited : List String) :
    closureAux reg (n + 1) [] visited = visited := rfl

theorem closureAux_succ_cons (reg : List (String × Group)) (n : Nat) (a : String)
    (rest visited : List String) :
    closureAux reg (n + 1) (a :: rest) visited =
      if a ∈ visited then closureAux reg n rest visited
      else
        match alookup reg a with
        | none => closureAux reg n rest (visited ++ [a])
        | some gr => closureAux reg n (rest ++ gr.parent_groups) (visited ++ [a]) := rfl

theorem closureAux_spec (reg : List (String × Group)) :
    ∀ fuel frontier visited,
      closureMeasure reg frontier visited ≤ fuel →
      (∀ x ∈ visited, ∀ g, alookup reg x = some g →
        ∀ p ∈ g.parent_groups, p ∈ visited ∨ p ∈ frontier) →
      visited ⊆ closureAux reg fuel frontier visited ∧
      (∀ x ∈ frontier, x ∈ closureAux reg fuel frontier visited) ∧
      (∀ x ∈ closureAux reg fuel frontier visited, ∀ g, alookup reg x = some g →
        ∀ p ∈ g.parent_groups, p ∈ closureAux reg fuel frontier visited) := by
  intro fuel
  induction fuel with
  | zero =>
    intro frontier visited hm hinv
    have hf : frontier = [] := by
      rw [closureMeasure] at hm
      exact List.eq_nil_of_length_eq_zero (by omega)
    subst hf
    rw [closureAux_zero]
    refine ⟨fun x hx => hx, by simp, ?_⟩
    intro x hx g hg p hp
    rcases hinv x hx g hg p hp with h | h
    · exact h
    · simp at h
  | succ n ih =>
    intro frontier visited hm hinv
    cases frontier with
    | nil =>
      rw [closureAux_succ_nil]
      refine ⟨fun x hx => hx, by simp, ?_⟩
      intro x hx g hg p hp
      rcases hinv x hx g hg p hp with h | h
      · exact h
      · simp at h
    | cons a rest =>
      rw [closureAux_succ_cons]
      by_cases hav : a ∈ visited
      · rw [if_pos hav]
        have hm2 : closureMeasure reg rest visited ≤ n := by
          rw [closureMeasure] at hm ⊢
          rw [List.length_cons] at hm
          omega
        have hinv2 : ∀ x ∈ visited, ∀ g, alookup reg x = some g →
            ∀ p ∈ g.parent_groups, p ∈ visited ∨ p ∈ rest := by
          intro x hx g hg p hp
          rcases hinv x hx g hg p hp with h | h
          · exact Or.inl h
          · rcases List.mem_cons.mp h with h | h
            · exact Or.inl (h ▸ hav)
            · exact Or.inr h
        obtain ⟨c1, c2, c3⟩ := ih rest visited hm2 hinv2
        refine ⟨c1, ?_, c3⟩
        intro x hx
        rcases List.mem_cons.mp hx with h | h
        · exact c1 (h ▸ hav)
        · exact c2 x h
      · rw [if_neg hav]
        cases halk : alookup reg a with
        | none =>
          have hm2 : closureMeasure reg rest (visited ++ [a]) ≤ n := by
            rw [closureMeasure] at hm ⊢
            rw [List.length_cons] at hm
            rw [filter_visited_stable reg visited a halk]
            omega
          have hinv2 : ∀ x ∈ visited ++ [a], ∀ g, alookup reg x = some g →
              ∀ p ∈ g.parent_groups, p ∈ visited ++ [a] ∨ p ∈ rest := by
            intro x hx g hg p hp
            rcases List.mem_append.mp hx with hx | hx
            · rcases hinv x hx g hg p hp with h | h
              · exact Or.inl (List.mem_append_left _ h)
              · rcases List.mem_cons.mp h with h | h
                · exact Or.inl (List.mem_append_right _ (h ▸ List.mem_singleton_self a))
                · exact Or.inr h
            · rw [List.mem_singleton.mp hx] at hg
              rw [halk] at hg
              cases hg
          obtain ⟨c1, c2, c3⟩ := ih rest (visited ++ [a]) hm2 hinv2
          refine ⟨fun x hx => c1 (List.mem_append_left _ hx), ?_, c3⟩
          intro x hx
          rcases List.mem_cons.mp hx with h | h
          · exact c1 (List.mem_append_right _ (h ▸ List.mem_singleton_self a))
          · exact c2 x h
        | some gr =>
          have hdrop := sumFiltered_drop reg visited a hav gr halk
          have hm2 : closureMeasure reg (rest ++ gr.parent_groups) (visited ++ [a]) ≤ n := by
            rw [closureMeasure] at hm ⊢
            rw [List.length_cons] at hm
            rw [List.length_append]
            omega
          have hinv2 : ∀ x ∈ visited ++ [a], ∀ g, alookup reg x = some g →
              ∀ p ∈ g.parent_groups, p ∈ visited ++ [a] ∨ p ∈ rest ++ gr.parent_groups := by
            intro x hx g hg p hp
            rcases List.mem_append.mp hx with hx | hx
            · rcases hinv x hx g hg p hp with h | h
              · exact Or.inl (List.mem_append_left _ h)
              · rcases List.mem_cons.mp h with h | h
                · exact Or.inl (List.mem_append_right _ (h ▸ List.mem_singleton_self a))
                · exact Or.inr (List.mem_append_left _ h)
            · rw [List.mem_singleton.mp hx] at hg
              rw [halk] at hg
              have hggr : g = gr := by
                cases hg
                rfl
              exact Or.inr (List.mem_append_right _ (hggr ▸ hp))
          obtain ⟨c1, c2, c3⟩ := ih (rest ++ gr.parent_groups) (visited ++ [a]) hm2 hinv2
          refine ⟨fun x hx => c1 (List.mem_append_left _ hx), ?_, c3⟩
          intro x hx
          rcases List.mem_cons.mp hx with h | h
          · exact c1 (List.mem_append_right _ (h ▸ List.mem_singleton_self a))
          · exact c2 x (List.mem_append_left _ h)

theorem closureAux_prov (reg : List (String × Group)) :
    ∀ fuel frontier visited x, x ∈ closureAux reg fuel frontier visited →
      x ∈ visited ∨ x ∈ frontier ∨ ∃ q ∈ reg, x ∈ q.2.parent_groups := by
  intro fuel
  induction fuel with
  | zero =>
    intro frontier visited x hx
    rw [closureAux_zero] at hx
    exact Or.inl hx
  | succ n ih =>
    intro frontier visited x hx
    cases frontier with
    | nil =>
      rw [closureAux_succ_nil] at hx
      exact Or.inl hx
    | cons a rest =>
      rw [closureAux_succ_cons] at hx
      by_cases hav : a ∈ visited
      · rw [if_pos hav] at hx
        rcases ih rest visited x hx with h | h | h
        · exact Or.inl h
        · exact Or.inr (Or.inl (List.mem_cons_of_mem _ h))
        · exact Or.inr (Or.inr h)
      · rw [if_neg hav] at hx
        cases halk : alookup reg a with
        | none =>
          rw [halk] at hx
          rcases ih rest (visited ++ [a]) x hx with h | h | h
          · rcases List.mem_append.mp h with h | h
            · exact Or.inl h
            · exact Or.inr (Or.inl (List.mem_singleton.mp h ▸ List.mem_cons_self a rest))
          · exact Or.inr (Or.inl (List.mem_cons_of_mem _ h))
          · exact Or.inr (Or.inr h)
        | some gr =>
          rw [halk] at hx
          rcases ih (rest ++ gr.parent_groups) (visited ++ [a]) x hx with h | h | h
          · rcases List.mem_append.mp h with h | h
            · exact Or.inl h
            · exact Or.inr (Or.inl (List.mem_singleton.mp h ▸ List.mem_cons_self a rest))
          · rcases List.mem_append.mp h with h | h
            · exact Or.inr (Or.inl (List.mem_cons_of_mem _ h))
            · exact Or.inr (Or.inr ⟨(a, gr), alookup_mem halk, h⟩)
          · exact Or.inr (Or.inr h)

theorem get_ancestors_sup_parents (reg : List (String × Group)) (g : Group) :
    ∀ p ∈ g.parent_groups, p ∈ get_ancestors reg g := by
  have hm : closureMeasure reg g.parent_groups [] ≤ g.parent_groups.length + sumParents reg := by
    rw [closureMeasure, sumParents]
    have : reg.filter (fun p => p.1 ∉ ([] : List String)) = reg := by
      apply List.filter_eq_self.mpr
      intro p _
      simp
    rw [this]
  have hinv : ∀ x ∈ ([] : List String), ∀ gr, alookup reg x = some gr →
      ∀ p ∈ gr.parent_groups, p ∈ ([] : List String) ∨ p ∈ g.parent_groups := by
    intro x hx
    simp at hx
  exact (closureAux_spec reg _ g.parent_groups [] hm hinv).2.1

theorem get_ancestors_closed (reg : List (String × Group)) (g : Group) :
    ∀ x ∈ get_ancestors reg g, ∀ gr, alookup reg x = some gr →
      ∀ p ∈ gr.parent_groups, p ∈ get_ancestors reg g := by
  have hm : closureMeasure reg g.parent_groups [] ≤ g.parent_groups.length + sumParents reg := by
    rw [closureMeasure, sumParents]
    have : reg.filter (fun p => p.1 ∉ ([] : List String)) = reg := by
      apply List.filter_eq_self.mpr
      intro p _
      simp
    rw [this]
  have hinv : ∀ x ∈ ([] : List String), ∀ gr, alookup reg x = some gr →
      ∀ p ∈ gr.parent_groups, p ∈ ([] : List String) ∨ p ∈ g.parent_groups := by
    intro x hx
    simp at hx
  exact (closureAux_spec reg _ g.parent_groups [] hm hinv).2.2

theorem get_ancestors_prov (reg : List (String × Group)) (g : Group) :
    ∀ x ∈ get_ancestors reg g,
      x ∈ g.parent_groups ∨ ∃ q ∈ reg, x ∈ q.2.parent_groups := by
  intro x hx
  rcases closureAux_prov reg _ g.parent_groups [] x hx with h | h | h
  · simp at h
  · exact Or.inl h
  · exact Or.inr h

theorem get_ancestors_eq_nil_iff (reg : List (String × Group)) (g : Group) :
    get_ancestors reg g = [] ↔ g.parent_groups = [] := by
  constructor
  · intro h
    rcases hp : g.parent_groups with _ | ⟨p, rest⟩
    · rfl
    · have := get_ancestors_sup_parents reg g p (by rw [hp]; exact List.mem_cons_self _ _)
      rw [h] at this
      simp at this
  · intro h
    rw [get_ancestors, h]
    cases sumParents reg <;> rfl

theorem headD_mem {l : List String} (h : l ≠ []) (d : String) : l.headD d ∈ l := by
  cases l with
  | nil => exact absurd rfl h
  | cons a t => simp

/-- In a registry whose parent links are total (no dangling references),
mirrored by names, acyclic, and in which every group other than `all` has
a parent, every group other than `all` has `all` among its ancestors. -/
theorem reach_all (reg : List (String × Group))
    (hnc : ∀ p ∈ reg, p.2.name = p.1)
    (hnd : ∀ p ∈ reg, ∀ q ∈ p.2.parent_groups, (alookup reg q).isSome = true)
    (hac : ∀ p ∈ reg, p.1 ∉ get_ancestors reg p.2)
    (hne : ∀ p ∈ reg, p.2.name ≠ "all" → p.2.parent_groups ≠ [])
    (p : String × Group) (hp : p ∈ reg) (hpall : p.1 ≠ "all") :
    "all" ∈ get_ancestors reg p.2 := by
  by_contra hall
  have hF1 : ∀ x ∈ get_ancestors reg p.2, ∃ gx, alookup reg x = some gx := by
    intro x hx
    rcases get_ancestors_prov reg p.2 x hx with h | ⟨q, hq, hxq⟩
    · exact Option.isSome_iff_exists.mp (hnd p hp x h)
    · exact Option.isSome_iff_exists.mp (hnd q hq x hxq)
  have hF2 : ∀ x ∈ get_ancestors reg p.2, ∀ gx, alookup reg x = some gx →
      gx.parent_groups ≠ [] ∧ ∀ q ∈ gx.parent_groups, q ∈ get_ancestors reg p.2 := by
    intro x hx gx hgx
    have hmem : (x, gx) ∈ reg := alookup_mem hgx
    have hxname : gx.name = x := hnc (x, gx) hmem
    have hxall : x ≠ "all" := fun he => hall (he ▸ hx)
    refine ⟨hne (x, gx) hmem (by rw [hxname]; exact hxall), ?_⟩
    intro q hq
    exact get_ancestors_closed reg p.2 x hx gx hgx q hq
  classical
  let nxt : String → String := fun x =>
    match alookup reg x with
    | some gx => gx.parent_groups.headD ""
    | none => ""
  have hF3 : ∀ x ∈ get_ancestors reg p.2, nxt x ∈ get_ancestors reg p.2 := by
    intro x hx
    rcases hF1 x hx with ⟨gx, hgx⟩
    rcases hF2 x hx gx hgx with ⟨hne2, hsub⟩
    have : nxt x = gx.parent_groups.headD "" := by
      simp only [nxt, hgx]
    rw [this]
    exact hsub _ (headD_mem hne2 "")
  have hstay : ∀ x ∈ get_ancestors reg p.2, ∀ m : Nat,
      nxt^[m] x ∈ get_ancestors reg p.2 := by
    intro x hx m
    induction m with
    | zero => exact hx
    | succ mm ihmm =>
      rw [Function.iterate_succ_apply']
      exact hF3 _ ihmm
  have hpne : p.2.parent_groups ≠ [] := by
    apply hne p hp
    rw [hnc p hp]
    exact hpall
  have hx0 : p.2.parent_groups.headD "" ∈ get_ancestors reg p.2 :=
    get_ancestors_sup_parents reg p.2 _ (headD_mem hpne "")
  have hF5 : ∀ i : Nat, nxt^[i] (p.2.parent_groups.headD "") ∈ get_ancestors reg p.2 := by
    intro i
    induction i with
    | zero => exact hx0
    | succ m ihm =>
      rw [Function.iterate_succ_apply']
      exact hF3 _ ihm
  have hcard : ((get_ancestors reg p.2).toFinset).card <
      (Finset.range ((get_ancestors reg p.2).length + 1)).card := by
    rw [Finset.card_range]
    exact Nat.lt_succ_of_le (List.toFinset_card_le _)
  obtain ⟨i, hi, j, hj, hij, hueq⟩ :=
    Finset.exists_ne_map_eq_of_card_lt_of_maps_to hcard
      (fun i _ => List.mem_toFinset.mpr (hF5 i))
  have hchain : ∀ x, x ∈ get_ancestors reg p.2 → ∀ gx, alookup reg x = some gx →
      ∀ k : Nat, 1 ≤ k → nxt^[k] x ∈ get_ancestors reg gx := by
    intro x hx gx hgx k
    induction k with
    | zero => omega
    | succ m ihm =>
      intro _
      by_cases hm : 1 ≤ m
      · have hy : nxt^[m] x ∈ get_ancestors reg p.2 := hstay x hx m
        have hyanc : nxt^[m] x ∈ get_ancestors reg gx := ihm hm
        rcases hF1 _ hy with ⟨gy, hgy⟩
        rcases hF2 _ hy gy hgy with ⟨hyne, _⟩
        rw [Function.iterate_succ_apply']
        have hnx : nxt (nxt^[m] x) = gy.parent_groups.headD "" := by
          simp only [nxt, hgy]
        rw [hnx]
        exact get_ancestors_closed reg gx _ hyanc gy hgy _ (headD_mem hyne "")
      · have hm0 : m = 0 := by omega
        subst hm0
        rw [Function.iterate_one]
        rcases hF2 x hx gx hgx with ⟨hne2, _⟩
        have hnx : nxt x = gx.parent_groups.headD "" := by
          simp only [nxt, hgx]
        rw [hnx]
        exact get_ancestors_sup_parents reg gx _ (headD_mem hne2 "")
  rcases Nat.lt_or_ge i j with hlt | hge
  · have hk : 1 ≤ j - i := by omega
    have hxA : nxt^[i] (p.2.parent_groups.headD "") ∈ get_ancestors reg p.2 := hF5 i
    rcases hF1 _ hxA with ⟨gx, hgx⟩
    have hiter : nxt^[j - i] (nxt^[i] (p.2.parent_groups.headD "")) =
        nxt^[i] (p.2.parent_groups.headD "") := by
      rw [← Function.iterate_add_apply]
      have : j - i + i = j := by omega
      rw [this]
      exact hueq.symm
    have := hchain _ hxA gx hgx (j - i) hk
    rw [hiter] at this
    exact hac _ (alookup_mem hgx) this
  · have hlt2 : j < i := by omega
    have hk : 1 ≤ i - j := by omega
    have hxA : nxt^[j] (p.2.parent_groups.headD "") ∈ get_ancestors reg p.2 := hF5 j
    rcases hF1 _ hxA with ⟨gx, hgx⟩
    have hiter : nxt^[i - j] (nxt^[j] (p.2.parent_groups.headD "")) =
        nxt^[j] (p.2.parent_groups.headD "") := by
      rw [← Function.iterate_add_apply]
      have : i - j + j = i := by omega
      rw [this]
      exact hueq
    have := hchain _ hxA gx hgx (i - j) hk
    rw [hiter] at this
    exact hac _ (alookup_mem hgx) this

/-! ## `get_hosts` provenance (for the derived view) -/

theorem hostsAux_prov (reg : List (String × Group)) :
    ∀ fuel frontier seen acc x, x ∈ hostsAux reg fuel frontier seen acc →
      x ∈ acc ∨ ∃ q ∈ reg, x ∈ q.2.hosts := by
  intro fuel
  induction fuel with
  | zero =>
    intro frontier seen acc x hx
    exact Or.inl hx
  | succ n ih =>
    intro frontier seen acc x hx
    cases frontier with
    | nil => exact Or.inl hx
    | cons a rest =>
      rw [show hostsAux reg (n + 1) (a :: rest) seen acc =
          if a ∈ seen then hostsAux reg n rest seen acc
          else
            match alookup reg a with
            | none => hostsAux reg n rest (seen ++ [a]) acc
            | some gr =>
              hostsAux reg n (rest ++ gr.child_groups) (seen ++ [a])
                (gr.hosts.foldl insertNew acc) from rfl] at hx
      by_cases hav : a ∈ seen
      · rw [if_pos hav] at hx
        exact ih rest seen acc x hx
      · rw [if_neg hav] at hx
        cases halk : alookup reg a with
        | none =>
          rw [halk] at hx
          exact ih rest (seen ++ [a]) acc x hx
        | some gr =>
          rw [halk] at hx
          rcases ih _ _ _ x hx with h | h
          · rcases (mem_foldl_insertNew _ _ _).mp h with h | h
            · exact Or.inl h
            · exact Or.inr ⟨(a, gr), alookup_mem halk, h⟩
          · exact Or.inr h

theorem get_hosts_prov (reg : List (String × Group)) (g : Group) :
    ∀ x ∈ get_hosts reg g, x ∈ g.hosts ∨ ∃ q ∈ reg, x ∈ q.2.hosts := by
  intro x hx
  rcases hostsAux_prov reg _ _ _ _ x hx with h | h
  · rcases (mem_foldl_insertNew _ _ _).mp h with h | h
    · simp at h
    · exact Or.inl h
  · exact Or.inr h

/-! ## Frame lemmas for the group registry -/

theorem gframe_refl (l : List (String × Group)) : gframe l l := by
  intro k g h
  exact ⟨g, h, rfl, fun q hq => hq⟩

theorem gframe_trans {l1 l2 l3 : List (String × Group)} (h12 : gframe l1 l2)
    (h23 : gframe l2 l3) : gframe l1 l3 := by
  intro k g h
  rcases h12 k g h with ⟨g2, hg2, hn2, hp2⟩
  rcases h23 k g2 hg2 with ⟨g3, hg3, hn3, hp3⟩
  exact ⟨g3, hg3, hn3.trans hn2, fun q hq => hp3 q (hp2 q hq)⟩

theorem gframe_aupdate_at {l : List (String × Group)} {k : String} {g : Group}
    (hg : alookup l k = some g) (f : Group → Group)
    (hf : (f g).name = g.name ∧ ∀ q ∈ g.parent_groups, q ∈ (f g).parent_groups) :
    gframe l (aupdate l k f) := by
  intro k2 g2 h
  by_cases hk : k2 = k
  · subst hk
    have hgg : g2 = g := by
      rw [h] at hg
      exact Option.some.inj hg
    subst hgg
    refine ⟨f g2, ?_, hf.1, hf.2⟩
    rw [alookup_aupdate_self, h]
    rfl
  · exact ⟨g2, by rw [alookup_aupdate_ne _ _ _ _ hk]; exact h, rfl, fun q hq => hq⟩

theorem gframe_aupdate (l : List (String × Group)) (k : String) (f : Group → Group)
    (hf : ∀ g, (f g).name = g.name ∧ ∀ q ∈ g.parent_groups, q ∈ (f g).parent_groups) :
    gframe l (aupdate l k f) := by
  intro k2 g h
  by_cases hk : k2 = k
  · subst hk
    refine ⟨f g, ?_, (hf g).1, (hf g).2⟩
    rw [alookup_aupdate_self, h]
    rfl
  · exact ⟨g, by rw [alookup_aupdate_ne _ _ _ _ hk]; exact h, rfl, fun q hq => hq⟩

theorem gframe_append (l l2 : List (String × Group)) : gframe l (l ++ l2) := by
  intro k g h
  refine ⟨g, ?_, rfl, fun q hq => hq⟩
  rw [alookup_append, h]
  rfl

theorem RootInv_of_gframe {l l2 : List (String × Group)} (hf : gframe l l2)
    (hr : RootInv l) : RootInv l2 := by
  obtain ⟨⟨ga, hga, hgan⟩, ⟨gu, hgu, hgun, hgup⟩⟩ := hr
  rcases hf "all" ga hga with ⟨ga2, hga2, hga2n, _⟩
  rcases hf "ungrouped" gu hgu with ⟨gu2, hgu2, hgu2n, hgu2p⟩
  exact ⟨⟨ga2, hga2, hga2n.trans hgan⟩,
    ⟨gu2, hgu2, hgu2n.trans hgun, hgu2p _ hgup⟩⟩

/-! ### Per-operation group-registry frames -/

theorem gframe_groupAddHost (st : InventoryData) (gk hk : String) :
    gframe st.groups (groupAddHost st gk hk).2.groups := by
  rw [groupAddHost]
  split
  · rename_i g h hg hh
    split
    · exact gframe_refl _
    · exact gframe_aupdate st.groups gk
        (fun g2 => { g2 with hosts := g2.hosts ++ [h.name] })
        (fun g2 => ⟨rfl, fun q hq => hq⟩)
  · exact gframe_refl _

theorem gframe_groupRemoveHost (st : InventoryData) (gk hk : String) :
    gframe st.groups (groupRemoveHost st gk hk).groups := by
  rw [groupRemoveHost]
  split
  · exact gframe_refl _
  · rename_i g hg
    exact gframe_aupdate st.groups gk
      (fun g2 => { g2 with hosts := g2.hosts.filter (· ≠ hk) })
      (fun g2 => ⟨rfl, fun q hq => hq⟩)

theorem gframe_groupAddChildGroup {st : InventoryData} {pkey ckey : String}
    {b : Bool} {st2 : InventoryData}
    (h : groupAddChildGroup st pkey ckey = .ok (b, st2)) :
    gframe st.groups st2.groups := by
  rw [groupAddChildGroup] at h
  split at h
  · rename_i p c hp hc
    split at h
    · cases h
    · split at h
      · cases h
        exact gframe_refl _
      · split at h
        · cases h
        · cases h
          apply gframe_trans
            (gframe_aupdate _ pkey
              (fun p2 => { p2 with child_groups := p2.child_groups ++ [c.name] })
              (fun g2 => ⟨rfl, fun q hq => hq⟩))
          exact gframe_aupdate _ ckey
            (fun c2 => { c2 with parent_groups := c2.parent_groups ++ [p.name] })
            (fun g2 => ⟨rfl, fun q hq => List.mem_append_left _ hq⟩)
  · cases h

theorem gframe_add_child {st : InventoryData} {group child : String} {b : Bool}
    {st2 : InventoryData} (h : add_child st group child = .ok (b, st2)) :
    gframe st.groups st2.groups := by
  rw [add_child] at h
  split at h
  · cases h
  · split at h
    · split at h
      · cases h
      · rename_i added st1 hacg
        cases h
        have hf := gframe_groupAddChildGroup hacg
        exact hf
    · split at h
      · cases h
        exact gframe_groupAddHost st group child
      · cases h

theorem gframe_add_group {st : InventoryData} {gname g2 : String} {st2 : InventoryData}
    (h : add_group st gname = .ok (g2, st2)) : gframe st.groups st2.groups := by
  rw [add_group] at h
  split at h
  · cases h
  · split at h
    · cases h
      exact gframe_refl _
    · split at h
      · cases h
        exact gframe_refl _
      · cases h
        exact gframe_append _ _

theorem gframe_set_variable {st : InventoryData} {e k : String} {v : Option String}
    {st2 : InventoryData} (h : set_variable st e k v = .ok st2) :
    gframe st.groups st2.groups := by
  rw [set_variable] at h
  split at h
  · rename_i g hg
    cases h
    exact gframe_aupdate_at hg (fun _ => { g with vars := vset g.vars k v })
      ⟨rfl, fun q hq => hq⟩
  · split at h
    · cases h
      exact gframe_refl _
    · cases h

theorem gframe_setVarSoft (st : InventoryData) (e k : String) (v : Option String) :
    gframe st.groups (setVarSoft st e k v).groups := by
  rw [setVarSoft]
  split
  · rename_i s3 hsv
    exact gframe_set_variable hsv
  · exact gframe_refl _

theorem localhostDefault_groups (st : InventoryData) (host : String) :
    (localhostDefault st host).groups = st.groups := by
  rw [localhostDefault]
  split
  · split <;> rfl
  · rfl

theorem addHostRaw_groups (st : InventoryData) (host : String) (port : Option Nat) :
    (addHostRaw st host port).groups = st.groups := rfl

theorem gframe_addHostNew (st : InventoryData) (host : String) (port : Option Nat) :
    gframe st.groups (addHostNew st host port).groups := by
  rw [addHostNew, localhostDefault_groups]
  have h1 : gframe st.groups (addHostRaw st host port).groups := by
    rw [addHostRaw_groups]
    exact gframe_refl _
  exact gframe_trans h1
    (gframe_trans (gframe_setVarSoft _ _ _ _) (gframe_setVarSoft _ _ _ _))

theorem gframe_add_host {st : InventoryData} {host : String} {group : Option String}
    {port : Option Nat} {h2 : String} {st2 : InventoryData}
    (h : add_host st host group port = .ok (h2, st2)) : gframe st.groups st2.groups := by
  have hst1 : gframe st.groups
      (if (alookup st.hosts (remove_trust host)).isSome = true then st
       else addHostNew st (remove_trust host) port).groups := by
    split
    · exact gframe_refl _
    · exact gframe_addHostNew st (remove_trust host) port
  unfold add_host at h
  split at h
  · cases h
  · split at h
    · split at h
      · cases h
      · cases h
        exact gframe_trans hst1 (gframe_groupAddHost _ _ _)
    · cases h
      exact hst1

theorem except_bind_ok {α β : Type} (a : α) (g : α → Except String β) :
    (Except.ok a >>= g : Except String β) = g a := rfl

theorem except_bind_err {α β : Type} (e : String) (g : α → Except String β) :
    (Except.error e >>= g : Except String β) = Except.error e := rfl

theorem reconcileHostMerge_ok_groups {st : InventoryData} {host : Host} {hname : String}
    {st2 : InventoryData} (h : reconcileHostMerge st host hname = .ok st2) :
    st2.groups = st.groups := by
  rw [reconcileHostMerge] at h
  split at h
  · split at h
    · cases h
    · cases h
      rfl
  · cases h
    rfl

theorem gframe_reconcileHostBranches {st : InventoryData} {host : Host}
    {st2 : InventoryData} (h : reconcileHostBranches st host = .ok st2) :
    gframe st.groups st2.groups := by
  rw [reconcileHostBranches] at h
  split at h
  · split at h
    · cases h
    · split at h
      · cases h
        exact gframe_groupRemoveHost _ _ _
      · cases h
        exact gframe_refl _
  · split at h
    · split at h
      · split at h
        · cases h
        · rename_i r hac
          cases h
          have hf := gframe_add_child hac
          exact hf
      · split at h
        · split at h
          · cases h
          · split at h
            · split at h
              · cases h
              · rename_i r hac
                cases h
                have hf := gframe_add_child hac
                exact hf
            · cases h
              exact gframe_refl _
        · cases h
          exact gframe_refl _
    · cases h
      exact gframe_refl _

theorem gframe_reconcileHostStep {st : InventoryData} {hname : String}
    {st2 : InventoryData} (h : reconcileHostStep st hname = .ok st2) :
    gframe st.groups st2.groups := by
  rw [reconcileHostStep] at h
  split at h
  · cases h
    exact gframe_refl _
  · split at h
    · cases h
    · split at h
      · cases h
      · rename_i st1 hbr
        have hm := reconcileHostMerge_ok_groups h
        rw [hm]
        exact gframe_reconcileHostBranches hbr

theorem gframe_reconcileGroupStep {st : InventoryData} {gname : String}
    {st2 : InventoryData} (h : reconcileGroupStep st gname = .ok st2) :
    gframe st.groups st2.groups := by
  rw [reconcileGroupStep] at h
  split at h
  · cases h
    exact gframe_refl _
  · split at h
    · split at h
      · cases h
      · rename_i r hac
        cases h
        have hf := gframe_add_child hac
        exact hf
    · cases h
      exact gframe_refl _

theorem foldlM_gframe {f : InventoryData → String → Except String InventoryData}
    (hf : ∀ s n s2, f s n = .ok s2 → gframe s.groups s2.groups) :
    ∀ (names : List String) (s s2 : InventoryData),
      List.foldlM f s names = .ok s2 → gframe s.groups s2.groups := by
  intro names
  induction names with
  | nil =>
    intro s s2 h
    cases h
    exact gframe_refl _
  | cons n rest ih =>
    intro s s2 h
    rw [List.foldlM_cons] at h
    cases hf1 : f s n with
    | error e =>
      rw [hf1, except_bind_err] at h
      cases h
    | ok s1 =>
      rw [hf1, except_bind_ok] at h
      exact gframe_trans (hf s n s1 hf1) (ih s1 s2 h)

theorem gframe_reconcile {st st2 : InventoryData}
    (h : reconcile_inventory st = .ok st2) : gframe st.groups st2.groups := by
  rw [reconcile_inventory] at h
  split at h
  · cases h
  · rename_i st1 hg
    split at h
    · cases h
    · rename_i st3 hh
      cases h
      have h1 : gframe st.groups st1.groups := by
        have := foldlM_gframe (fun s n s2 hs => gframe_reconcileGroupStep hs) _ _ _ hg
        exact this
      have h2 : gframe st1.groups st3.groups :=
        foldlM_gframe (fun s n s2 hs => gframe_reconcileHostStep hs) _ _ _ hh
      exact gframe_trans h1 h2

theorem remove_group_groups (st : InventoryData) (gname : String) :
    (remove_group st gname).groups =
      if (alookup st.groups gname).isSome = true then aerase st.groups gname
      else st.groups := by
  rw [remove_group]
  split
  · rfl
  · rfl

theorem remove_host_groups_lookup (st : InventoryData) (h : Host) (k : String) :
    alookup (remove_host st h).groups k =
      (alookup st.groups k).map (fun g => { g with hosts := g.hosts.filter (· ≠ h.name) }) := by
  rw [remove_host]
  exact alookup_map_value st.groups
    (fun _ g => { g with hosts := g.hosts.filter (· ≠ h.name) }) k

theorem gframe_remove_host (st : InventoryData) (h : Host) :
    gframe st.groups (remove_host st h).groups := by
  intro k g hk
  refine ⟨{ g with hosts := g.hosts.filter (· ≠ h.name) }, ?_, rfl, fun q hq => hq⟩
  rw [remove_host_groups_lookup, hk]
  rfl

theorem get_host_groups (st : InventoryData) (n : String) :
    (get_host st n).2.groups = st.groups := by
  rw [get_host]
  split
  · rfl
  · split
    · rw [create_implicit_localhost]
      split
      · rfl
      · rfl
      · rfl
    · rfl

theorem get_groups_dict_groups (st : InventoryData) :
    (get_groups_dict st).2.groups = st.groups := by
  rw [get_groups_dict]
  split
  · rfl
  · rfl

theorem RootInv_applyOp (st : InventoryData) (op : Op) (hs : SafeOp op)
    (hr : RootInv st.groups) : RootInv (applyOp st op).groups := by
  cases op with
  | addGroup g =>
    rw [applyOp]
    split
    · rename_i r hag
      cases r
      exact RootInv_of_gframe (gframe_add_group hag) hr
    · exact hr
  | removeGroup g =>
    rw [applyOp]
    obtain ⟨hga, hgu⟩ := hs
    have hlk : ∀ k, k ≠ g → alookup (remove_group st g).groups k = alookup st.groups k := by
      intro k hkg
      rw [remove_group_groups]
      split
      · exact alookup_aerase_ne _ _ _ hkg
      · rfl
    obtain ⟨⟨ga, hga2, hgan⟩, ⟨gu, hgu2, hgun, hgup⟩⟩ := hr
    exact ⟨⟨ga, by rw [hlk "all" (fun he => hga he.symm)]; exact hga2, hgan⟩,
      ⟨gu, by rw [hlk "ungrouped" (fun he => hgu he.symm)]; exact hgu2, hgun, hgup⟩⟩
  | addHost h group port =>
    rw [applyOp]
    split
    · rename_i r hah
      cases r
      exact RootInv_of_gframe (gframe_add_host hah) hr
    · exact hr
  | removeHost h =>
    rw [applyOp]
    exact RootInv_of_gframe (gframe_remove_host st h) hr
  | setVariable e k v =>
    rw [applyOp]
    split
    · rename_i s hsv
      exact RootInv_of_gframe (gframe_set_variable hsv) hr
    · exact hr
  | addChild g c =>
    rw [applyOp]
    split
    · rename_i r hac
      cases r
      exact RootInv_of_gframe (gframe_add_child hac) hr
    · exact hr
  | reconcile =>
    rw [applyOp]
    split
    · rename_i s hrc
      exact RootInv_of_gframe (gframe_reconcile hrc) hr
    · exact hr
  | getHost n =>
    rw [applyOp]
    rw [get_host_groups]
    exact hr
  | getGroupsDict =>
    rw [applyOp]
    rw [get_groups_dict_groups]
    exact hr
  | setCurrentSource s =>
    rw [applyOp]
    exact hr

theorem RootInv_initInv : RootInv initInv.groups := by
  refine ⟨⟨({ name := "all", child_groups := ["ungrouped"] } : Group), by decide, rfl⟩,
    ⟨({ name := "ungrouped", parent_groups := ["all"] } : Group), by decide, rfl, ?_⟩⟩
  decide

theorem RootInv_runOps (ops : List Op) (hsafe : ∀ op ∈ ops, SafeOp op) :
    RootInv (runOps ops).groups := by
  rw [runOps]
  have hgen : ∀ (l : List Op) (s : InventoryData), (∀ op ∈ l, SafeOp op) →
      RootInv s.groups → RootInv (l.foldl applyOp s).groups := by
    intro l
    induction l with
    | nil =>
      intro s _ hr
      exact hr
    | cons op rest ih =>
      intro s hso hr
      rw [List.foldl_cons]
      exact ih _ (fun o ho => hso o (List.mem_cons_of_mem _ ho))
        (RootInv_applyOp s op (hso op (List.mem_cons_self _ _)) hr)
  exact hgen ops initInv hsafe RootInv_initInv

/-! ## Claim C1 -/

/-- C1, counterexample: the claim says `remove_host` clears the groups-dict
cache so the next `get_groups_dict` no longer lists the host.  In fact,
after registering `h1` in `ungrouped`, materializing the cache, and
removing the host, the cache is still non-empty, the host is gone from the
registry, and `get_groups_dict` still reports `h1` as a member of
`ungrouped`. -/
theorem c1_counterexample :
    cx1state.groups_dict_cache ≠ [] ∧
    alookup cx1state.hosts "h1" = none ∧
    alookup (get_groups_dict cx1state).1 "ungrouped" = some ["h1"] := by decide

/-- C1, amended: `remove_host` removes the host from the host registry and
from every group's member set, but does not invalidate the derived-view
cache — the cache is left exactly as it was, so a stale view persists
until some other operation clears it. -/
theorem c1_amended (st : InventoryData) (h : Host) :
    (remove_host st h).groups_dict_cache = st.groups_dict_cache ∧
    alookup (remove_host st h).hosts h.name = none ∧
    ∀ p ∈ (remove_host st h).groups, h.name ∉ p.2.hosts := by
  refine ⟨rfl, alookup_aerase_self st.hosts h.name, ?_⟩
  intro p hp hmem
  have hp2 : p ∈ st.groups.map
      (fun q => (q.1, { q.2 with hosts := q.2.hosts.filter (· ≠ h.name) })) := hp
  rcases List.mem_map.mp hp2 with ⟨q, hq, hqe⟩
  rw [← hqe] at hmem
  simp [List.mem_filter] at hmem

/-- C1, witness for the amended statement at a concrete store. -/
theorem c1_amended_witness :
    (remove_host (runOps [Op.addHost "h1" (some "ungrouped") none, Op.getGroupsDict])
        ({ name := "h1" } : Host)).groups_dict_cache =
      (runOps [Op.addHost "h1" (some "ungrouped") none, Op.getGroupsDict]).groups_dict_cache ∧
    alookup (remove_host (runOps [Op.addHost "h1" (some "ungrouped") none, Op.getGroupsDict])
        ({ name := "h1" } : Host)).hosts "h1" = none ∧
    ∀ p ∈ (remove_host (runOps [Op.addHost "h1" (some "ungrouped") none, Op.getGroupsDict])
        ({ name := "h1" } : Host)).groups, "h1" ∉ p.2.hosts :=
  c1_amended (runOps [Op.addHost "h1" (some "ungrouped") none, Op.getGroupsDict])
    ({ name := "h1" } : Host)

/-! ## Claim C2 -/

/-- C2, counterexample: the claim says that after any sequence of public
operations the groups `all` and `ungrouped` both exist.  The single public
operation `remove_group` on `all` deletes it. -/
theorem c2_counterexample : alookup cx2state.groups "all" = none := by decide

/-- C2, amended: after any sequence of public operations that never calls
`remove_group` on the `all` or `ungrouped` groups, both groups exist in
the registry and `all` is an ancestor of `ungrouped` (so `ungrouped` is
reachable from `all`). -/
theorem c2_amended (ops : List Op) (hsafe : ∀ op ∈ ops, SafeOp op) :
    (alookup (runOps ops).groups "all").isSome = true ∧
    ∃ g, alookup (runOps ops).groups "ungrouped" = some g ∧
      "all" ∈ get_ancestors (runOps ops).groups g := by
  obtain ⟨⟨ga, hga, _⟩, ⟨gu, hgu, _, hgup⟩⟩ := RootInv_runOps ops hsafe
  refine ⟨by rw [hga]; rfl, ⟨gu, hgu, get_ancestors_sup_parents _ _ _ hgup⟩⟩

/-- C2, witness: the amended statement applied to a concrete operation
sequence that exercises group creation, host creation, child attachment,
removal of an ordinary group, and reconciliation. -/
theorem c2_amended_witness :
    (∀ op ∈ [Op.addGroup "web", Op.addHost "h1" none none, Op.addChild "web" "h1",
        Op.removeGroup "web", Op.reconcile], SafeOp op) ∧
    ((alookup (runOps [Op.addGroup "web", Op.addHost "h1" none none, Op.addChild "web" "h1",
        Op.removeGroup "web", Op.reconcile]).groups "all").isSome = true ∧
      ∃ g, alookup (runOps [Op.addGroup "web", Op.addHost "h1" none none,
          Op.addChild "web" "h1", Op.removeGroup "web", Op.reconcile]).groups "ungrouped" =
            some g ∧
        "all" ∈ get_ancestors (runOps [Op.addGroup "web", Op.addHost "h1" none none,
          Op.addChild "web" "h1", Op.removeGroup "web", Op.reconcile]).groups g) :=
  ⟨by decide, c2_amended _ (by decide)⟩

/-! ## Host-registration lemmas -/

theorem aupdate_not_mem {α : Type} {l : List (String × α)} {k : String} {f : α → α}
    (h : alookup l k = none) : aupdate l k f = l := by
  induction l with
  | nil => rfl
  | cons p rest ih =>
    rw [alookup_cons] at h
    by_cases hp : p.1 = k
    · rw [if_pos hp] at h
      cases h
    · rw [if_neg hp] at h
      rw [aupdate_cons, if_neg hp, ih h]

theorem aupdate_append {α : Type} (l1 l2 : List (String × α)) (k : String) (f : α → α) :
    aupdate (l1 ++ l2) k f = aupdate l1 k f ++ aupdate l2 k f := by
  rw [aupdate, aupdate, aupdate, List.map_append]

theorem alookup_singleton_self {α : Type} (k : String) (v : α) :
    alookup [(k, v)] k = some v := by
  rw [alookup_cons, if_pos rfl]

theorem alookup_append_fresh {α : Type} {l : List (String × α)} {k : String}
    (h : alookup l k = none) (v : α) : alookup (l ++ [(k, v)]) k = some v := by
  rw [alookup_append, h, alookup_singleton_self]
  rfl

theorem alookup_append_ne {α : Type} (l : List (String × α)) (k n : String)
    (hne : n ≠ k) (v : α) : alookup (l ++ [(k, v)]) n = alookup l n := by
  rw [alookup_append]
  have : alookup [(k, v)] n = none := by
    rw [alookup_cons, if_neg (fun he => hne he.symm)]
    rfl
  rw [this]
  cases alookup l n <;> rfl

theorem setVarSoft_of_host (st : InventoryData) (e : String) (hrec : Host)
    (hg : alookup st.groups e = none) (hh : alookup st.hosts e = some hrec)
    (k : String) (v : Option String) :
    setVarSoft st e k v =
      { st with hosts := aupdate st.hosts e (fun _ => { hrec with vars := vset hrec.vars k v }) } := by
  rw [setVarSoft, set_variable, hg, hh]

theorem aupdate_singleton_self {α : Type} (k : String) (v : α) (f : α → α) :
    aupdate [(k, v)] k f = [(k, f v)] := by
  rw [aupdate_cons, if_pos rfl]
  rfl

/-- The creation branch of `add_host` on a fresh, non-colliding name:
append the host record, with the two provenance variables recorded, then
apply localhost defaulting. -/
theorem addHostNew_eq (st : InventoryData) (host : String) (port : Option Nat)
    (hgabs : alookup st.groups host = none) (habs : alookup st.hosts host = none) :
    addHostNew st host port =
      localhostDefault
        { st with
          hosts := st.hosts ++
            [(host,
              ({ name := host, port := port,
                 vars := vset (vset [] "inventory_file" st.current_source)
                   "inventory_dir" (st.current_source.map basedir) } : Host))] }
        host := by
  rw [addHostNew, addHostRaw]
  have h1 := setVarSoft_of_host
    { st with hosts := st.hosts ++ [(host, ({ name := host, port := port } : Host))] }
    host { name := host, port := port }
    hgabs (alookup_append_fresh habs _) "inventory_file" st.current_source
  rw [h1]
  rw [show aupdate (st.hosts ++ [(host, ({ name := host, port := port } : Host))]) host (fun _ => ({ name := host, port := port, vars := vset [] "inventory_file" st.current_source } : Host)) = st.hosts ++ [(host, ({ name := host, port := port, vars := vset [] "inventory_file" st.current_source } : Host))] by rw [aupdate_append, aupdate_not_mem habs, aupdate_singleton_self]]
  have h2 := setVarSoft_of_host
    { st with hosts := st.hosts ++ [(host, ({ name := host, port := port, vars := vset [] "inventory_file" st.current_source } : Host))] }
    host ({ name := host, port := port, vars := vset [] "inventory_file" st.current_source } : Host)
    hgabs (alookup_append_fresh habs _) "inventory_dir" (st.current_source.map basedir)
  rw [h2]
  rw [show aupdate (st.hosts ++ [(host, ({ name := host, port := port, vars := vset [] "inventory_file" st.current_source } : Host))]) host (fun _ => ({ name := host, port := port, vars := vset (vset [] "inventory_file" st.current_source) "inventory_dir" (st.current_source.map basedir) } : Host)) = st.hosts ++ [(host, ({ name := host, port := port, vars := vset (vset [] "inventory_file" st.current_source) "inventory_dir" (st.current_source.map basedir) } : Host))] by rw [aupdate_append, aupdate_not_mem habs, aupdate_singleton_self]]

theorem localhostDefault_some (st : InventoryData) (host : String) (ref : LocalhostRef)
    (hal : host ∈ LOCALHOST) (hlo : st.localhost = some ref) :
    localhostDefault st host =
      { st with warnings := st.warnings ++ ["A duplicate localhost-like entry was found"] } := by
  rw [localhostDefault, if_pos hal, hlo]

theorem localhostDefault_none (st : InventoryData) (host : String)
    (hal : host ∈ LOCALHOST) (hlo : st.localhost = none) :
    localhostDefault st host =
      { st with localhost := some (LocalhostRef.registered host) } := by
  rw [localhostDefault, if_pos hal, hlo]

theorem create_implicit_none (st : InventoryData) (p : String)
    (hlo : st.localhost = none) :
    create_implicit_localhost st p =
      (freshLocalhost p,
        { st with localhost := some (LocalhostRef.implicitHost (freshLocalhost p)) }) := by
  rw [create_implicit_localhost, hlo]

theorem create_implicit_implicitHost (st : InventoryData) (p : String) (h : Host)
    (hlo : st.localhost = some (LocalhostRef.implicitHost h)) :
    create_implicit_localhost st p = (h, st) := by
  rw [create_implicit_localhost, hlo]

theorem create_implicit_registered (st : InventoryData) (p n : String)
    (hlo : st.localhost = some (LocalhostRef.registered n)) :
    create_implicit_localhost st p = ((alookup st.hosts n).getD (freshLocalhost p), st) := by
  rw [create_implicit_localhost, hlo]

theorem get_host_miss_alias (st : InventoryData) (n : String)
    (hal : n ∈ LOCALHOST) (habs : alookup st.hosts n = none) :
    get_host st n =
      (some (create_implicit_localhost st n).1, (create_implicit_localhost st n).2) := by
  rw [get_host]
  simp only [remove_trust, habs, if_pos hal]

theorem mem_LOCALHOST_ne_empty {a : String} (hal : a ∈ LOCALHOST) : a ≠ "" := by
  simp only [LOCALHOST, List.mem_cons, List.not_mem_nil, or_false] at hal
  rcases hal with h | h | h <;> subst h <;> decide

/-! ## Claim C6 -/

/-- C6, confirmed: with a canonical localhost already recorded, adding a
host under a fresh recognized alias (that does not collide with a group
name) registers the new host, leaves the first-registered localhost
canonical, leaves the group registry, cache, source context and every
other host entry unchanged, and emits exactly one duplicate-localhost
warning. -/
theorem c6_first_localhost_wins (st : InventoryData) (a1 : String) (ref : LocalhostRef)
    (hal : a1 ∈ LOCALHOST) (habs : alookup st.hosts a1 = none)
    (hgabs : alookup st.groups a1 = none) (hlo : st.localhost = some ref) :
    ∃ st2, add_host st a1 none none = .ok (a1, st2) ∧
      st2.localhost = some ref ∧
      (alookup st2.hosts a1).isSome = true ∧
      st2.groups = st.groups ∧
      st2.groups_dict_cache = st.groups_dict_cache ∧
      st2.current_source = st.current_source ∧
      st2.warnings = st.warnings ++ ["A duplicate localhost-like entry was found"] ∧
      (∀ n, n ≠ a1 → alookup st2.hosts n = alookup st.hosts n) := by
  have hne : a1 ≠ "" := mem_LOCALHOST_ne_empty hal
  have hstep : add_host st a1 none none = .ok (a1, addHostNew st a1 none) := by
    rw [add_host]
    simp only [remove_trust, if_neg hne, habs, Option.isSome_none, Bool.false_eq_true,
      if_false]
  have hnewRec : addHostNew st a1 none =
      localhostDefault { st with hosts := st.hosts ++ [(a1, ({ name := a1, port := none, vars := vset (vset [] "inventory_file" st.current_source) "inventory_dir" (st.current_source.map basedir) } : Host))] } a1 :=
    addHostNew_eq st a1 none hgabs habs
  have hld := localhostDefault_some
    { st with hosts := st.hosts ++ [(a1, ({ name := a1, port := none, vars := vset (vset [] "inventory_file" st.current_source) "inventory_dir" (st.current_source.map basedir) } : Host))] }
    a1 ref hal hlo
  refine ⟨_, by rw [hstep, hnewRec, hld], ?_, ?_, ?_, ?_, ?_, ?_, ?_⟩
  · exact hlo
  · show (alookup (st.hosts ++ [(a1, _)]) a1).isSome = true
    rw [alookup_append_fresh habs]
    rfl
  · rfl
  · rfl
  · rfl
  · rfl
  · intro n hna
    show alookup (st.hosts ++ [(a1, _)]) n = alookup st.hosts n
    exact alookup_append_ne _ _ _ hna _

/-- C6, witness: a store that registered `localhost` explicitly, then adds
the alias `127.0.0.1`. -/
theorem c6_first_localhost_wins_witness :
    ("127.0.0.1" : String) ∈ LOCALHOST ∧
    ∃ st2, add_host (runOps [Op.addHost "localhost" none none]) "127.0.0.1" none none =
        .ok ("127.0.0.1", st2) ∧
      st2.localhost = some (LocalhostRef.registered "localhost") ∧
      (alookup st2.hosts "127.0.0.1").isSome = true ∧
      st2.groups = (runOps [Op.addHost "localhost" none none]).groups ∧
      st2.groups_dict_cache = (runOps [Op.addHost "localhost" none none]).groups_dict_cache ∧
      st2.current_source = (runOps [Op.addHost "localhost" none none]).current_source ∧
      st2.warnings = (runOps [Op.addHost "localhost" none none]).warnings ++
        ["A duplicate localhost-like entry was found"] ∧
      (∀ n, n ≠ "127.0.0.1" →
        alookup st2.hosts n = alookup (runOps [Op.addHost "localhost" none none]).hosts n) :=
  ⟨by decide,
    c6_first_localhost_wins (runOps [Op.addHost "localhost" none none]) "127.0.0.1"
      (LocalhostRef.registered "localhost") (by decide) (by decide) (by decide) (by decide)⟩

/-! ## Claim C7 -/

/-- C7, confirmed: with no localhost recorded and the alias unregistered,
`get_host` on a recognized alias returns a host with loopback address
`127.0.0.1`, `implicit = true`, and connection variable `local`; every
subsequent `get_host` on any other unregistered recognized alias returns
the identical host value and leaves the state untouched. -/
theorem c7_implicit_localhost (st : InventoryData) (a1 : String)
    (hal : a1 ∈ LOCALHOST) (habs : alookup st.hosts a1 = none)
    (hlo : st.localhost = none) :
    ∃ h st2, get_host st a1 = (some h, st2) ∧
      h.address = "127.0.0.1" ∧
      h.implicit = true ∧
      vlookup h.vars "ansible_connection" = some (some "local") ∧
      st2.hosts = st.hosts ∧
      (∀ a2 ∈ LOCALHOST, alookup st.hosts a2 = none →
        get_host st2 a2 = (some h, st2)) := by
  have h1 : get_host st a1 =
      (some (freshLocalhost a1),
        { st with localhost := some (LocalhostRef.implicitHost (freshLocalhost a1)) }) := by
    rw [get_host_miss_alias st a1 hal habs, create_implicit_none st a1 hlo]
  refine ⟨freshLocalhost a1, _, h1, rfl, rfl, ?_, rfl, ?_⟩
  · rw [freshLocalhost]
    exact vlookup_vset_self _ _ _
  · intro a2 ha2 habs2
    have habs2b : alookup ({ st with localhost := some (LocalhostRef.implicitHost (freshLocalhost a1)) } : InventoryData).hosts a2 = none := habs2
    rw [get_host_miss_alias _ a2 ha2 habs2b,
      create_implicit_implicitHost _ a2 (freshLocalhost a1) rfl]

/-- C7, witness: `get_host "localhost"` on a freshly constructed store,
followed by `get_host "127.0.0.1"`. -/
theorem c7_implicit_localhost_witness :
    ("localhost" : String) ∈ LOCALHOST ∧
    ∃ h st2, get_host initInv "localhost" = (some h, st2) ∧
      h.address = "127.0.0.1" ∧
      h.implicit = true ∧
      vlookup h.vars "ansible_connection" = some (some "local") ∧
      st2.hosts = initInv.hosts ∧
      (∀ a2 ∈ LOCALHOST, alookup initInv.hosts a2 = none →
        get_host st2 a2 = (some h, st2)) :=
  ⟨by decide, c7_implicit_localhost initInv "localhost" (by decide) (by decide) (by decide)⟩

/-! ## Claim C10 -/

/-- C10, confirmed: on a miss for a recognized alias, `get_host` returns a
host without registering anything — the host registry, group registry
(hence every member set) and the cache are unchanged; when no localhost
existed the returned host is the fresh implicit localhost; and in a store
with a clean cache and the alias in no member set, the rebuilt groups-dict
never lists the alias. -/
theorem c10_get_host_frame (st : InventoryData) (a1 : String)
    (hal : a1 ∈ LOCALHOST) (habs : alookup st.hosts a1 = none) :
    (get_host st a1).1.isSome = true ∧
    (get_host st a1).2.hosts = st.hosts ∧
    (get_host st a1).2.groups = st.groups ∧
    (get_host st a1).2.groups_dict_cache = st.groups_dict_cache ∧
    (st.localhost = none →
      (get_host st a1).1 = some (freshLocalhost a1) ∧
      (freshLocalhost a1).implicit = true) ∧
    (st.groups_dict_cache = [] → (∀ p ∈ st.groups, a1 ∉ p.2.hosts) →
      ∀ q ∈ (get_groups_dict (get_host st a1).2).1, a1 ∉ q.2) := by
  have hmiss := get_host_miss_alias st a1 hal habs
  have hframe : (get_host st a1).2.hosts = st.hosts ∧
      (get_host st a1).2.groups = st.groups ∧
      (get_host st a1).2.groups_dict_cache = st.groups_dict_cache ∧
      (get_host st a1).1.isSome = true := by
    rw [hmiss]
    cases hlo : st.localhost with
    | none =>
      rw [create_implicit_none st a1 hlo]
      exact ⟨rfl, rfl, rfl, rfl⟩
    | some ref =>
      cases ref with
      | registered n =>
        rw [create_implicit_registered st a1 n hlo]
        exact ⟨rfl, rfl, rfl, rfl⟩
      | implicitHost h =>
        rw [create_implicit_implicitHost st a1 h hlo]
        exact ⟨rfl, rfl, rfl, rfl⟩
  refine ⟨hframe.2.2.2, hframe.1, hframe.2.1, hframe.2.2.1, ?_, ?_⟩
  · intro hlo
    rw [hmiss, create_implicit_none st a1 hlo]
    exact ⟨rfl, rfl⟩
  · intro hcache hmem q hq ha
    have hc2 : (get_host st a1).2.groups_dict_cache = [] := by
      rw [hframe.2.2.1, hcache]
    rw [get_groups_dict, if_pos hc2] at hq
    rcases List.mem_map.mp hq with ⟨p, hp, hpe⟩
    rw [hframe.2.1] at hp
    rw [← hpe] at ha
    have hprov := get_hosts_prov (get_host st a1).2.groups p.2 a1 ha
    rw [hframe.2.1] at hprov
    rcases hprov with h | ⟨r, hr, hra⟩
    · exact hmem p hp h
    · exact hmem r hr hra

/-- C10, witness: a freshly constructed store with an extra group, looked
up at alias `::1`. -/
theorem c10_get_host_frame_witness :
    ("::1" : String) ∈ LOCALHOST ∧
    ((get_host (runOps [Op.addGroup "web"]) "::1").1.isSome = true ∧
      (get_host (runOps [Op.addGroup "web"]) "::1").2.hosts =
        (runOps [Op.addGroup "web"]).hosts ∧
      (get_host (runOps [Op.addGroup "web"]) "::1").2.groups =
        (runOps [Op.addGroup "web"]).groups ∧
      (get_host (runOps [Op.addGroup "web"]) "::1").2.groups_dict_cache =
        (runOps [Op.addGroup "web"]).groups_dict_cache ∧
      ((runOps [Op.addGroup "web"]).localhost = none →
        (get_host (runOps [Op.addGroup "web"]) "::1").1 = some (freshLocalhost "::1") ∧
        (freshLocalhost "::1").implicit = true) ∧
      ((runOps [Op.addGroup "web"]).groups_dict_cache = [] →
        (∀ p ∈ (runOps [Op.addGroup "web"]).groups, "::1" ∉ p.2.hosts) →
        ∀ q ∈ (get_groups_dict (get_host (runOps [Op.addGroup "web"]) "::1").2).1,
          "::1" ∉ q.2)) :=
  ⟨by decide, c10_get_host_frame (runOps [Op.addGroup "web"]) "::1" (by decide) (by decide)⟩

/-! ## Claim C8 -/

theorem setVarSoft_hosts_shape (st : InventoryData) (e k : String) (v : Option String) :
    (setVarSoft st e k v).hosts.length = st.hosts.length ∧
    ∀ n, ((alookup (setVarSoft st e k v).hosts n).isSome = true ↔
      (alookup st.hosts n).isSome = true) := by
  rw [setVarSoft]
  split
  · rename_i s hsv
    rw [set_variable] at hsv
    split at hsv
    · cases hsv
      exact ⟨rfl, fun n => Iff.rfl⟩
    · split at hsv
      · cases hsv
        refine ⟨by simp [aupdate], ?_⟩
        intro n
        by_cases hn : n = e
        · subst hn
          rw [alookup_aupdate_self]
          cases alookup st.hosts n <;> simp
        · rw [alookup_aupdate_ne _ _ _ _ hn]
      · cases hsv
  · exact ⟨rfl, fun n => Iff.rfl⟩

theorem localhostDefault_hosts (st : InventoryData) (host : String) :
    (localhostDefault st host).hosts = st.hosts := by
  rw [localhostDefault]
  split
  · split <;> rfl
  · rfl

theorem addHostNew_hosts_shape (st : InventoryData) (host : String) (port : Option Nat)
    (habs : alookup st.hosts host = none) :
    (addHostNew st host port).hosts.length = st.hosts.length + 1 ∧
    (alookup (addHostNew st host port).hosts host).isSome = true := by
  rw [addHostNew, localhostDefault_hosts]
  have hraw1 : (addHostRaw st host port).hosts.length = st.hosts.length + 1 := by
    rw [addHostRaw]
    simp
  have hraw2 : (alookup (addHostRaw st host port).hosts host).isSome = true := by
    rw [addHostRaw]
    show (alookup (st.hosts ++ [(host, _)]) host).isSome = true
    rw [alookup_append_fresh habs]
    rfl
  obtain ⟨hl1, hs1⟩ := setVarSoft_hosts_shape (addHostRaw st host port) host
    "inventory_file" st.current_source
  obtain ⟨hl2, hs2⟩ := setVarSoft_hosts_shape
    (setVarSoft (addHostRaw st host port) host "inventory_file" st.current_source) host
    "inventory_dir" (st.current_source.map basedir)
  exact ⟨by rw [hl2, hl1, hraw1], by rw [hs2, hs1]; exact hraw2⟩

/-- C8, confirmed: `add_group` called twice with the same name returns the
same canonical name both times, leaves the state of the first call
untouched, and the registry holds exactly one entry under that name;
`add_host` called twice with the same fresh name returns the same name,
the second call returns the very same state (the same host entity), and
the host count grows by exactly one overall; and a call with a `group`
argument on an already-registered host additively records the membership
on both sides of the relation. -/
theorem c8_add_idempotence (st : InventoryData)
    (hnd : (st.groups.map (fun p => p.1)).Nodup) (hsym : SymHG st) :
    (∀ g : String, g ≠ "" →
      ∃ st1, add_group st g = .ok (g, st1) ∧ add_group st1 g = .ok (g, st1) ∧
        (st1.groups.map (fun p => p.1)).count g = 1) ∧
    (∀ h : String, h ≠ "" → alookup st.hosts h = none →
      ∃ st1, add_host st h none none = .ok (h, st1) ∧
        add_host st1 h none none = .ok (h, st1) ∧
        st1.hosts.length = st.hosts.length + 1) ∧
    (∀ h gn : String, ∀ g : Group, ∀ hrec : Host,
      alookup st.groups gn = some g → alookup st.hosts h = some hrec →
      h ≠ "" → gn ≠ "" → g.name = gn → hrec.name = h →
      ∃ st2, add_host st h (some gn) none = .ok (h, st2) ∧
        (∃ g2, alookup st2.groups gn = some g2 ∧ h ∈ g2.hosts) ∧
        (∃ h2, alookup st2.hosts h = some h2 ∧ gn ∈ h2.groups)) := by
  refine ⟨?_, ?_, ?_⟩
  · intro g hg
    by_cases hin : (alookup st.groups g).isSome = true
    · refine ⟨st, ?_, ?_, ?_⟩
      · rw [add_group, if_neg hg, if_pos hin]
      · rw [add_group, if_neg hg, if_pos hin]
      · exact List.count_eq_one_of_mem hnd ((alookup_isSome _ _).mp hin)
    · have hstep : add_group st g =
          .ok (g, { st with groups := st.groups ++ [(g, ({ name := g } : Group))], groups_dict_cache := [] }) := by
        rw [add_group, if_neg hg, if_neg hin]
        rw [show to_canonical g = g from rfl, if_neg hin]
      refine ⟨_, hstep, ?_, ?_⟩
      · have hin2 : (alookup (st.groups ++ [(g, ({ name := g } : Group))]) g).isSome = true := by
          rw [alookup_append_fresh (Option.not_isSome_iff_eq_none.mp hin)]
          rfl
        rw [add_group, if_neg hg]
        rw [if_pos hin2]
      · show ((st.groups ++ [(g, ({ name := g } : Group))]).map (fun p => p.1)).count g = 1
        rw [List.map_append, List.count_append]
        have h0 : (st.groups.map (fun p => p.1)).count g = 0 := by
          rw [List.count_eq_zero]
          intro hmem
          exact (alookup_eq_none _ _).mp (Option.not_isSome_iff_eq_none.mp hin) hmem
        rw [h0]
        simp
  · intro h hh habs
    have hstep : add_host st h none none = .ok (h, addHostNew st h none) := by
      rw [add_host]
      simp only [remove_trust, if_neg hh, habs, Option.isSome_none, Bool.false_eq_true,
        if_false]
    obtain ⟨hlen, hsome⟩ := addHostNew_hosts_shape st h none habs
    refine ⟨_, hstep, ?_, hlen⟩
    rw [add_host]
    simp only [remove_trust, if_neg hh, hsome, if_true]
  · intro h gn g hrec hgl hhl hh hgn hgname hhname
    have hgsome : (alookup st.groups gn).isNone = false := by
      rw [hgl]
      rfl
    have hhsome : (alookup st.hosts h).isSome = true := by
      rw [hhl]
      rfl
    have hstep : add_host st h (some gn) none =
        .ok (h, { (groupAddHost st gn h).2 with groups_dict_cache := [] }) := by
      rw [add_host]
      simp only [remove_trust, if_neg hh, if_neg hgn, hgsome, Bool.false_eq_true, if_false,
        hhsome, if_true]
    by_cases hmem : hrec.name ∈ g.hosts
    · have hgah : groupAddHost st gn h = (false, st) := by
        simp only [groupAddHost, hgl, hhl, if_pos hmem]
      rw [hgah] at hstep
      refine ⟨_, hstep, ⟨g, hgl, ?_⟩, ⟨hrec, hhl, ?_⟩⟩
      · rw [← hhname]
        exact hmem
      · exact (hsym (gn, g) (alookup_mem hgl) (h, hrec) (alookup_mem hhl)).mp
          (hhname ▸ hmem)
    · have hgah : groupAddHost st gn h =
          (true,
            { st with
              groups := aupdate st.groups gn (fun g2 => { g2 with hosts := g2.hosts ++ [hrec.name] }),
              hosts := aupdate st.hosts h (fun h2 => { h2 with groups := insertNew h2.groups g.name }) }) := by
        simp only [groupAddHost, hgl, hhl, if_neg hmem]
      rw [hgah] at hstep
      refine ⟨_, hstep, ?_, ?_⟩
      · refine ⟨{ g with hosts := g.hosts ++ [hrec.name] }, ?_, ?_⟩
        · show alookup (aupdate st.groups gn (fun g2 => { g2 with hosts := g2.hosts ++ [hrec.name] })) gn = some { g with hosts := g.hosts ++ [hrec.name] }
          rw [alookup_aupdate_self, hgl]
          rfl
        · rw [hhname]
          simp
      · refine ⟨{ hrec with groups := insertNew hrec.groups g.name }, ?_, ?_⟩
        · show alookup (aupdate st.hosts h (fun h2 => { h2 with groups := insertNew h2.groups g.name })) h = some { hrec with groups := insertNew hrec.groups g.name }
          rw [alookup_aupdate_self, hhl]
          rfl
        · rw [← hgname]
          rw [mem_insertNew]
          exact Or.inr rfl

/-- C8, witness: the idempotence statement applied to a populated store,
with `web`/`h1` exercising the three parts. -/
theorem c8_add_idempotence_witness :
    ((runOps [Op.addGroup "web", Op.addHost "h1" none none]).groups.map
        (fun p => p.1)).Nodup ∧
    SymHG (runOps [Op.addGroup "web", Op.addHost "h1" none none]) ∧
    (∃ st1, add_group (runOps [Op.addGroup "web", Op.addHost "h1" none none]) "web" =
        .ok ("web", st1) ∧
      add_group st1 "web" = .ok ("web", st1) ∧
      (st1.groups.map (fun p => p.1)).count "web" = 1) ∧
    (∃ st1, add_host (runOps [Op.addGroup "web", Op.addHost "h1" none none]) "h2" none none =
        .ok ("h2", st1) ∧
      add_host st1 "h2" none none = .ok ("h2", st1) ∧
      st1.hosts.length =
        (runOps [Op.addGroup "web", Op.addHost "h1" none none]).hosts.length + 1) := by
  have hnd : ((runOps [Op.addGroup "web", Op.addHost "h1" none none]).groups.map
      (fun p => p.1)).Nodup := by decide
  have hsym : SymHG (runOps [Op.addGroup "web", Op.addHost "h1" none none]) := by decide
  obtain ⟨h1, h2, _⟩ := c8_add_idempotence _ hnd hsym
  exact ⟨hnd, hsym, h1 "web" (by decide), h2 "h2" (by decide) (by decide)⟩

/-! ## Group-pass characterization -/

theorem lookup_aupdate_preserving3 {l : List (String × Group)} {k2 : String}
    {f : Group → Group}
    (hf : ∀ g, (f g).name = g.name ∧ (f g).vars = g.vars ∧ (f g).hosts = g.hosts)
    (k : String) :
    (alookup (aupdate l k2 f) k).map (fun g => (g.name, g.vars, g.hosts)) =
      (alookup l k).map (fun g => (g.name, g.vars, g.hosts)) := by
  by_cases hk : k = k2
  · subst hk
    rw [alookup_aupdate_self]
    cases hl : alookup l k with
    | none => rfl
    | some g =>
      show some ((f g).name, (f g).vars, (f g).hosts) = some (g.name, g.vars, g.hosts)
      rw [(hf g).1, (hf g).2.1, (hf g).2.2]
  · rw [alookup_aupdate_ne _ _ _ _ hk]

theorem lookup_aupdate_preserving2 {l : List (String × Group)} {k2 : String}
    {f : Group → Group}
    (hf : ∀ g, (f g).name = g.name ∧ (f g).vars = g.vars)
    (k : String) :
    (alookup (aupdate l k2 f) k).map (fun g => (g.name, g.vars)) =
      (alookup l k).map (fun g => (g.name, g.vars)) := by
  by_cases hk : k = k2
  · subst hk
    rw [alookup_aupdate_self]
    cases hl : alookup l k with
    | none => rfl
    | some g =>
      show some ((f g).name, (f g).vars) = some (g.name, g.vars)
      rw [(hf g).1, (hf g).2]
  · rw [alookup_aupdate_ne _ _ _ _ hk]

theorem mem_aupdate_decomp {α : Type} {l : List (String × α)} {k : String} {f : α → α}
    {e2 : String × α} (h : e2 ∈ aupdate l k f) :
    ∃ e ∈ l, e2 = if e.1 = k then (e.1, f e.2) else e := by
  rcases List.mem_map.mp h with ⟨e, he, hee⟩
  exact ⟨e, he, hee.symm⟩

theorem gp_attach_case (st0 s : InventoryData) (n : String) (rest : List String)
    (c al : Group) (hinv : GPInv st0 s (n :: rest))
    (hgs : alookup s.groups n = some c) (hgname : c.name = n) (hnall : n ≠ "all")
    (hal : alookup s.groups "all" = some al) (halname : al.name = "all") :
    GPInv st0
      { s with
        groups := aupdate (aupdate s.groups "all"
            (fun p2 => { p2 with child_groups := p2.child_groups ++ [c.name] }))
          c.name (fun c2 => { c2 with parent_groups := c2.parent_groups ++ [al.name] }),
        groups_dict_cache := [] } rest := by
  have hcall : c.name ≠ "all" := by rw [hgname]; exact hnall
  have hgsc : alookup s.groups c.name = some c := by rw [hgname]; exact hgs
  refine ⟨?_, ?_, ?_, ?_, ?_, hinv.hfix, hinv.lloc, hinv.lcs, hinv.lwarn⟩
  · show (aupdate (aupdate s.groups "all"
        (fun p2 => { p2 with child_groups := p2.child_groups ++ [c.name] }))
        c.name (fun c2 => { c2 with parent_groups := c2.parent_groups ++ [al.name] })).map
        (fun p => p.1) = st0.groups.map (fun p => p.1)
    rw [aupdate_keys, aupdate_keys]
    exact hinv.gkeys
  · intro k
    show (alookup (aupdate (aupdate s.groups "all"
        (fun p2 => { p2 with child_groups := p2.child_groups ++ [c.name] }))
        c.name (fun c2 => { c2 with parent_groups := c2.parent_groups ++ [al.name] })) k).map
        (fun g => (g.name, g.vars, g.hosts)) =
        (alookup st0.groups k).map (fun g => (g.name, g.vars, g.hosts))
    rw [@lookup_aupdate_preserving3 _ c.name
        (fun c2 => { c2 with parent_groups := c2.parent_groups ++ [al.name] })
        (fun g2 => ⟨rfl, rfl, rfl⟩) k,
      @lookup_aupdate_preserving3 _ "all"
        (fun p2 => { p2 with child_groups := p2.child_groups ++ [c.name] })
        (fun g2 => ⟨rfl, rfl, rfl⟩) k]
    exact hinv.gvals k
  · intro k ga gb hka hkb q hq
    have hkb2 : alookup (aupdate (aupdate s.groups "all"
        (fun p2 => { p2 with child_groups := p2.child_groups ++ [c.name] }))
        c.name (fun c2 => { c2 with parent_groups := c2.parent_groups ++ [al.name] })) k =
        some gb := hkb
    by_cases hkc : k = c.name
    · subst hkc
      rw [alookup_aupdate_self, alookup_aupdate_ne _ _ _ _ hcall, hgsc] at hkb2
      have hgb : ({ c with parent_groups := c.parent_groups ++ [al.name] } : Group) = gb :=
        Option.some.inj hkb2
      have hq3 := hinv.gpar c.name ga c hka hgsc q hq
      rw [← hgb]
      exact List.mem_append_left _ hq3
    · rw [alookup_aupdate_ne _ _ _ _ hkc] at hkb2
      by_cases hkall : k = "all"
      · subst hkall
        rw [alookup_aupdate_self, hal] at hkb2
        have hgb : ({ al with child_groups := al.child_groups ++ [c.name] } : Group) = gb :=
          Option.some.inj hkb2
        have hq3 := hinv.gpar "all" ga al hka hal q hq
        rw [← hgb]
        exact hq3
      · rw [alookup_aupdate_ne _ _ _ _ hkall] at hkb2
        exact hinv.gpar k ga gb hka hkb2 q hq
  · intro k hkrest gb hkb hbname
    have hkb2 : alookup (aupdate (aupdate s.groups "all"
        (fun p2 => { p2 with child_groups := p2.child_groups ++ [c.name] }))
        c.name (fun c2 => { c2 with parent_groups := c2.parent_groups ++ [al.name] })) k =
        some gb := hkb
    by_cases hkc : k = c.name
    · subst hkc
      rw [alookup_aupdate_self, alookup_aupdate_ne _ _ _ _ hcall, hgsc] at hkb2
      have hgb : ({ c with parent_groups := c.parent_groups ++ [al.name] } : Group) = gb :=
        Option.some.inj hkb2
      rw [← hgb]
      show c.parent_groups ++ [al.name] ≠ []
      simp
    · rw [alookup_aupdate_ne _ _ _ _ hkc] at hkb2
      by_cases hkall : k = "all"
      · subst hkall
        rw [alookup_aupdate_self, hal] at hkb2
        have hgb : ({ al with child_groups := al.child_groups ++ [c.name] } : Group) = gb :=
          Option.some.inj hkb2
        rw [← hgb] at hbname
        exact absurd halname hbname
      · rw [alookup_aupdate_ne _ _ _ _ hkall] at hkb2
        have hknrest : k ∉ n :: rest := fun hm =>
          (List.mem_cons.mp hm).elim (fun he => hkc (he.trans hgname.symm)) hkrest
        exact hinv.gne k hknrest gb hkb2 hbname
  · intro p1 hp1 q1 hq1 hchild1
    have hp1b : p1 ∈ aupdate (aupdate s.groups "all"
        (fun p2 => { p2 with child_groups := p2.child_groups ++ [c.name] }))
        c.name (fun c2 => { c2 with parent_groups := c2.parent_groups ++ [al.name] }) := hp1
    have hq1b : q1 ∈ aupdate (aupdate s.groups "all"
        (fun p2 => { p2 with child_groups := p2.child_groups ++ [c.name] }))
        c.name (fun c2 => { c2 with parent_groups := c2.parent_groups ++ [al.name] }) := hq1
    rcases mem_aupdate_decomp hp1b with ⟨pe1, hpe1, hpe1e⟩
    rcases mem_aupdate_decomp hpe1 with ⟨pe, hpe, hpee⟩
    rcases mem_aupdate_decomp hq1b with ⟨qe1, hqe1, hqe1e⟩
    rcases mem_aupdate_decomp hqe1 with ⟨qe, hqe, hqee⟩
    have hpe1c : pe1.1 = pe.1 ∧
        (pe1.2.child_groups = pe.2.child_groups ∨
          (pe.1 = "all" ∧ pe1.2.child_groups = pe.2.child_groups ++ [c.name])) := by
      rw [hpee]
      split
      · rename_i h1
        exact ⟨rfl, Or.inr ⟨h1, rfl⟩⟩
      · exact ⟨rfl, Or.inl rfl⟩
    have hp1c : p1.1 = pe1.1 ∧ p1.2.child_groups = pe1.2.child_groups := by
      rw [hpe1e]
      split
      · exact ⟨rfl, rfl⟩
      · exact ⟨rfl, rfl⟩
    have hqe1c : qe1.1 = qe.1 ∧ qe1.2.parent_groups = qe.2.parent_groups := by
      rw [hqee]
      split
      · exact ⟨rfl, rfl⟩
      · exact ⟨rfl, rfl⟩
    have hq1c : q1.1 = qe1.1 ∧
        (¬ qe1.1 = c.name ∧ q1.2.parent_groups = qe1.2.parent_groups ∨
          (qe1.1 = c.name ∧ q1.2.parent_groups = qe1.2.parent_groups ++ [al.name])) := by
      rw [hqe1e]
      split
      · rename_i h1
        exact ⟨rfl, Or.inr ⟨h1, rfl⟩⟩
      · rename_i h1
        exact ⟨rfl, Or.inl ⟨h1, rfl⟩⟩
    have hq1key : q1.1 = qe.1 := hq1c.1.trans hqe1c.1
    have hp1key : p1.1 = pe.1 := hp1c.1.trans hpe1c.1
    have hq1sup : ∀ x ∈ qe.2.parent_groups, x ∈ q1.2.parent_groups := by
      intro x hx
      rcases hq1c.2 with ⟨_, he⟩ | ⟨_, he⟩
      · rw [he, hqe1c.2]
        exact hx
      · rw [he, hqe1c.2]
        exact List.mem_append_left _ hx
    rcases hpe1c.2 with hsame | ⟨hpall, happ⟩
    · have hch : qe.1 ∈ pe.2.child_groups := by
        rw [← hq1key, ← hsame, ← hp1c.2]
        exact hchild1
      have hmem := hinv.cps pe hpe qe hqe hch
      rw [hp1key]
      exact hq1sup _ hmem
    · have hch : q1.1 ∈ pe.2.child_groups ++ [c.name] := by
        rw [← happ, ← hp1c.2]
        exact hchild1
      rcases List.mem_append.mp hch with hold | hnew
      · rw [hq1key] at hold
        have hmem := hinv.cps pe hpe qe hqe hold
        rw [hp1key]
        exact hq1sup _ hmem
      · have hqc : qe1.1 = c.name := by
          rw [hqe1c.1, ← hq1key]
          exact List.mem_singleton.mp hnew
        rcases hq1c.2 with ⟨hne, _⟩ | ⟨_, he⟩
        · exact absurd hqc hne
        · rw [hp1key, hpall, he]
          exact List.mem_append_right _ (by rw [halname]; exact List.mem_singleton.mpr rfl)

theorem gp_step (st0 : InventoryData) (hnc : NameConsistent st0)
    (n : String) (rest : List String) (s s1 : InventoryData)
    (hinv : GPInv st0 s (n :: rest)) (hkey : n ∈ st0.groups.map (fun p => p.1))
    (hok : reconcileGroupStep s n = .ok s1) : GPInv st0 s1 rest := by
  have hkey2 : n ∈ s.groups.map (fun p => p.1) := by rw [hinv.gkeys]; exact hkey
  rcases Option.isSome_iff_exists.mp ((alookup_isSome _ _).mpr hkey2) with ⟨g, hgs⟩
  rcases Option.isSome_iff_exists.mp ((alookup_isSome _ _).mpr hkey) with ⟨g0, hgs0⟩
  have hg0n : g0.name = n := hnc.1 (n, g0) (alookup_mem hgs0)
  have hgpair : g.name = g0.name ∧ g.vars = g0.vars ∧ g.hosts = g0.hosts := by
    have hmap := hinv.gvals n
    rw [hgs, hgs0] at hmap
    have hmap2 : (g.name, g.vars, g.hosts) = (g0.name, g0.vars, g0.hosts) :=
      Option.some.inj hmap
    exact ⟨congrArg (fun t => t.1) hmap2,
      congrArg (fun t => t.2.1) hmap2,
      congrArg (fun t => t.2.2) hmap2⟩
  have hgname : g.name = n := hgpair.1.trans hg0n
  rw [reconcileGroupStep] at hok
  split at hok
  · rename_i hnone
    rw [hgs] at hnone
    cases hnone
  · rename_i g2 hg2
    have hg2g : g = g2 := Option.some.inj (by rw [← hgs, ← hg2])
    subst hg2g
    split at hok
    · rename_i hcond
      have hpar0 : g.parent_groups = [] :=
        (get_ancestors_eq_nil_iff s.groups g).mp hcond.2
      have hnall : n ≠ "all" := by
        rw [← hgname]
        exact hcond.1
      split at hok
      · cases hok
      · rename_i r hac
        cases hok
        rw [add_child] at hac
        split at hac
        · cases hac
        · rename_i al hal
          have halname : al.name = "all" := by
            have hsome0 : (alookup st0.groups "all").isSome = true := by
              have := hinv.gvals "all"
              rw [hal] at this
              cases hl0 : alookup st0.groups "all" with
              | none =>
                rw [hl0] at this
                cases this
              | some a0 => rfl
            rcases Option.isSome_iff_exists.mp hsome0 with ⟨al0, hal0⟩
            have := hinv.gvals "all"
            rw [hal, hal0] at this
            have h2 : (al.name, al.vars, al.hosts) = (al0.name, al0.vars, al0.hosts) :=
              Option.some.inj this
            have h1 : al.name = al0.name := congrArg (fun t => t.1) h2
            rw [h1]
            exact hnc.1 ("all", al0) (alookup_mem hal0)
          split at hac
          · rename_i c hc
            have hcg : c = g := Option.some.inj (by rw [← hc, hgname, hgs])
            subst hcg
            split at hac
            · cases hac
            · rename_i added st3 hacg
              cases hac
              rw [groupAddChildGroup] at hacg
              split at hacg
              · rename_i p c2 hp hc2
                have hpal : al = p := Option.some.inj (by rw [← hal, ← hp])
                subst hpal
                have hc2g : c = c2 := Option.some.inj (by rw [← hc, ← hc2])
                subst hc2g
                split at hacg
                · cases hacg
                · rename_i hnself
                  split at hacg
                  · rename_i hchild
                    have hch2 : n ∈ al.child_groups := by
                      rw [← hgname]
                      exact hchild
                    have : "all" ∈ c.parent_groups :=
                      hinv.cps ("all", al) (alookup_mem hal) (n, c)
                        (alookup_mem hgs) hch2
                    rw [hpar0] at this
                    cases this
                  · rename_i hnchild
                    split at hacg
                    · cases hacg
                    · cases hacg
                      exact gp_attach_case st0 s n rest c al hinv hgs hgname hnall hal halname
              · cases hacg
          · rename_i hcnone
            rw [hgname, hgs] at hcnone
            cases hcnone
    · rename_i hcond
      cases hok
      refine ⟨hinv.gkeys, hinv.gvals, hinv.gpar, ?_, hinv.cps, hinv.hfix, hinv.lloc,
        hinv.lcs, hinv.lwarn⟩
      intro k hkrest gb hkb hbname
      by_cases hkn : k = n
      · subst hkn
        have hgb : gb = g := Option.some.inj (by rw [← hkb, ← hgs])
        subst hgb
        rw [not_and] at hcond
        have hanc := hcond hbname
        intro hpar
        exact hanc ((get_ancestors_eq_nil_iff s.groups _).mpr hpar)
      · exact hinv.gne k (fun hm => (List.mem_cons.mp hm).elim (fun h => hkn h) hkrest)
          gb hkb hbname

theorem gp_fold (st0 : InventoryData) (hnc : NameConsistent st0)
    (names : List String) :
    ∀ s s1, GPInv st0 s names → (∀ m ∈ names, m ∈ st0.groups.map (fun p => p.1)) →
    names.foldlM reconcileGroupStep s = .ok s1 → GPInv st0 s1 [] := by
  induction names with
  | nil =>
    intro s s1 hinv _ hok
    have h2 : (Except.ok s : Except String InventoryData) = Except.ok s1 := hok
    cases h2
    exact hinv
  | cons n rest ih =>
    intro s s1 hinv hsub hok
    rw [List.foldlM_cons] at hok
    cases hstep : reconcileGroupStep s n with
    | error e =>
      rw [hstep, except_bind_err] at hok
      cases hok
    | ok s2 =>
      rw [hstep, except_bind_ok] at hok
      exact ih s2 s1
        (gp_step st0 hnc n rest s s2 hinv (hsub n (List.mem_cons_self n rest)) hstep)
        (fun m hm => hsub m (List.mem_cons_of_mem n hm)) hok

theorem reconcileGroups_ok (st0 s1 : InventoryData) (hnc : NameConsistent st0)
    (hcps : ChildParentSym st0) (hok : reconcileGroups st0 = .ok s1) :
    GPInv st0 s1 [] := by
  have hinit : GPInv st0 st0 (st0.groups.map (fun p => p.1)) := by
    refine ⟨rfl, fun k => rfl, ?_, ?_, hcps, rfl, rfl, rfl, rfl⟩
    · intro k g0 g h1 h2 q hq
      have he : g0 = g := Option.some.inj (h1.symm.trans h2)
      rw [← he]
      exact hq
    · intro k hk g hg hname
      exact absurd ((alookup_isSome _ _).mp (by rw [hg]; rfl)) hk
  rw [reconcileGroups] at hok
  exact gp_fold st0 hnc (st0.groups.map (fun p => p.1)) st0 s1 hinit
    (fun m hm => hm) hok

/-! ## Host-pass characterization -/

theorem hostStepSpec_filter (A : Vars) (gk : List String) (h : Host)
    (h1 : "ungrouped" ∈ h.groups)
    (h2 : h.groups.any (fun gn => gn ≠ "all" ∧ gn ≠ "ungrouped") = true) :
    hostStepSpec A gk h = { h with
      groups := h.groups.filter (· ≠ "ungrouped"),
      vars := if h.implicit then combine_vars A h.vars else h.vars } := by
  unfold hostStepSpec
  rw [if_pos h1, if_pos h2]

theorem hostStepSpec_keep1 (A : Vars) (gk : List String) (h : Host)
    (h1 : "ungrouped" ∈ h.groups)
    (h2 : ¬ h.groups.any (fun gn => gn ≠ "all" ∧ gn ≠ "ungrouped") = true) :
    hostStepSpec A gk h =
      { h with vars := if h.implicit then combine_vars A h.vars else h.vars } := by
  unfold hostStepSpec
  rw [if_pos h1, if_neg h2]

theorem hostStepSpec_attach (A : Vars) (gk : List String) (h : Host)
    (h1 : "ungrouped" ∉ h.groups)
    (h3 : ¬ h.implicit = true ∧
      (h.groups.length = 0 ∨ (h.groups.length = 1 ∧ "all" ∈ h.groups)))
    (h4 : h.name ∉ gk) :
    hostStepSpec A gk h = { h with groups := h.groups ++ ["ungrouped"] } := by
  unfold hostStepSpec
  rw [if_neg h1, if_pos h3, if_neg h4, if_neg h3.1]

theorem hostStepSpec_collide (A : Vars) (gk : List String) (h : Host)
    (h1 : "ungrouped" ∉ h.groups)
    (h3 : ¬ h.implicit = true ∧
      (h.groups.length = 0 ∨ (h.groups.length = 1 ∧ "all" ∈ h.groups)))
    (h4 : h.name ∈ gk) :
    hostStepSpec A gk h = h := by
  unfold hostStepSpec
  rw [if_neg h1, if_pos h3, if_pos h4, if_neg h3.1]

theorem hostStepSpec_skip (A : Vars) (gk : List String) (h : Host)
    (h1 : "ungrouped" ∉ h.groups)
    (h3 : ¬ (¬ h.implicit = true ∧
      (h.groups.length = 0 ∨ (h.groups.length = 1 ∧ "all" ∈ h.groups)))) :
    hostStepSpec A gk h =
      { h with vars := if h.implicit then combine_vars A h.vars else h.vars } := by
  unfold hostStepSpec
  rw [if_neg h1, if_neg h3]

theorem memberSpec_filter (g0h gk : List String) (h : Host) (n : String)
    (h1 : "ungrouped" ∈ h.groups)
    (h2 : h.groups.any (fun gn => gn ≠ "all" ∧ gn ≠ "ungrouped") = true) :
    memberSpec g0h gk h n = False := by
  unfold memberSpec
  rw [if_pos h1, if_pos h2]

theorem memberSpec_keep1 (g0h gk : List String) (h : Host) (n : String)
    (h1 : "ungrouped" ∈ h.groups)
    (h2 : ¬ h.groups.any (fun gn => gn ≠ "all" ∧ gn ≠ "ungrouped") = true) :
    memberSpec g0h gk h n = (n ∈ g0h) := by
  unfold memberSpec
  rw [if_pos h1, if_neg h2]

theorem memberSpec_attach (g0h gk : List String) (h : Host) (n : String)
    (h1 : "ungrouped" ∉ h.groups)
    (h3 : ¬ h.implicit = true ∧
      (h.groups.length = 0 ∨ (h.groups.length = 1 ∧ "all" ∈ h.groups)))
    (h4 : h.name ∉ gk) :
    memberSpec g0h gk h n = True := by
  unfold memberSpec
  rw [if_neg h1, if_pos h3, if_neg h4]

theorem memberSpec_collide (g0h gk : List String) (h : Host) (n : String)
    (h1 : "ungrouped" ∉ h.groups)
    (h3 : ¬ h.implicit = true ∧
      (h.groups.length = 0 ∨ (h.groups.length = 1 ∧ "all" ∈ h.groups)))
    (h4 : h.name ∈ gk) :
    memberSpec g0h gk h n = (n ∈ g0h) := by
  unfold memberSpec
  rw [if_neg h1, if_pos h3, if_pos h4]

theorem memberSpec_skip (g0h gk : List String) (h : Host) (n : String)
    (h1 : "ungrouped" ∉ h.groups)
    (h3 : ¬ (¬ h.implicit = true ∧
      (h.groups.length = 0 ∨ (h.groups.length = 1 ∧ "all" ∈ h.groups)))) :
    memberSpec g0h gk h n = (n ∈ g0h) := by
  unfold memberSpec
  rw [if_neg h1, if_neg h3]

theorem pair_lookup_transfer {l1 l2 : List (String × Group)}
    (hg : ∀ k, (alookup l1 k).map (fun g => (g.name, g.vars)) =
      (alookup l2 k).map (fun g => (g.name, g.vars)))
    {k : String} {g0 : Group} (h : alookup l2 k = some g0) :
    ∃ g, alookup l1 k = some g ∧ g.name = g0.name ∧ g.vars = g0.vars := by
  have hsv := hg k
  rw [h] at hsv
  cases hsl : alookup l1 k with
  | none =>
    rw [hsl] at hsv
    simp at hsv
  | some g =>
    rw [hsl] at hsv
    have h2 : (g.name, g.vars) = (g0.name, g0.vars) := Option.some.inj hsv
    exact ⟨g, rfl, congrArg (fun t => t.1) h2, congrArg (fun t => t.2) h2⟩

theorem lookup_aupdate_par_sub {l : List (String × Group)} {k2 : String} {f : Group → Group}
    (hf : ∀ g, ∀ q ∈ g.parent_groups, q ∈ (f g).parent_groups) :
    ∀ k g g1, alookup l k = some g → alookup (aupdate l k2 f) k = some g1 →
      ∀ q ∈ g.parent_groups, q ∈ g1.parent_groups := by
  intro k g g1 h1 h2 q hq
  by_cases hk : k = k2
  · subst hk
    rw [alookup_aupdate_self, h1] at h2
    have he : f g = g1 := Option.some.inj h2
    rw [← he]
    exact hf g q hq
  · rw [alookup_aupdate_ne _ _ _ _ hk, h1] at h2
    have he : g = g1 := Option.some.inj h2
    rw [← he]
    exact hq

theorem hp_assemble (st0 : InventoryData) (n : String) (rest : List String)
    (hnr : n ∉ rest) (s s1 : InventoryData) (hinv : HPInv st0 s (n :: rest))
    (h0 : Host) (hh0 : alookup st0.hosts n = some h0)
    (hgkeys : s1.groups.map (fun p => p.1) = s.groups.map (fun p => p.1))
    (hgvals : ∀ k, (alookup s1.groups k).map (fun g => (g.name, g.vars)) =
      (alookup s.groups k).map (fun g => (g.name, g.vars)))
    (hgpar : ∀ k g g1, alookup s.groups k = some g → alookup s1.groups k = some g1 →
      ∀ q ∈ g.parent_groups, q ∈ g1.parent_groups)
    (hgchild : ∀ k g g1, alookup s.groups k = some g → alookup s1.groups k = some g1 →
      ∀ q ∈ g.child_groups, q ∈ g1.child_groups)
    (huu : ∀ gu gu1, alookup s.groups "ungrouped" = some gu →
      alookup s1.groups "ungrouped" = some gu1 →
      ∀ m, m ≠ n → (m ∈ gu1.hosts ↔ m ∈ gu.hosts))
    (hun : ∀ gu0 gu1, alookup st0.groups "ungrouped" = some gu0 →
      alookup s1.groups "ungrouped" = some gu1 →
      (n ∈ gu1.hosts ↔ memberSpec gu0.hosts (st0.groups.map (fun p => p.1)) h0 n))
    (hhkeys : s1.hosts.map (fun p => p.1) = s.hosts.map (fun p => p.1))
    (hhother : ∀ m, m ≠ n → alookup s1.hosts m = alookup s.hosts m)
    (hhn : alookup s1.hosts n =
      some (hostStepSpec (allVars st0) (st0.groups.map (fun p => p.1)) h0))
    (hcoll : "ungrouped" ∉ h0.groups → ¬ h0.implicit = true →
      (h0.groups.length = 0 ∨ (h0.groups.length = 1 ∧ "all" ∈ h0.groups)) →
      h0.name ∈ st0.groups.map (fun p => p.1) →
      h0.name ≠ "ungrouped" ∧ ∃ g, alookup s1.groups "ungrouped" = some g ∧
        h0.name ∈ g.child_groups)
    (hlloc : s1.localhost = s.localhost)
    (hlcs : s1.current_source = s.current_source)
    (hlwarn : s1.warnings = s.warnings) :
    HPInv st0 s1 rest := by
  refine ⟨hgkeys.trans hinv.gkeys, fun k => (hgvals k).trans (hinv.gvals k), ?_,
    hhkeys.trans hinv.hkeys, ?_, ?_, ?_, ?_, ?_, hlloc.trans hinv.lloc,
    hlcs.trans hinv.lcs, hlwarn.trans hinv.lwarn⟩
  · intro k g0 g1 h0l h1l q hq
    rcases pair_lookup_transfer hinv.gvals h0l with ⟨g, hsl, _, _⟩
    exact hgpar k g g1 hsl h1l q (hinv.gpar k g0 g h0l hsl q hq)
  · intro m hm
    exact (hhother m (fun he => hnr (he ▸ hm))).trans
      (hinv.hunproc m (List.mem_cons_of_mem n hm))
  · intro m hm
    by_cases hmn : m = n
    · subst hmn
      rw [hhn, hh0]
      rfl
    · have hm2 : m ∉ n :: rest := fun hc => (List.mem_cons.mp hc).elim hmn (fun hx => hm hx)
      exact (hhother m hmn).trans (hinv.hproc m hm2)
  · intro m hm g0 g1 hg0 hg1
    rcases pair_lookup_transfer hinv.gvals hg0 with ⟨gu, hgu, _, _⟩
    have hmn : m ≠ n := fun he => hnr (he ▸ hm)
    exact (huu gu g1 hgu hg1 m hmn).trans
      (hinv.umem m (List.mem_cons_of_mem n hm) g0 gu hg0 hgu)
  · intro m hm h0' g0 g1 hmh hg0 hg1
    by_cases hmn : m = n
    · subst hmn
      have hh : h0' = h0 := Option.some.inj (hmh.symm.trans hh0)
      subst hh
      exact hun g0 g1 hg0 hg1
    · have hm2 : m ∉ n :: rest := fun hc => (List.mem_cons.mp hc).elim hmn (fun hx => hm hx)
      rcases pair_lookup_transfer hinv.gvals hg0 with ⟨gu, hgu, _, _⟩
      exact (huu gu g1 hgu hg1 m hmn).trans (hinv.umem2 m hm2 h0' g0 gu hmh hg0 hgu)
  · intro m hm h0' hmh hning hnimp hlen hkeym
    by_cases hmn : m = n
    · subst hmn
      have hh : h0' = h0 := Option.some.inj (hmh.symm.trans hh0)
      subst hh
      exact hcoll hning hnimp hlen hkeym
    · have hm2 : m ∉ n :: rest := fun hc => (List.mem_cons.mp hc).elim hmn (fun hx => hm hx)
      rcases hinv.collis m hm2 h0' hmh hning hnimp hlen hkeym with ⟨hne, g, hg, hmem⟩
      rcases pair_lookup_transfer hgvals hg with ⟨g1, hg1, _, _⟩
      exact ⟨hne, g1, hg1, hgchild "ungrouped" g g1 hg hg1 h0'.name hmem⟩

theorem lookup_aupdate_child_sub {l : List (String × Group)} {k2 : String} {f : Group → Group}
    (hf : ∀ g, ∀ q ∈ g.child_groups, q ∈ (f g).child_groups) :
    ∀ k g g1, alookup l k = some g → alookup (aupdate l k2 f) k = some g1 →
      ∀ q ∈ g.child_groups, q ∈ g1.child_groups := by
  intro k g g1 h1 h2 q hq
  by_cases hk : k = k2
  · subst hk
    rw [alookup_aupdate_self, h1] at h2
    have he : f g = g1 := Option.some.inj h2
    rw [← he]
    exact hf g q hq
  · rw [alookup_aupdate_ne _ _ _ _ hk, h1] at h2
    have he : g = g1 := Option.some.inj h2
    rw [← he]
    exact hq

theorem hp_branch_keep (st0 : InventoryData) (n : String) (rest : List String)
    (hnr : n ∉ rest) (s s1 : InventoryData) (hinv : HPInv st0 s (n :: rest))
    (h0 : Host) (hh0 : alookup st0.hosts n = some h0)
    (hhs : alookup s.hosts n = some h0)
    (gu0 : Group) (hgu0 : alookup st0.groups "ungrouped" = some gu0)
    (hms : memberSpec gu0.hosts (st0.groups.map (fun p => p.1)) h0 n = (n ∈ gu0.hosts))
    (hss : hostStepSpec (allVars st0) (st0.groups.map (fun p => p.1)) h0 =
      { h0 with vars := if h0.implicit then combine_vars (allVars st0) h0.vars else h0.vars })
    (hncol : ¬ ("ungrouped" ∉ h0.groups ∧ ¬ h0.implicit = true ∧
      (h0.groups.length = 0 ∨ (h0.groups.length = 1 ∧ "all" ∈ h0.groups))))
    (hok : reconcileHostMerge s h0 n = .ok s1) :
    HPInv st0 s1 rest := by
  rw [reconcileHostMerge] at hok
  split at hok
  · rename_i himp
    split at hok
    · cases hok
    · rename_i ga2 hga2
      cases hok
      have hva : ga2.vars = allVars st0 := by
        rcases pair_lookup_transfer (fun k => (hinv.gvals k).symm) hga2 with ⟨ga0, hga0, _, hv⟩
        have h1 : allVars st0 = ga0.vars := by
          unfold allVars
          rw [hga0]
        rw [h1]
        exact hv.symm
      refine hp_assemble st0 n rest hnr s _ hinv h0 hh0 rfl (fun k => rfl)
        ?_ ?_ ?_ ?_ ?_ ?_ ?_ ?_ rfl rfl rfl
      · intro k g g1 h1 h2 q hq
        have he : g = g1 := Option.some.inj (h1.symm.trans h2)
        rw [← he]
        exact hq
      · intro k g g1 h1 h2 q hq
        have he : g = g1 := Option.some.inj (h1.symm.trans h2)
        rw [← he]
        exact hq
      · intro gu gu1 h1 h2 m _
        have he : gu = gu1 := Option.some.inj (h1.symm.trans h2)
        rw [he]
      · intro gu0' gu1 hg0 hg1
        rw [show gu0' = gu0 from Option.some.inj (hg0.symm.trans hgu0), hms]
        exact hinv.umem n (List.mem_cons_self n rest) gu0 gu1 hgu0 hg1
      · show (aupdate s.hosts n
            (fun h2 => { h2 with vars := combine_vars ga2.vars h2.vars })).map
            (fun p => p.1) = s.hosts.map (fun p => p.1)
        exact aupdate_keys _ _ _
      · intro m hmn
        show alookup (aupdate s.hosts n
            (fun h2 => { h2 with vars := combine_vars ga2.vars h2.vars })) m =
          alookup s.hosts m
        exact alookup_aupdate_ne _ _ _ _ hmn
      · show alookup (aupdate s.hosts n
            (fun h2 => { h2 with vars := combine_vars ga2.vars h2.vars })) n =
          some (hostStepSpec (allVars st0) (st0.groups.map (fun p => p.1)) h0)
        rw [alookup_aupdate_self, hhs, hss, if_pos himp, ← hva]
        rfl
      · intro hA hB hC _
        exact absurd ⟨hA, hB, hC⟩ hncol
  · rename_i hnimp
    cases hok
    refine hp_assemble st0 n rest hnr s s hinv h0 hh0 rfl (fun k => rfl)
      ?_ ?_ ?_ ?_ rfl (fun m _ => rfl) ?_ ?_ rfl rfl rfl
    · intro k g g1 h1 h2 q hq
      have he : g = g1 := Option.some.inj (h1.symm.trans h2)
      rw [← he]
      exact hq
    · intro k g g1 h1 h2 q hq
      have he : g = g1 := Option.some.inj (h1.symm.trans h2)
      rw [← he]
      exact hq
    · intro gu gu1 h1 h2 m _
      have he : gu = gu1 := Option.some.inj (h1.symm.trans h2)
      rw [he]
    · intro gu0' gu1 hg0 hg1
      rw [show gu0' = gu0 from Option.some.inj (hg0.symm.trans hgu0), hms]
      exact hinv.umem n (List.mem_cons_self n rest) gu0 gu1 hgu0 hg1
    · rw [hhs, hss, if_neg hnimp]
    · intro hA hB hC _
      exact absurd ⟨hA, hB, hC⟩ hncol

theorem hp_branch_remove (st0 : InventoryData) (n : String) (rest : List String)
    (hnr : n ∉ rest) (s s1 : InventoryData) (hinv : HPInv st0 s (n :: rest))
    (h0 : Host) (hh0 : alookup st0.hosts n = some h0) (hh0n : h0.name = n)
    (hhs : alookup s.hosts n = some h0)
    (gu : Group) (hgu : alookup s.groups "ungrouped" = some gu)
    (hgun : gu.name = "ungrouped")
    (ga : Group) (hga : alookup s.groups "all" = some ga)
    (hA : "ungrouped" ∈ h0.groups)
    (hany : h0.groups.any (fun gn => gn ≠ "all" ∧ gn ≠ "ungrouped") = true)
    (hok : reconcileHostMerge (groupRemoveHost s "ungrouped" h0.name) h0 n = .ok s1) :
    HPInv st0 s1 rest := by
  have hgr : groupRemoveHost s "ungrouped" h0.name = { s with
      groups := aupdate s.groups "ungrouped"
        (fun g2 => { g2 with hosts := g2.hosts.filter (· ≠ n) }),
      hosts := aupdate s.hosts n
        (fun h2 => { h2 with groups := h2.groups.filter (· ≠ "ungrouped") }) } := by
    unfold groupRemoveHost
    rw [hgu, hh0n]
    show { s with
        groups := aupdate s.groups "ungrouped"
          (fun g2 => { g2 with hosts := g2.hosts.filter (· ≠ n) }),
        hosts := aupdate s.hosts n
          (fun h2 => { h2 with groups := h2.groups.filter (· ≠ gu.name) }) } =
      { s with
        groups := aupdate s.groups "ungrouped"
          (fun g2 => { g2 with hosts := g2.hosts.filter (· ≠ n) }),
        hosts := aupdate s.hosts n
          (fun h2 => { h2 with groups := h2.groups.filter (· ≠ "ungrouped") }) }
    rw [hgun]
  rw [hgr] at hok
  rw [reconcileHostMerge] at hok
  split at hok
  · rename_i himp
    split at hok
    · rename_i hnone
      have hnone2 : alookup (aupdate s.groups "ungrouped"
          (fun g2 => { g2 with hosts := g2.hosts.filter (· ≠ n) })) "all" = none := hnone
      rw [alookup_aupdate_ne _ _ _ _ (by decide), hga] at hnone2
      cases hnone2
    · rename_i ga2 hga2
      cases hok
      have hga2b : alookup s.groups "all" = some ga2 := by
        have h2 : alookup (aupdate s.groups "ungrouped"
            (fun g2 => { g2 with hosts := g2.hosts.filter (· ≠ n) })) "all" = some ga2 := hga2
        rw [alookup_aupdate_ne _ _ _ _ (by decide)] at h2
        exact h2
      have hva : ga2.vars = allVars st0 := by
        rcases pair_lookup_transfer (fun k => (hinv.gvals k).symm) hga2b with ⟨ga0, hga0, _, hv⟩
        have h1 : allVars st0 = ga0.vars := by
          unfold allVars
          rw [hga0]
        rw [h1]
        exact hv.symm
      refine hp_assemble st0 n rest hnr s _ hinv h0 hh0 ?_ ?_ ?_ ?_ ?_ ?_ ?_ ?_ ?_ ?_
        rfl rfl rfl
      · show (aupdate s.groups "ungrouped"
            (fun g2 => { g2 with hosts := g2.hosts.filter (· ≠ n) })).map
            (fun p => p.1) = s.groups.map (fun p => p.1)
        exact aupdate_keys _ _ _
      · intro k
        show (alookup (aupdate s.groups "ungrouped"
            (fun g2 => { g2 with hosts := g2.hosts.filter (· ≠ n) })) k).map
            (fun g => (g.name, g.vars)) =
          (alookup s.groups k).map (fun g => (g.name, g.vars))
        exact @lookup_aupdate_preserving2 s.groups "ungrouped"
          (fun g2 => { g2 with hosts := g2.hosts.filter (· ≠ n) })
          (fun g2 => ⟨rfl, rfl⟩) k
      · show ∀ k g g1, alookup s.groups k = some g →
          alookup (aupdate s.groups "ungrouped"
            (fun g2 => { g2 with hosts := g2.hosts.filter (· ≠ n) })) k = some g1 →
          ∀ q ∈ g.parent_groups, q ∈ g1.parent_groups
        exact lookup_aupdate_par_sub (fun g q hq => hq)
      · show ∀ k g g1, alookup s.groups k = some g →
          alookup (aupdate s.groups "ungrouped"
            (fun g2 => { g2 with hosts := g2.hosts.filter (· ≠ n) })) k = some g1 →
          ∀ q ∈ g.child_groups, q ∈ g1.child_groups
        exact lookup_aupdate_child_sub (fun g q hq => hq)
      · intro gu' gu1 hgu' hgu1 m hmn
        have hgu1b : alookup (aupdate s.groups "ungrouped"
            (fun g2 => { g2 with hosts := g2.hosts.filter (· ≠ n) })) "ungrouped" =
            some gu1 := hgu1
        rw [alookup_aupdate_self, hgu'] at hgu1b
        have he : ({ gu' with hosts := gu'.hosts.filter (· ≠ n) } : Group) = gu1 :=
          Option.some.inj hgu1b
        rw [← he]
        show m ∈ gu'.hosts.filter (· ≠ n) ↔ m ∈ gu'.hosts
        constructor
        · exact fun hx => List.mem_of_mem_filter hx
        · exact fun hx => List.mem_filter.mpr ⟨hx, decide_eq_true hmn⟩
      · intro gu0' gu1 hg0 hg1
        have hgu1b : alookup (aupdate s.groups "ungrouped"
            (fun g2 => { g2 with hosts := g2.hosts.filter (· ≠ n) })) "ungrouped" =
            some gu1 := hg1
        rw [alookup_aupdate_self, hgu] at hgu1b
        have he : ({ gu with hosts := gu.hosts.filter (· ≠ n) } : Group) = gu1 :=
          Option.some.inj hgu1b
        rw [← he, memberSpec_filter _ _ _ _ hA hany]
        show n ∈ gu.hosts.filter (· ≠ n) ↔ False
        constructor
        · intro hx
          exact absurd rfl (of_decide_eq_true (List.mem_filter.mp hx).2)
        · exact fun hx => hx.elim
      · show (aupdate (aupdate s.hosts n
            (fun h2 => { h2 with groups := h2.groups.filter (· ≠ "ungrouped") })) n
            (fun h2 => { h2 with vars := combine_vars ga2.vars h2.vars })).map
            (fun p => p.1) = s.hosts.map (fun p => p.1)
        rw [aupdate_keys, aupdate_keys]
      · intro m hmn
        show alookup (aupdate (aupdate s.hosts n
            (fun h2 => { h2 with groups := h2.groups.filter (· ≠ "ungrouped") })) n
            (fun h2 => { h2 with vars := combine_vars ga2.vars h2.vars })) m =
          alookup s.hosts m
        rw [alookup_aupdate_ne _ _ _ _ hmn, alookup_aupdate_ne _ _ _ _ hmn]
      · show alookup (aupdate (aupdate s.hosts n
            (fun h2 => { h2 with groups := h2.groups.filter (· ≠ "ungrouped") })) n
            (fun h2 => { h2 with vars := combine_vars ga2.vars h2.vars })) n =
          some (hostStepSpec (allVars st0) (st0.groups.map (fun p => p.1)) h0)
        rw [alookup_aupdate_self, alookup_aupdate_self, hhs,
          hostStepSpec_filter _ _ _ hA hany, if_pos himp, ← hva]
        rfl
      · intro h1 _ _ _
        exact absurd hA h1
  · rename_i hnimp
    cases hok
    refine hp_assemble st0 n rest hnr s _ hinv h0 hh0 ?_ ?_ ?_ ?_ ?_ ?_ ?_ ?_ ?_ ?_
      rfl rfl rfl
    · show (aupdate s.groups "ungrouped"
          (fun g2 => { g2 with hosts := g2.hosts.filter (· ≠ n) })).map
          (fun p => p.1) = s.groups.map (fun p => p.1)
      exact aupdate_keys _ _ _
    · intro k
      show (alookup (aupdate s.groups "ungrouped"
          (fun g2 => { g2 with hosts := g2.hosts.filter (· ≠ n) })) k).map
          (fun g => (g.name, g.vars)) =
        (alookup s.groups k).map (fun g => (g.name, g.vars))
      exact @lookup_aupdate_preserving2 s.groups "ungrouped"
        (fun g2 => { g2 with hosts := g2.hosts.filter (· ≠ n) })
        (fun g2 => ⟨rfl, rfl⟩) k
    · show ∀ k g g1, alookup s.groups k = some g →
        alookup (aupdate s.groups "ungrouped"
          (fun g2 => { g2 with hosts := g2.hosts.filter (· ≠ n) })) k = some g1 →
        ∀ q ∈ g.parent_groups, q ∈ g1.parent_groups
      exact lookup_aupdate_par_sub (fun g q hq => hq)
    · show ∀ k g g1, alookup s.groups k = some g →
        alookup (aupdate s.groups "ungrouped"
          (fun g2 => { g2 with hosts := g2.hosts.filter (· ≠ n) })) k = some g1 →
        ∀ q ∈ g.child_groups, q ∈ g1.child_groups
      exact lookup_aupdate_child_sub (fun g q hq => hq)
    · intro gu' gu1 hgu' hgu1 m hmn
      have hgu1b : alookup (aupdate s.groups "ungrouped"
          (fun g2 => { g2 with hosts := g2.hosts.filter (· ≠ n) })) "ungrouped" =
          some gu1 := hgu1
      rw [alookup_aupdate_self, hgu'] at hgu1b
      have he : ({ gu' with hosts := gu'.hosts.filter (· ≠ n) } : Group) = gu1 :=
        Option.some.inj hgu1b
      rw [← he]
      show m ∈ gu'.hosts.filter (· ≠ n) ↔ m ∈ gu'.hosts
      constructor
      · exact fun hx => List.mem_of_mem_filter hx
      · exact fun hx => List.mem_filter.mpr ⟨hx, decide_eq_true hmn⟩
    · intro gu0' gu1 hg0 hg1
      have hgu1b : alookup (aupdate s.groups "ungrouped"
          (fun g2 => { g2 with hosts := g2.hosts.filter (· ≠ n) })) "ungrouped" =
          some gu1 := hg1
      rw [alookup_aupdate_self, hgu] at hgu1b
      have he : ({ gu with hosts := gu.hosts.filter (· ≠ n) } : Group) = gu1 :=
        Option.some.inj hgu1b
      rw [← he, memberSpec_filter _ _ _ _ hA hany]
      show n ∈ gu.hosts.filter (· ≠ n) ↔ False
      constructor
      · intro hx
        exact absurd rfl (of_decide_eq_true (List.mem_filter.mp hx).2)
      · exact fun hx => hx.elim
    · show (aupdate s.hosts n
          (fun h2 => { h2 with groups := h2.groups.filter (· ≠ "ungrouped") })).map
          (fun p => p.1) = s.hosts.map (fun p => p.1)
      exact aupdate_keys _ _ _
    · intro m hmn
      show alookup (aupdate s.hosts n
          (fun h2 => { h2 with groups := h2.groups.filter (· ≠ "ungrouped") })) m =
        alookup s.hosts m
      exact alookup_aupdate_ne _ _ _ _ hmn
    · show alookup (aupdate s.hosts n
          (fun h2 => { h2 with groups := h2.groups.filter (· ≠ "ungrouped") })) n =
        some (hostStepSpec (allVars st0) (st0.groups.map (fun p => p.1)) h0)
      rw [alookup_aupdate_self, hhs, hostStepSpec_filter _ _ _ hA hany, if_neg hnimp]
      rfl
    · intro h1 _ _ _
      exact absurd hA h1

theorem hp_branch_attach (st0 : InventoryData) (n : String) (rest : List String)
    (hnr : n ∉ rest) (s s1 : InventoryData) (hinv : HPInv st0 s (n :: rest))
    (h0 : Host) (hh0 : alookup st0.hosts n = some h0) (hh0n : h0.name = n)
    (hhs : alookup s.hosts n = some h0)
    (gu : Group) (hgu : alookup s.groups "ungrouped" = some gu)
    (hgun : gu.name = "ungrouped")
    (hB1 : "ungrouped" ∉ h0.groups) (himp : ¬ h0.implicit = true)
    (hlen : h0.groups.length = 0 ∨ (h0.groups.length = 1 ∧ "all" ∈ h0.groups))
    (hnocol : alookup s.groups h0.name = none)
    (hnmem : h0.name ∉ gu.hosts)
    (r : Bool × InventoryData)
    (hadd : add_child s "ungrouped" h0.name = .ok r)
    (hok : reconcileHostMerge r.2 h0 n = .ok s1) :
    HPInv st0 s1 rest := by
  have hknot : h0.name ∉ st0.groups.map (fun p => p.1) := by
    rw [← hinv.gkeys]
    intro hmem
    rcases Option.isSome_iff_exists.mp ((alookup_isSome _ _).mpr hmem) with ⟨g, hg⟩
    rw [hnocol] at hg
    cases hg
  rw [add_child] at hadd
  split at hadd
  · cases hadd
  · split at hadd
    · rename_i c hc2
      rw [hnocol] at hc2
      cases hc2
    · split at hadd
      · rename_i h' hh'
        have hadd2 : (Except.ok ((groupAddHost s "ungrouped" h0.name).1,
            { (groupAddHost s "ungrouped" h0.name).2 with groups_dict_cache := [] }) :
            Except String (Bool × InventoryData)) = .ok r := hadd
        have hgah : groupAddHost s "ungrouped" h0.name = (true, { s with
            groups := aupdate s.groups "ungrouped"
              (fun g2 => { g2 with hosts := g2.hosts ++ [n] }),
            hosts := aupdate s.hosts n
              (fun h2 => { h2 with groups := insertNew h2.groups "ungrouped" }) }) := by
          unfold groupAddHost
          have hhs2 : alookup s.hosts h0.name = some h0 := by
            rw [hh0n]
            exact hhs
          rw [hgu, hhs2]
          show (if h0.name ∈ gu.hosts then (false, s) else (true, { s with
              groups := aupdate s.groups "ungrouped"
                (fun g2 => { g2 with hosts := g2.hosts ++ [h0.name] }),
              hosts := aupdate s.hosts h0.name
                (fun h2 => { h2 with groups := insertNew h2.groups gu.name }) })) = _
          rw [if_neg hnmem, hh0n, hgun]
        rw [hgah] at hadd2
        cases hadd2
        rw [reconcileHostMerge] at hok
        split at hok
        · rename_i himp2
          exact absurd himp2 himp
        · cases hok
          refine hp_assemble st0 n rest hnr s _ hinv h0 hh0 ?_ ?_ ?_ ?_ ?_ ?_ ?_ ?_ ?_ ?_
            rfl rfl rfl
          · show (aupdate s.groups "ungrouped"
                (fun g2 => { g2 with hosts := g2.hosts ++ [n] })).map
                (fun p => p.1) = s.groups.map (fun p => p.1)
            exact aupdate_keys _ _ _
          · intro k
            show (alookup (aupdate s.groups "ungrouped"
                (fun g2 => { g2 with hosts := g2.hosts ++ [n] })) k).map
                (fun g => (g.name, g.vars)) =
              (alookup s.groups k).map (fun g => (g.name, g.vars))
            exact @lookup_aupdate_preserving2 s.groups "ungrouped"
              (fun g2 => { g2 with hosts := g2.hosts ++ [n] })
              (fun g2 => ⟨rfl, rfl⟩) k
          · show ∀ k g g1, alookup s.groups k = some g →
              alookup (aupdate s.groups "ungrouped"
                (fun g2 => { g2 with hosts := g2.hosts ++ [n] })) k = some g1 →
              ∀ q ∈ g.parent_groups, q ∈ g1.parent_groups
            exact lookup_aupdate_par_sub (fun g q hq => hq)
          · show ∀ k g g1, alookup s.groups k = some g →
              alookup (aupdate s.groups "ungrouped"
                (fun g2 => { g2 with hosts := g2.hosts ++ [n] })) k = some g1 →
              ∀ q ∈ g.child_groups, q ∈ g1.child_groups
            exact lookup_aupdate_child_sub (fun g q hq => hq)
          · intro gu' gu1 hgu' hgu1 m hmn
            have hgu1b : alookup (aupdate s.groups "ungrouped"
                (fun g2 => { g2 with hosts := g2.hosts ++ [n] })) "ungrouped" =
                some gu1 := hgu1
            rw [alookup_aupdate_self, hgu'] at hgu1b
            have he : ({ gu' with hosts := gu'.hosts ++ [n] } : Group) = gu1 :=
              Option.some.inj hgu1b
            rw [← he]
            show m ∈ gu'.hosts ++ [n] ↔ m ∈ gu'.hosts
            constructor
            · intro hx
              rcases List.mem_append.mp hx with hx | hx
              · exact hx
              · exact absurd (List.mem_singleton.mp hx) hmn
            · exact fun hx => List.mem_append_left _ hx
          · intro gu0' gu1 hg0 hg1
            have hgu1b : alookup (aupdate s.groups "ungrouped"
                (fun g2 => { g2 with hosts := g2.hosts ++ [n] })) "ungrouped" =
                some gu1 := hg1
            rw [alookup_aupdate_self, hgu] at hgu1b
            have he : ({ gu with hosts := gu.hosts ++ [n] } : Group) = gu1 :=
              Option.some.inj hgu1b
            rw [← he, memberSpec_attach _ _ _ _ hB1 ⟨himp, hlen⟩ hknot]
            constructor
            · exact fun _ => trivial
            · exact fun _ => List.mem_append_right _ (List.mem_singleton.mpr rfl)
          · show (aupdate s.hosts n
                (fun h2 => { h2 with groups := insertNew h2.groups "ungrouped" })).map
                (fun p => p.1) = s.hosts.map (fun p => p.1)
            exact aupdate_keys _ _ _
          · intro m hmn
            show alookup (aupdate s.hosts n
                (fun h2 => { h2 with groups := insertNew h2.groups "ungrouped" })) m =
              alookup s.hosts m
            exact alookup_aupdate_ne _ _ _ _ hmn
          · show alookup (aupdate s.hosts n
                (fun h2 => { h2 with groups := insertNew h2.groups "ungrouped" })) n =
              some (hostStepSpec (allVars st0) (st0.groups.map (fun p => p.1)) h0)
            rw [alookup_aupdate_self, hhs,
              hostStepSpec_attach _ _ _ hB1 ⟨himp, hlen⟩ hknot]
            show some ({ h0 with groups := insertNew h0.groups "ungrouped" } : Host) = _
            rw [show insertNew h0.groups "ungrouped" = h0.groups ++ ["ungrouped"] from by
              unfold insertNew
              rw [if_neg hB1]]
          · intro _ _ _ hk
            exact absurd hk hknot
      · cases hadd

theorem hp_branch_collide (st0 : InventoryData) (n : String) (rest : List String)
    (hnr : n ∉ rest) (s s1 : InventoryData) (hinv : HPInv st0 s (n :: rest))
    (h0 : Host) (hh0 : alookup st0.hosts n = some h0) (hh0n : h0.name = n)
    (hhs : alookup s.hosts n = some h0)
    (gu : Group) (hgu : alookup s.groups "ungrouped" = some gu)
    (hgun : gu.name = "ungrouped")
    (c : Group) (hc : alookup s.groups h0.name = some c) (hcn : c.name = h0.name)
    (hB1 : "ungrouped" ∉ h0.groups) (himp : ¬ h0.implicit = true)
    (hlen : h0.groups.length = 0 ∨ (h0.groups.length = 1 ∧ "all" ∈ h0.groups))
    (r : Bool × InventoryData)
    (hadd : add_child s "ungrouped" h0.name = .ok r)
    (hok : reconcileHostMerge r.2 h0 n = .ok s1) :
    HPInv st0 s1 rest := by
  have hkmem : h0.name ∈ st0.groups.map (fun p => p.1) := by
    rw [← hinv.gkeys]
    exact (alookup_isSome _ _).mp (by rw [hc]; rfl)
  rw [add_child] at hadd
  split at hadd
  · cases hadd
  · split at hadd
    · rename_i c2 hc2
      have hce : c = c2 := Option.some.inj (hc.symm.trans hc2)
      subst hce
      split at hadd
      · cases hadd
      · rename_i b st3 hacg
        cases hadd
        rw [groupAddChildGroup] at hacg
        split at hacg
        · rename_i p cc hp hcc
          have hpe : gu = p := Option.some.inj (hgu.symm.trans hp)
          subst hpe
          have hcce : c = cc := Option.some.inj (hc.symm.trans hcc)
          subst hcce
          split at hacg
          · cases hacg
          · rename_i hnself
            have hne : h0.name ≠ "ungrouped" := by
              intro he
              exact hnself (hgun.trans (hcn.trans he).symm)
            split at hacg
            · rename_i hchild
              cases hacg
              rw [reconcileHostMerge] at hok
              split at hok
              · rename_i himp2
                exact absurd himp2 himp
              · cases hok
                refine hp_assemble st0 n rest hnr s _ hinv h0 hh0 rfl (fun k => rfl)
                  ?_ ?_ ?_ ?_ rfl (fun m _ => rfl) ?_ ?_ rfl rfl rfl
                · intro k g g1 h1 h2 q hq
                  have he : g = g1 := Option.some.inj (h1.symm.trans h2)
                  rw [← he]
                  exact hq
                · intro k g g1 h1 h2 q hq
                  have he : g = g1 := Option.some.inj (h1.symm.trans h2)
                  rw [← he]
                  exact hq
                · intro gu' gu1 h1 h2 m _
                  have he : gu' = gu1 := Option.some.inj (h1.symm.trans h2)
                  rw [he]
                · intro gu0' gu1 hg0 hg1
                  rw [memberSpec_collide _ _ _ _ hB1 ⟨himp, hlen⟩ hkmem]
                  exact hinv.umem n (List.mem_cons_self n rest) gu0' gu1 hg0 hg1
                · show alookup s.hosts n =
                    some (hostStepSpec (allVars st0) (st0.groups.map (fun p => p.1)) h0)
                  rw [hhs, hostStepSpec_collide _ _ _ hB1 ⟨himp, hlen⟩ hkmem]
                · intro _ _ _ _
                  refine ⟨hne, gu, hgu, ?_⟩
                  rw [← hcn]
                  exact hchild
            · rename_i hnchild
              split at hacg
              · cases hacg
              · cases hacg
                rw [reconcileHostMerge] at hok
                split at hok
                · rename_i himp2
                  exact absurd himp2 himp
                · cases hok
                  refine hp_assemble st0 n rest hnr s _ hinv h0 hh0
                    ?_ ?_ ?_ ?_ ?_ ?_ rfl (fun m _ => rfl) ?_ ?_ rfl rfl rfl
                  · show (aupdate (aupdate s.groups "ungrouped"
                        (fun p2 => { p2 with child_groups := p2.child_groups ++ [c.name] }))
                        h0.name (fun c2 =>
                          { c2 with parent_groups := c2.parent_groups ++ [gu.name] })).map
                        (fun p => p.1) = s.groups.map (fun p => p.1)
                    rw [aupdate_keys, aupdate_keys]
                  · intro k
                    show (alookup (aupdate (aupdate s.groups "ungrouped"
                        (fun p2 => { p2 with child_groups := p2.child_groups ++ [c.name] }))
                        h0.name (fun c2 =>
                          { c2 with parent_groups := c2.parent_groups ++ [gu.name] })) k).map
                        (fun g => (g.name, g.vars)) =
                      (alookup s.groups k).map (fun g => (g.name, g.vars))
                    rw [@lookup_aupdate_preserving2 _ h0.name
                        (fun c2 => { c2 with parent_groups := c2.parent_groups ++ [gu.name] })
                        (fun g2 => ⟨rfl, rfl⟩) k,
                      @lookup_aupdate_preserving2 s.groups "ungrouped"
                        (fun p2 => { p2 with child_groups := p2.child_groups ++ [c.name] })
                        (fun g2 => ⟨rfl, rfl⟩) k]
                  · intro k g g1 h1 h2 q hq
                    have h2b : alookup (aupdate (aupdate s.groups "ungrouped"
                        (fun p2 => { p2 with child_groups := p2.child_groups ++ [c.name] }))
                        h0.name (fun c2 =>
                          { c2 with parent_groups := c2.parent_groups ++ [gu.name] })) k =
                        some g1 := h2
                    by_cases hk1 : k = h0.name
                    · subst hk1
                      rw [alookup_aupdate_self, alookup_aupdate_ne _ _ _ _ hne, hc] at h2b
                      have he2 : ({ c with parent_groups := c.parent_groups ++ [gu.name] } :
                          Group) = g1 := Option.some.inj h2b
                      have hgc : g = c := Option.some.inj (h1.symm.trans hc)
                      rw [hgc] at hq
                      rw [← he2]
                      exact List.mem_append_left _ hq
                    · rw [alookup_aupdate_ne _ _ _ _ hk1] at h2b
                      by_cases hk2 : k = "ungrouped"
                      · subst hk2
                        rw [alookup_aupdate_self, h1] at h2b
                        have he2 : ({ g with child_groups := g.child_groups ++ [c.name] } :
                            Group) = g1 := Option.some.inj h2b
                        rw [← he2]
                        exact hq
                      · rw [alookup_aupdate_ne _ _ _ _ hk2, h1] at h2b
                        have he2 : g = g1 := Option.some.inj h2b
                        rw [← he2]
                        exact hq
                  · intro k g g1 h1 h2 q hq
                    have h2b : alookup (aupdate (aupdate s.groups "ungrouped"
                        (fun p2 => { p2 with child_groups := p2.child_groups ++ [c.name] }))
                        h0.name (fun c2 =>
                          { c2 with parent_groups := c2.parent_groups ++ [gu.name] })) k =
                        some g1 := h2
                    by_cases hk1 : k = h0.name
                    · subst hk1
                      rw [alookup_aupdate_self, alookup_aupdate_ne _ _ _ _ hne, hc] at h2b
                      have he2 : ({ c with parent_groups := c.parent_groups ++ [gu.name] } :
                          Group) = g1 := Option.some.inj h2b
                      have hgc : g = c := Option.some.inj (h1.symm.trans hc)
                      rw [hgc] at hq
                      rw [← he2]
                      exact hq
                    · rw [alookup_aupdate_ne _ _ _ _ hk1] at h2b
                      by_cases hk2 : k = "ungrouped"
                      · subst hk2
                        rw [alookup_aupdate_self, h1] at h2b
                        have he2 : ({ g with child_groups := g.child_groups ++ [c.name] } :
                            Group) = g1 := Option.some.inj h2b
                        rw [← he2]
                        exact List.mem_append_left _ hq
                      · rw [alookup_aupdate_ne _ _ _ _ hk2, h1] at h2b
                        have he2 : g = g1 := Option.some.inj h2b
                        rw [← he2]
                        exact hq
                  · intro gu' gu1 hgu' hgu1 m hmn
                    have hgu1b : alookup (aupdate (aupdate s.groups "ungrouped"
                        (fun p2 => { p2 with child_groups := p2.child_groups ++ [c.name] }))
                        h0.name (fun c2 =>
                          { c2 with parent_groups := c2.parent_groups ++ [gu.name] }))
                        "ungrouped" = some gu1 := hgu1
                    rw [alookup_aupdate_ne _ _ _ _ (fun he => hne he.symm),
                      alookup_aupdate_self, hgu'] at hgu1b
                    have he2 : ({ gu' with child_groups := gu'.child_groups ++ [c.name] } :
                        Group) = gu1 := Option.some.inj hgu1b
                    rw [← he2]
                  · intro gu0' gu1 hg0 hg1
                    have hgu1b : alookup (aupdate (aupdate s.groups "ungrouped"
                        (fun p2 => { p2 with child_groups := p2.child_groups ++ [c.name] }))
                        h0.name (fun c2 =>
                          { c2 with parent_groups := c2.parent_groups ++ [gu.name] }))
                        "ungrouped" = some gu1 := hg1
                    rw [alookup_aupdate_ne _ _ _ _ (fun he => hne he.symm),
                      alookup_aupdate_self, hgu] at hgu1b
                    have he2 : ({ gu with child_groups := gu.child_groups ++ [c.name] } :
                        Group) = gu1 := Option.some.inj hgu1b
                    rw [← he2, memberSpec_collide _ _ _ _ hB1 ⟨himp, hlen⟩ hkmem]
                    exact hinv.umem n (List.mem_cons_self n rest) gu0' gu hg0 hgu
                  · show alookup s.hosts n =
                      some (hostStepSpec (allVars st0) (st0.groups.map (fun p => p.1)) h0)
                    rw [hhs, hostStepSpec_collide _ _ _ hB1 ⟨himp, hlen⟩ hkmem]
                  · intro _ _ _ _
                    refine ⟨hne, { gu with child_groups := gu.child_groups ++ [c.name] },
                      ?_, ?_⟩
                    · show alookup (aupdate (aupdate s.groups "ungrouped"
                          (fun p2 => { p2 with child_groups := p2.child_groups ++ [c.name] }))
                          h0.name (fun c2 =>
                            { c2 with parent_groups := c2.parent_groups ++ [gu.name] }))
                          "ungrouped" =
                        some { gu with child_groups := gu.child_groups ++ [c.name] }
                      rw [alookup_aupdate_ne _ _ _ _ (fun he => hne he.symm),
                        alookup_aupdate_self, hgu]
                      rfl
                    · show h0.name ∈ gu.child_groups ++ [c.name]
                      refine List.mem_append_right _ ?_
                      rw [hcn]
                      exact List.mem_singleton.mpr rfl
        · cases hacg
    · rename_i hnone2
      rw [hc] at hnone2
      cases hnone2

theorem hp_step (st0 : InventoryData) (hnc : NameConsistent st0) (hsym : SymHG st0)
    (n : String) (rest : List String) (hnr : n ∉ rest) (s s1 : InventoryData)
    (hinv : HPInv st0 s (n :: rest)) (hkey : n ∈ st0.hosts.map (fun p => p.1))
    (hok : reconcileHostStep s n = .ok s1) : HPInv st0 s1 rest := by
  rcases Option.isSome_iff_exists.mp ((alookup_isSome _ _).mpr hkey) with ⟨h0, hh0⟩
  have hh0n : h0.name = n := hnc.2 (n, h0) (alookup_mem hh0)
  have hhs : alookup s.hosts n = some h0 :=
    (hinv.hunproc n (List.mem_cons_self n rest)).trans hh0
  rw [reconcileHostStep] at hok
  split at hok
  · rename_i hnone
    rw [hhs] at hnone
    cases hnone
  · rename_i host hhost
    have hhe : h0 = host := Option.some.inj (hhs.symm.trans hhost)
    subst hhe
    split at hok
    · cases hok
    · rename_i gu hgu
      rcases pair_lookup_transfer (fun k => (hinv.gvals k).symm) hgu with
        ⟨gu0, hgu0, hgu0n, hgu0v⟩
      have hgun : gu.name = "ungrouped" :=
        hgu0n ▸ hnc.1 ("ungrouped", gu0) (alookup_mem hgu0)
      split at hok
      · cases hok
      · rename_i stB hB
        rw [reconcileHostBranches] at hB
        split at hB
        · rename_i hA
          split at hB
          · cases hB
          · rename_i ga hga
            split at hB
            · rename_i hany
              cases hB
              exact hp_branch_remove st0 n rest hnr s s1 hinv h0 hh0 hh0n hhs
                gu hgu hgun ga hga hA hany hok
            · rename_i hnany
              cases hB
              exact hp_branch_keep st0 n rest hnr s s1 hinv h0 hh0 hhs gu0 hgu0
                (memberSpec_keep1 _ _ _ _ hA hnany)
                (hostStepSpec_keep1 _ _ _ hA hnany)
                (fun hcon => hcon.1 hA) hok
        · rename_i hnA
          split at hB
          · rename_i hnimp
            split at hB
            · rename_i hlen0
              split at hB
              · cases hB
              · rename_i r hadd
                cases hB
                cases hcol : alookup s.groups h0.name with
                | some c =>
                  have hcn : c.name = h0.name := by
                    rcases pair_lookup_transfer (fun k => (hinv.gvals k).symm) hcol with
                      ⟨c0, hc0, hc0n, _⟩
                    exact hc0n ▸ hnc.1 (h0.name, c0) (alookup_mem hc0)
                  exact hp_branch_collide st0 n rest hnr s s1 hinv h0 hh0 hh0n hhs
                    gu hgu hgun c hcol hcn hnA hnimp (Or.inl hlen0) r hadd hok
                | none =>
                  have hnmem : h0.name ∉ gu.hosts := by
                    intro hmem
                    rw [hh0n] at hmem
                    have h1 : n ∈ gu0.hosts :=
                      (hinv.umem n (List.mem_cons_self n rest) gu0 gu hgu0 hgu).mp hmem
                    have h2 := (hsym ("ungrouped", gu0) (alookup_mem hgu0)
                      (n, h0) (alookup_mem hh0)).mp h1
                    exact hnA h2
                  exact hp_branch_attach st0 n rest hnr s s1 hinv h0 hh0 hh0n hhs
                    gu hgu hgun hnA hnimp (Or.inl hlen0) hcol hnmem r hadd hok
            · rename_i hnlen0
              split at hB
              · rename_i hlen1
                split at hB
                · cases hB
                · rename_i ga hga
                  split at hB
                  · rename_i hallmem
                    split at hB
                    · cases hB
                    · rename_i r hadd
                      cases hB
                      cases hcol : alookup s.groups h0.name with
                      | some c =>
                        have hcn : c.name = h0.name := by
                          rcases pair_lookup_transfer (fun k => (hinv.gvals k).symm) hcol with
                            ⟨c0, hc0, hc0n, _⟩
                          exact hc0n ▸ hnc.1 (h0.name, c0) (alookup_mem hc0)
                        exact hp_branch_collide st0 n rest hnr s s1 hinv h0 hh0 hh0n hhs
                          gu hgu hgun c hcol hcn hnA hnimp (Or.inr ⟨hlen1, hallmem⟩)
                          r hadd hok
                      | none =>
                        have hnmem : h0.name ∉ gu.hosts := by
                          intro hmem
                          rw [hh0n] at hmem
                          have h1 : n ∈ gu0.hosts :=
                            (hinv.umem n (List.mem_cons_self n rest) gu0 gu hgu0 hgu).mp hmem
                          have h2 := (hsym ("ungrouped", gu0) (alookup_mem hgu0)
                            (n, h0) (alookup_mem hh0)).mp h1
                          exact hnA h2
                        exact hp_branch_attach st0 n rest hnr s s1 hinv h0 hh0 hh0n hhs
                          gu hgu hgun hnA hnimp (Or.inr ⟨hlen1, hallmem⟩) hcol hnmem
                          r hadd hok
                  · rename_i hnallmem
                    cases hB
                    have hncond : ¬ (¬ h0.implicit = true ∧ (h0.groups.length = 0 ∨
                        (h0.groups.length = 1 ∧ "all" ∈ h0.groups))) := by
                      intro hcon
                      rcases hcon.2 with hl | ⟨_, ha⟩
                      · exact hnlen0 hl
                      · exact hnallmem ha
                    exact hp_branch_keep st0 n rest hnr s s1 hinv h0 hh0 hhs gu0 hgu0
                      (memberSpec_skip _ _ _ _ hnA hncond)
                      (hostStepSpec_skip _ _ _ hnA hncond)
                      (fun hcon => hncond ⟨hcon.2.1, hcon.2.2⟩) hok
              · rename_i hnlen1
                cases hB
                have hncond : ¬ (¬ h0.implicit = true ∧ (h0.groups.length = 0 ∨
                    (h0.groups.length = 1 ∧ "all" ∈ h0.groups))) := by
                  intro hcon
                  rcases hcon.2 with hl | ⟨hl1, _⟩
                  · exact hnlen0 hl
                  · exact hnlen1 hl1
                exact hp_branch_keep st0 n rest hnr s s1 hinv h0 hh0 hhs gu0 hgu0
                  (memberSpec_skip _ _ _ _ hnA hncond)
                  (hostStepSpec_skip _ _ _ hnA hncond)
                  (fun hcon => hncond ⟨hcon.2.1, hcon.2.2⟩) hok
          · rename_i hyesimp
            cases hB
            have hncond : ¬ (¬ h0.implicit = true ∧ (h0.groups.length = 0 ∨
                (h0.groups.length = 1 ∧ "all" ∈ h0.groups))) :=
              fun hcon => hyesimp hcon.1
            exact hp_branch_keep st0 n rest hnr s s1 hinv h0 hh0 hhs gu0 hgu0
              (memberSpec_skip _ _ _ _ hnA hncond)
              (hostStepSpec_skip _ _ _ hnA hncond)
              (fun hcon => hyesimp hcon.2.1) hok

theorem hp_fold (st0 : InventoryData) (hnc : NameConsistent st0) (hsym : SymHG st0)
    (names : List String) :
    ∀ s s1, HPInv st0 s names → names.Nodup →
    (∀ m ∈ names, m ∈ st0.hosts.map (fun p => p.1)) →
    names.foldlM reconcileHostStep s = .ok s1 → HPInv st0 s1 [] := by
  induction names with
  | nil =>
    intro s s1 hinv _ _ hok
    have h2 : (Except.ok s : Except String InventoryData) = Except.ok s1 := hok
    cases h2
    exact hinv
  | cons n rest ih =>
    intro s s1 hinv hnd hsub hok
    rw [List.foldlM_cons] at hok
    cases hstep : reconcileHostStep s n with
    | error e =>
      rw [hstep, except_bind_err] at hok
      cases hok
    | ok s2 =>
      rw [hstep, except_bind_ok] at hok
      exact ih s2 s1
        (hp_step st0 hnc hsym n rest (List.nodup_cons.mp hnd).1 s s2 hinv
          (hsub n (List.mem_cons_self n rest)) hstep)
        (List.nodup_cons.mp hnd).2 (fun m hm => hsub m (List.mem_cons_of_mem n hm)) hok

theorem reconcileHosts_ok (st1 s2 : InventoryData) (hnc : NameConsistent st1)
    (hsym : SymHG st1) (hnd : (st1.hosts.map (fun p => p.1)).Nodup)
    (hok : reconcileHosts st1 = .ok s2) : HPInv st1 s2 [] := by
  have hinit : HPInv st1 st1 (st1.hosts.map (fun p => p.1)) := by
    refine ⟨rfl, fun k => rfl, ?_, rfl, fun n _ => rfl, ?_, ?_, ?_, ?_, rfl, rfl, rfl⟩
    · intro k g0 g h1 h2 q hq
      have he : g0 = g := Option.some.inj (h1.symm.trans h2)
      rw [← he]
      exact hq
    · intro n hn
      cases hl : alookup st1.hosts n with
      | none => rfl
      | some h => exact absurd ((alookup_isSome _ _).mp (by rw [hl]; rfl)) hn
    · intro n _ g0 g h1 h2
      have he : g0 = g := Option.some.inj (h1.symm.trans h2)
      rw [he]
    · intro n hn h0 g0 g hh0 _ _
      exact absurd ((alookup_isSome _ _).mp (by rw [hh0]; rfl)) hn
    · intro n hn h0 hh0 _ _ _ _
      exact absurd ((alookup_isSome _ _).mp (by rw [hh0]; rfl)) hn
  rw [reconcileHosts] at hok
  exact hp_fold st1 hnc hsym _ st1 s2 hinit hnd (fun m hm => hm) hok

theorem gp_final_nc (stA s : InventoryData) (hnc : NameConsistent stA)
    (hknd : (stA.groups.map (fun p => p.1)).Nodup) (hinv : GPInv stA s []) :
    NameConsistent s := by
  constructor
  · intro p hp
    have hnd1 : (s.groups.map (fun q => q.1)).Nodup := by
      rw [hinv.gkeys]
      exact hknd
    have hl : alookup s.groups p.1 = some p.2 := alookup_of_mem_nodup hnd1 hp
    have hgv := hinv.gvals p.1
    rw [hl] at hgv
    cases h0 : alookup stA.groups p.1 with
    | none =>
      rw [h0] at hgv
      simp at hgv
    | some g0 =>
      rw [h0] at hgv
      have h3 := Option.some.inj hgv
      have hname : p.2.name = g0.name := congrArg (fun t => t.1) h3
      rw [hname]
      exact hnc.1 (p.1, g0) (alookup_mem h0)
  · intro p hp
    apply hnc.2
    rw [← hinv.hfix]
    exact hp

theorem gp_final_sym (stA s : InventoryData) (hsym : SymHG stA)
    (hknd : (stA.groups.map (fun p => p.1)).Nodup) (hinv : GPInv stA s []) :
    SymHG s := by
  intro p hp q hq
  have hnd1 : (s.groups.map (fun q2 => q2.1)).Nodup := by
    rw [hinv.gkeys]
    exact hknd
  have hl : alookup s.groups p.1 = some p.2 := alookup_of_mem_nodup hnd1 hp
  have hgv := hinv.gvals p.1
  rw [hl] at hgv
  cases h0 : alookup stA.groups p.1 with
  | none =>
    rw [h0] at hgv
    simp at hgv
  | some g0 =>
    rw [h0] at hgv
    have h3 := Option.some.inj hgv
    have hhosts : p.2.hosts = g0.hosts := congrArg (fun t => t.2.2) h3
    have hq2 : q ∈ stA.hosts := by
      rw [← hinv.hfix]
      exact hq
    have hres := hsym (p.1, g0) (alookup_mem h0) q hq2
    rw [hhosts]
    exact hres

theorem pair3_allVars {s st0 : InventoryData}
    (hgv : ∀ k, (alookup s.groups k).map (fun g => (g.name, g.vars, g.hosts)) =
      (alookup st0.groups k).map (fun g => (g.name, g.vars, g.hosts))) :
    allVars s = allVars st0 := by
  unfold allVars
  have h := hgv "all"
  cases h1 : alookup s.groups "all" with
  | none =>
    cases h2 : alookup st0.groups "all" with
    | none => rfl
    | some g =>
      rw [h1, h2] at h
      simp at h
  | some g =>
    cases h2 : alookup st0.groups "all" with
    | none =>
      rw [h1, h2] at h
      simp at h
    | some g0 =>
      rw [h1, h2] at h
      have h3 := Option.some.inj h
      exact congrArg (fun t => t.2.1) h3

theorem pair2_allVars {s st0 : InventoryData}
    (hgv : ∀ k, (alookup s.groups k).map (fun g => (g.name, g.vars)) =
      (alookup st0.groups k).map (fun g => (g.name, g.vars))) :
    allVars s = allVars st0 := by
  unfold allVars
  have h := hgv "all"
  cases h1 : alookup s.groups "all" with
  | none =>
    cases h2 : alookup st0.groups "all" with
    | none => rfl
    | some g =>
      rw [h1, h2] at h
      simp at h
  | some g =>
    cases h2 : alookup st0.groups "all" with
    | none =>
      rw [h1, h2] at h
      simp at h
    | some g0 =>
      rw [h1, h2] at h
      have h3 := Option.some.inj h
      exact congrArg (fun t => t.2) h3

theorem reconcile_ok_decomp (st st' : InventoryData)
    (hnc : NameConsistent st) (hkn : KeysNodup st)
    (hcps : ChildParentSym st) (hsym : SymHG st)
    (hok : reconcile_inventory st = .ok st') :
    ∃ st1 st2, GPInv { st with current_source := none } st1 [] ∧ HPInv st1 st2 [] ∧
      st' = { st2 with
              warnings := st2.warnings ++ conflictWarnings st2,
              groups_dict_cache := [] } := by
  have hok2 : (match reconcileGroups { st with current_source := none } with
      | .error e => (.error e : Except String InventoryData)
      | .ok st1 =>
        match reconcileHosts st1 with
        | .error e => .error e
        | .ok st2 => .ok { st2 with
                           warnings := st2.warnings ++ conflictWarnings st2,
                           groups_dict_cache := [] }) = .ok st' := hok
  split at hok2
  · cases hok2
  · rename_i st1 h1
    split at hok2
    · cases hok2
    · rename_i st2 h2
      cases hok2
      have hncA : NameConsistent { st with current_source := none } := hnc
      have hcpsA : ChildParentSym { st with current_source := none } := hcps
      have hgp := reconcileGroups_ok _ st1 hncA hcpsA h1
      have hnc1 : NameConsistent st1 := gp_final_nc _ _ hncA hkn.1 hgp
      have hsym1 : SymHG st1 :=
        gp_final_sym { st with current_source := none } st1 hsym hkn.1 hgp
      have hnd1 : (st1.hosts.map (fun p => p.1)).Nodup := by
        rw [hgp.hfix]
        exact hkn.2
      have hhp := reconcileHosts_ok st1 st2 hnc1 hsym1 hnd1 h2
      exact ⟨st1, st2, hgp, hhp, rfl⟩

/-- C3, counterexample: in `cx3state` the non-implicit, group-less host `x`
shares its name with a registered group; the pass succeeds, yet afterwards
`x` is not a member of `ungrouped` in any sense (neither its back-references
nor `ungrouped`'s member set record it) — `add_child` attached the *group*
`x` as a child of `ungrouped` instead. -/
theorem c3_counterexample :
    (alookup cx3state.hosts "x").isSome = true ∧
    (alookup cx3state.hosts "x").all
      (fun h => !h.implicit && decide (h.groups = [])) = true ∧
    (alookup cx3state.groups "x").isSome = true ∧
    (reconcile_inventory cx3state).map (fun st' =>
      (alookup st'.hosts "x").all (fun h' => decide ("ungrouped" ∉ h'.groups)) &&
      (alookup st'.groups "ungrouped").all (fun gu => decide ("x" ∉ gu.hosts)) &&
      (alookup st'.groups "ungrouped").all (fun gu => decide ("x" ∈ gu.child_groups))) =
      .ok true := by
  exact ⟨rfl, rfl, rfl, rfl⟩

/-- C3, amended: after a successful reconciliation pass on a well-formed
store, (a) a host that was a member of `ungrouped` and of some group other
than `all`/`ungrouped` is no longer a member of `ungrouped` (back-reference
and member-set side alike); (b) a non-implicit host whose direct group set
was empty or exactly `{all}` ends up a member of `ungrouped` — provided its
name does not collide with a registered group key (otherwise `add_child`
attaches the group of that name instead). -/
theorem c3_amended (st st' : InventoryData)
    (hnc : NameConsistent st) (hkn : KeysNodup st)
    (hcps : ChildParentSym st) (hsym : SymHG st)
    (hok : reconcile_inventory st = .ok st') :
    (∀ n h0 h', alookup st.hosts n = some h0 → alookup st'.hosts n = some h' →
      "ungrouped" ∈ h0.groups →
      (∃ g ∈ h0.groups, g ≠ "all" ∧ g ≠ "ungrouped") →
      "ungrouped" ∉ h'.groups ∧
        ∀ gu', alookup st'.groups "ungrouped" = some gu' → n ∉ gu'.hosts) ∧
    (∀ n h0 h', alookup st.hosts n = some h0 → alookup st'.hosts n = some h' →
      ¬ h0.implicit = true → "ungrouped" ∉ h0.groups →
      (h0.groups.length = 0 ∨ (h0.groups.length = 1 ∧ "all" ∈ h0.groups)) →
      n ∉ st.groups.map (fun p => p.1) →
      "ungrouped" ∈ h'.groups ∧
        ∀ gu', alookup st'.groups "ungrouped" = some gu' → n ∈ gu'.hosts) := by
  rcases reconcile_ok_decomp st st' hnc hkn hcps hsym hok with ⟨st1, st2, hgp, hhp, hrw⟩
  subst hrw
  have hfix2 : st1.hosts = st.hosts := hgp.hfix
  have hgk : st1.groups.map (fun p => p.1) = st.groups.map (fun p => p.1) := hgp.gkeys
  constructor
  · intro n h0 h' hh0 hh' hin hex
    have hany : h0.groups.any (fun gn => gn ≠ "all" ∧ gn ≠ "ungrouped") = true := by
      rcases hex with ⟨g, hg, h1, h2⟩
      exact List.any_eq_true.mpr ⟨g, hg, decide_eq_true ⟨h1, h2⟩⟩
    have hstep := hhp.hproc n (List.not_mem_nil n)
    rw [hfix2, hh0] at hstep
    have hh'2 : alookup st2.hosts n = some h' := hh'
    rw [hh'2] at hstep
    have hfe : h' = hostStepSpec (allVars st1) (st1.groups.map (fun p => p.1)) h0 :=
      Option.some.inj hstep
    rw [hostStepSpec_filter _ _ _ hin hany] at hfe
    constructor
    · rw [hfe]
      show "ungrouped" ∉ h0.groups.filter (· ≠ "ungrouped")
      intro hmem
      exact absurd rfl (of_decide_eq_true (List.mem_filter.mp hmem).2)
    · intro gu' hgu'
      have hgu'2 : alookup st2.groups "ungrouped" = some gu' := hgu'
      rcases pair_lookup_transfer (fun k => (hhp.gvals k).symm) hgu'2 with ⟨gu1, hgu1, _, _⟩
      have hh01 : alookup st1.hosts n = some h0 := by
        rw [hfix2]
        exact hh0
      have hiff := hhp.umem2 n (List.not_mem_nil n) h0 gu1 gu' hh01 hgu1 hgu'2
      rw [memberSpec_filter _ _ _ _ hin hany] at hiff
      exact fun hmem => hiff.mp hmem
  · intro n h0 h' hh0 hh' hnimp hnin hlen hncol
    have hh0n : h0.name = n := hnc.2 (n, h0) (alookup_mem hh0)
    have hncol1 : h0.name ∉ st1.groups.map (fun p => p.1) := by
      rw [hgk, hh0n]
      exact hncol
    have hstep := hhp.hproc n (List.not_mem_nil n)
    rw [hfix2, hh0] at hstep
    have hh'2 : alookup st2.hosts n = some h' := hh'
    rw [hh'2] at hstep
    have hfe : h' = hostStepSpec (allVars st1) (st1.groups.map (fun p => p.1)) h0 :=
      Option.some.inj hstep
    rw [hostStepSpec_attach _ _ _ hnin ⟨hnimp, hlen⟩ hncol1] at hfe
    constructor
    · rw [hfe]
      show "ungrouped" ∈ h0.groups ++ ["ungrouped"]
      exact List.mem_append_right _ (List.mem_singleton.mpr rfl)
    · intro gu' hgu'
      have hgu'2 : alookup st2.groups "ungrouped" = some gu' := hgu'
      rcases pair_lookup_transfer (fun k => (hhp.gvals k).symm) hgu'2 with ⟨gu1, hgu1, _, _⟩
      have hh01 : alookup st1.hosts n = some h0 := by
        rw [hfix2]
        exact hh0
      have hiff := hhp.umem2 n (List.not_mem_nil n) h0 gu1 gu' hh01 hgu1 hgu'2
      rw [memberSpec_attach _ _ _ _ hnin ⟨hnimp, hlen⟩ hncol1] at hiff
      exact hiff.mpr trivial

/-- C3, witness: the amended statement applied to the concrete well-formed
store `witA` and its reconciled result. -/
theorem c3_amended_witness :
    NameConsistent witA ∧ KeysNodup witA ∧ ChildParentSym witA ∧ SymHG witA ∧
    reconcile_inventory witA = .ok witAres ∧
    ((∀ n h0 h', alookup witA.hosts n = some h0 →
        alookup witAres.hosts n = some h' →
      "ungrouped" ∈ h0.groups →
      (∃ g ∈ h0.groups, g ≠ "all" ∧ g ≠ "ungrouped") →
      "ungrouped" ∉ h'.groups ∧
        ∀ gu', alookup witAres.groups "ungrouped" = some gu' → n ∉ gu'.hosts) ∧
    (∀ n h0 h', alookup witA.hosts n = some h0 →
        alookup witAres.hosts n = some h' →
      ¬ h0.implicit = true → "ungrouped" ∉ h0.groups →
      (h0.groups.length = 0 ∨ (h0.groups.length = 1 ∧ "all" ∈ h0.groups)) →
      n ∉ witA.groups.map (fun p => p.1) →
      "ungrouped" ∈ h'.groups ∧
        ∀ gu', alookup witAres.groups "ungrouped" = some gu' → n ∈ gu'.hosts)) :=
  ⟨by decide, by decide, by decide, by decide, by rfl,
    c3_amended witA witAres (by decide) (by decide) (by decide) (by decide) (by rfl)⟩

/-- C9: after a successful reconciliation pass on a well-formed store, every
implicit host's variable mapping is the merge of `all`'s variables into its
own with host precedence: a key the host already had keeps its host-set
value, and a key present only on `all` is copied in (pointwise,
`lookup (host') k = (lookup host k) orElse (lookup all k)`). -/
theorem c9_implicit_merge (st st' : InventoryData)
    (hnc : NameConsistent st) (hkn : KeysNodup st)
    (hcps : ChildParentSym st) (hsym : SymHG st)
    (hok : reconcile_inventory st = .ok st') :
    ∀ n h0 h', alookup st.hosts n = some h0 → alookup st'.hosts n = some h' →
      h0.implicit = true →
      ∀ k, vlookup h'.vars k = (vlookup h0.vars k).or (vlookup (allVars st) k) := by
  rcases reconcile_ok_decomp st st' hnc hkn hcps hsym hok with ⟨st1, st2, hgp, hhp, hrw⟩
  subst hrw
  have hfix2 : st1.hosts = st.hosts := hgp.hfix
  have hAv : allVars st1 = allVars st := pair3_allVars hgp.gvals
  intro n h0 h' hh0 hh' himp k
  have hstep := hhp.hproc n (List.not_mem_nil n)
  rw [hfix2, hh0] at hstep
  have hh'2 : alookup st2.hosts n = some h' := hh'
  rw [hh'2] at hstep
  have hfe : h' = hostStepSpec (allVars st1) (st1.groups.map (fun p => p.1)) h0 :=
    Option.some.inj hstep
  rw [hfe]
  show vlookup (if h0.implicit = true then combine_vars (allVars st1) h0.vars
    else h0.vars) k = (vlookup h0.vars k).or (vlookup (allVars st) k)
  rw [if_pos himp, vlookup_combine, hAv]

/-- C9, witness: the merge statement applied to `witB`, whose registered
implicit `localhost` holds `k1 ↦ v1, k2 ↦ host` while `all` holds
`k2 ↦ v2`; the reconciled host keeps its own `k2` and is checked at both
keys. -/
theorem c9_implicit_merge_witness :
    NameConsistent witB ∧ KeysNodup witB ∧ ChildParentSym witB ∧ SymHG witB ∧
    reconcile_inventory witB = .ok witBres ∧
    (∀ n h0 h', alookup witB.hosts n = some h0 →
        alookup witBres.hosts n = some h' →
      h0.implicit = true →
      ∀ k, vlookup h'.vars k = (vlookup h0.vars k).or (vlookup (allVars witB) k)) :=
  ⟨by decide, by decide, by decide, by decide, by rfl,
    c9_implicit_merge witB witBres (by decide) (by decide) (by decide) (by decide)
      (by rfl)⟩

/-- C4, counterexample: in `cx4state` the group `g2` keeps a dangling parent
reference to the removed group `g1`; its ancestor closure is the non-empty
`[g1]`, so the pass does not attach it to `all`, the run succeeds, and
afterwards `g2` still has no ancestor path to `all`. -/
theorem c4_counterexample :
    (alookup cx4state.groups "g2").isSome = true ∧
    (reconcile_inventory cx4state).map (fun st' =>
      (alookup st'.groups "g2").all
        (fun g => decide ("all" ∉ get_ancestors st'.groups g))) = .ok true :=
  ⟨rfl, rfl⟩

/-- C4, amended: after a successful reconciliation pass on a well-formed
store whose result has no dangling parent references and no parent cycle,
every registered group other than `all` has an ancestor path reaching
`all`.  (Without the no-dangling proviso a stale parent link left by
`remove_group` makes the group's ancestor set non-empty, so the pass skips
it and `all` stays unreachable.) -/
theorem c4_amended (st st' : InventoryData)
    (hnc : NameConsistent st) (hkn : KeysNodup st)
    (hcps : ChildParentSym st) (hsym : SymHG st)
    (hok : reconcile_inventory st = .ok st')
    (hnd : NoDanglingParents st') (hac : AcyclicParents st') :
    ∀ p ∈ st'.groups, p.1 ≠ "all" → "all" ∈ get_ancestors st'.groups p.2 := by
  rcases reconcile_ok_decomp st st' hnc hkn hcps hsym hok with ⟨st1, st2, hgp, hhp, hrw⟩
  subst hrw
  have hnc1 : NameConsistent st1 :=
    gp_final_nc { st with current_source := none } st1 hnc hkn.1 hgp
  have hnd2 : (st2.groups.map (fun p => p.1)).Nodup := by
    rw [hhp.gkeys, hgp.gkeys]
    exact hkn.1
  have hname2 : ∀ p ∈ st2.groups, p.2.name = p.1 := by
    intro p hp
    have hl : alookup st2.groups p.1 = some p.2 := alookup_of_mem_nodup hnd2 hp
    rcases pair_lookup_transfer (fun k => (hhp.gvals k).symm) hl with ⟨g1, hg1, hg1n, _⟩
    exact (hg1n.symm).trans (hnc1.1 (p.1, g1) (alookup_mem hg1))
  have hne2 : ∀ p ∈ st2.groups, p.2.name ≠ "all" → p.2.parent_groups ≠ [] := by
    intro p hp hnall
    have hl : alookup st2.groups p.1 = some p.2 := alookup_of_mem_nodup hnd2 hp
    rcases pair_lookup_transfer (fun k => (hhp.gvals k).symm) hl with ⟨g1, hg1, hg1n, _⟩
    have hne1 : g1.parent_groups ≠ [] :=
      hgp.gne p.1 (List.not_mem_nil _) g1 hg1 (by rw [hg1n]; exact hnall)
    have hx := headD_mem hne1 ""
    have hsub := hhp.gpar p.1 g1 p.2 hg1 hl
    exact List.ne_nil_of_mem (hsub _ hx)
  intro p hp hpall
  exact reach_all st2.groups hname2 hnd hac hne2 p hp hpall

/-- C4, witness: the amended statement applied to `witA`, whose reconciled
result is dangling-free and acyclic; its group `web` reaches `all`. -/
theorem c4_amended_witness :
    NameConsistent witA ∧ KeysNodup witA ∧ ChildParentSym witA ∧ SymHG witA ∧
    reconcile_inventory witA = .ok witAres ∧
    NoDanglingParents witAres ∧ AcyclicParents witAres ∧
    (∀ p ∈ witAres.groups, p.1 ≠ "all" → "all" ∈ get_ancestors witAres.groups p.2) :=
  ⟨by decide, by decide, by decide, by decide, by rfl, by decide, by decide,
    c4_amended witA witAres (by decide) (by decide) (by decide) (by decide) (by rfl)
      (by decide) (by decide)⟩

theorem foldlM_id (step : InventoryData → String → Except String InventoryData)
    (names : List String) (s : InventoryData)
    (hid : ∀ n ∈ names, step s n = .ok s) :
    names.foldlM step s = .ok s := by
  induction names with
  | nil => rfl
  | cons n rest ih =>
    rw [List.foldlM_cons, hid n (List.mem_cons_self n rest), except_bind_ok]
    exact ih (fun m hm => hid m (List.mem_cons_of_mem n hm))

theorem groupStep_id (s : InventoryData)
    (hne : ∀ k g, alookup s.groups k = some g → g.name ≠ "all" → g.parent_groups ≠ [])
    (n : String) : reconcileGroupStep s n = .ok s := by
  unfold reconcileGroupStep
  cases hl : alookup s.groups n with
  | none => rfl
  | some g =>
    show (if g.name ≠ "all" ∧ get_ancestors s.groups g = [] then
        (match add_child s "all" g.name with
        | .error e => .error e
        | .ok (_, st1) => .ok st1 : Except String InventoryData)
      else .ok s) = .ok s
    have hcond : ¬ (g.name ≠ "all" ∧ get_ancestors s.groups g = []) := by
      intro hc
      exact hne n g hl hc.1 ((get_ancestors_eq_nil_iff _ _).mp hc.2)
    rw [if_neg hcond]

theorem hostStep_id (s : InventoryData)
    (hndh : (s.hosts.map (fun p => p.1)).Nodup)
    (hcache : s.groups_dict_cache = [])
    (gu : Group) (hgu : alookup s.groups "ungrouped" = some gu)
    (ga : Group) (hga : alookup s.groups "all" = some ga)
    (n : String) (h1 : Host) (hh1 : alookup s.hosts n = some h1)
    (hst : ("ungrouped" ∈ h1.groups ∧
        h1.groups.any (fun gn => gn ≠ "all" ∧ gn ≠ "ungrouped") = false ∧
        (h1.implicit = true → combine_vars ga.vars h1.vars = h1.vars)) ∨
      ("ungrouped" ∉ h1.groups ∧ h1.implicit = true ∧
        combine_vars ga.vars h1.vars = h1.vars) ∨
      ("ungrouped" ∉ h1.groups ∧ ¬ h1.implicit = true ∧
        ¬ (h1.groups.length = 0 ∨ (h1.groups.length = 1 ∧ "all" ∈ h1.groups))) ∨
      ("ungrouped" ∉ h1.groups ∧ ¬ h1.implicit = true ∧
        (h1.groups.length = 0 ∨ (h1.groups.length = 1 ∧ "all" ∈ h1.groups)) ∧
        ∃ c, alookup s.groups h1.name = some c ∧ gu.name ≠ c.name ∧
          c.name ∈ gu.child_groups)) :
    reconcileHostStep s n = .ok s := by
  have hmerge_id : h1.implicit = true → combine_vars ga.vars h1.vars = h1.vars →
      reconcileHostMerge s h1 n = .ok s := by
    intro himp hvfix
    unfold reconcileHostMerge
    rw [if_pos himp, hga]
    show Except.ok { s with
                     hosts := aupdate s.hosts n
                       (fun h2 => { h2 with vars := combine_vars ga.vars h2.vars }) } =
      .ok s
    have haupd : aupdate s.hosts n
        (fun h2 => { h2 with vars := combine_vars ga.vars h2.vars }) = s.hosts := by
      apply aupdate_eq_self hndh
      intro v hv
      have hve : v = h1 := Option.some.inj (hv.symm.trans hh1)
      show ({ v with vars := combine_vars ga.vars v.vars } : Host) = v
      rw [hve, hvfix]
    rw [haupd]
  have hmerge_skip : ¬ h1.implicit = true → reconcileHostMerge s h1 n = .ok s := by
    intro hnimp
    unfold reconcileHostMerge
    rw [if_neg hnimp]
  unfold reconcileHostStep
  rw [hh1, hgu]
  show (match reconcileHostBranches s h1 with
    | .error e => (.error e : Except String InventoryData)
    | .ok st1 => reconcileHostMerge st1 h1 n) = .ok s
  rcases hst with ⟨hin, hany, hvfix⟩ | ⟨hnin, himp, hvfix⟩ |
    ⟨hnin, hnimp, hncond⟩ | ⟨hnin, hnimp, hcond, c, hc, hnself, hchild⟩
  · have hB : reconcileHostBranches s h1 = .ok s := by
      unfold reconcileHostBranches
      rw [if_pos hin, hga]
      show (if h1.groups.any (fun gn => gn ≠ "all" ∧ gn ≠ "ungrouped") = true then
          (Except.ok (groupRemoveHost s "ungrouped" h1.name) : Except String InventoryData)
        else .ok s) = .ok s
      rw [hany, if_neg Bool.false_ne_true]
    rw [hB]
    show reconcileHostMerge s h1 n = .ok s
    by_cases himp : h1.implicit = true
    · exact hmerge_id himp (hvfix himp)
    · exact hmerge_skip himp
  · have hB : reconcileHostBranches s h1 = .ok s := by
      unfold reconcileHostBranches
      rw [if_neg hnin, if_neg (fun hni => hni himp)]
    rw [hB]
    show reconcileHostMerge s h1 n = .ok s
    exact hmerge_id himp hvfix
  · have hB : reconcileHostBranches s h1 = .ok s := by
      unfold reconcileHostBranches
      rw [if_neg hnin, if_pos hnimp]
      have hl0 : ¬ h1.groups.length = 0 := fun h => hncond (Or.inl h)
      rw [if_neg hl0]
      by_cases hl1 : h1.groups.length = 1
      · rw [if_pos hl1, hga]
        show (if "all" ∈ h1.groups then
            (match add_child s "ungrouped" h1.name with
            | .error e => .error e
            | .ok r => .ok r.2 : Except String InventoryData)
          else .ok s) = .ok s
        have hna : "all" ∉ h1.groups := fun ha => hncond (Or.inr ⟨hl1, ha⟩)
        rw [if_neg hna]
      · rw [if_neg hl1]
    rw [hB]
    show reconcileHostMerge s h1 n = .ok s
    exact hmerge_skip hnimp
  · have hadd : add_child s "ungrouped" h1.name =
        .ok (false, { s with groups_dict_cache := [] }) := by
      unfold add_child
      rw [hgu, hc]
      have hacg : groupAddChildGroup s "ungrouped" h1.name = .ok (false, s) := by
        unfold groupAddChildGroup
        rw [hgu, hc]
        show (if gu.name = c.name then
              Except.error "Can not add group to itself"
            else if c.name ∈ gu.child_groups then Except.ok (false, s)
            else if c.name ∈ get_ancestors s.groups gu then
              Except.error "Adding the group creates a recursive dependency loop"
            else Except.ok (true,
              { s with
                groups := aupdate (aupdate s.groups "ungrouped"
                    (fun p2 => { p2 with child_groups := p2.child_groups ++ [c.name] }))
                  h1.name
                  (fun c2 => { c2 with parent_groups := c2.parent_groups ++ [gu.name] }) }) :
            Except String (Bool × InventoryData)) = .ok (false, s)
        rw [if_neg hnself, if_pos hchild]
      show (match groupAddChildGroup s "ungrouped" h1.name with
        | .error e => (.error e : Except String (Bool × InventoryData))
        | .ok (added, st1) => .ok (added, { st1 with groups_dict_cache := [] })) =
        .ok (false, { s with groups_dict_cache := [] })
      rw [hacg]
    have hB : reconcileHostBranches s h1 = .ok { s with groups_dict_cache := [] } := by
      unfold reconcileHostBranches
      rw [if_neg hnin, if_pos hnimp]
      by_cases hl0 : h1.groups.length = 0
      · rw [if_pos hl0]
        show (match add_child s "ungrouped" h1.name with
          | .error e => (.error e : Except String InventoryData)
          | .ok r => .ok r.2) = .ok { s with groups_dict_cache := [] }
        rw [hadd]
      · rw [if_neg hl0]
        have hl1 : h1.groups.length = 1 := by
          rcases hcond with h | ⟨h, _⟩
          · exact absurd h hl0
          · exact h
        have hall : "all" ∈ h1.groups := by
          rcases hcond with h | ⟨_, h⟩
          · exact absurd h hl0
          · exact h
        rw [if_pos hl1, hga]
        show (if "all" ∈ h1.groups then
            (match add_child s "ungrouped" h1.name with
            | .error e => .error e
            | .ok r => .ok r.2 : Except String InventoryData)
          else .ok s) = .ok { s with groups_dict_cache := [] }
        rw [if_pos hall, hadd]
    rw [hB]
    show reconcileHostMerge { s with groups_dict_cache := [] } h1 n = .ok s
    unfold reconcileHostMerge
    rw [if_neg hnimp]
    rw [← hcache]

/-- C5, counterexample: reconciliation does have a failure mode of its own —
on `cx5state` (a host registered, then the public `remove_group` applied to
`ungrouped`) the host pass dereferences the missing `ungrouped` registry key
and the run aborts instead of repairing structure. -/
theorem c5_counterexample :
    reconcile_inventory cx5state = .error "KeyError: ungrouped" := rfl

/-- C5, amended: on a well-formed store that still carries the root groups
`all`/`ungrouped` (with duplicate-free variable keys on `all`), a successful
reconciliation run is a fixpoint up to its warning log: a second run
succeeds and yields the same observable state (registries, memberships,
variable mappings, cache, localhost, source context). -/
theorem c5_amended (st st' : InventoryData)
    (hnc : NameConsistent st) (hkn : KeysNodup st)
    (hcps : ChildParentSym st) (hsym : SymHG st)
    (hu : (alookup st.groups "ungrouped").isSome = true)
    (ha : (alookup st.groups "all").isSome = true)
    (hvnd : ((allVars st).map (fun p => p.1)).Nodup)
    (hok : reconcile_inventory st = .ok st') :
    ∃ st'', reconcile_inventory st' = .ok st'' ∧ obs st'' = obs st' := by
  rcases reconcile_ok_decomp st st' hnc hkn hcps hsym hok with ⟨st1, st2, hgp, hhp, hrw⟩
  have hnc1 : NameConsistent st1 :=
    gp_final_nc { st with current_source := none } st1 hnc hkn.1 hgp
  have hfix2 : st1.hosts = st.hosts := hgp.hfix
  have hAv1 : allVars st1 = allVars st := pair3_allVars hgp.gvals
  have hAv2 : allVars st2 = allVars st := (pair2_allVars hhp.gvals).trans hAv1
  have hgroups' : st'.groups = st2.groups := by rw [hrw]
  have hhosts' : st'.hosts = st2.hosts := by rw [hrw]
  have hcache' : st'.groups_dict_cache = [] := by rw [hrw]
  have hcs' : st'.current_source = none := by
    rw [hrw]
    show st2.current_source = none
    exact hhp.lcs.trans hgp.lcs
  have hnameL : ∀ k g, alookup st2.groups k = some g → g.name = k := by
    intro k g hl
    rcases pair_lookup_transfer (fun k2 => (hhp.gvals k2).symm) hl with ⟨g1, hg1, hg1n, _⟩
    exact (hg1n.symm).trans (hnc1.1 (k, g1) (alookup_mem hg1))
  have hkeyu : "ungrouped" ∈ st2.groups.map (fun p => p.1) := by
    rw [hhp.gkeys, hgp.gkeys]
    exact (alookup_isSome _ _).mp hu
  rcases Option.isSome_iff_exists.mp ((alookup_isSome _ _).mpr hkeyu) with ⟨gu2, hgu2⟩
  have hkeya : "all" ∈ st2.groups.map (fun p => p.1) := by
    rw [hhp.gkeys, hgp.gkeys]
    exact (alookup_isSome _ _).mp ha
  rcases Option.isSome_iff_exists.mp ((alookup_isSome _ _).mpr hkeya) with ⟨ga2, hga2⟩
  have hga2v : allVars st2 = ga2.vars := by
    unfold allVars
    rw [hga2]
  have hgav1 : ga2.vars = allVars st1 := hga2v.symm.trans (hAv2.trans hAv1.symm)
  have hneL : ∀ k g, alookup st2.groups k = some g → g.name ≠ "all" →
      g.parent_groups ≠ [] := by
    intro k g hl hnall
    rcases pair_lookup_transfer (fun k2 => (hhp.gvals k2).symm) hl with ⟨g1, hg1, hg1n, _⟩
    have hne1 : g1.parent_groups ≠ [] :=
      hgp.gne k (List.not_mem_nil _) g1 hg1 (by rw [hg1n]; exact hnall)
    exact List.ne_nil_of_mem (hhp.gpar k g1 g hg1 hl _ (headD_mem hne1 ""))
  have hstable : ∀ n h1, alookup st'.hosts n = some h1 →
      (("ungrouped" ∈ h1.groups ∧
        h1.groups.any (fun gn => gn ≠ "all" ∧ gn ≠ "ungrouped") = false ∧
        (h1.implicit = true → combine_vars ga2.vars h1.vars = h1.vars)) ∨
      ("ungrouped" ∉ h1.groups ∧ h1.implicit = true ∧
        combine_vars ga2.vars h1.vars = h1.vars) ∨
      ("ungrouped" ∉ h1.groups ∧ ¬ h1.implicit = true ∧
        ¬ (h1.groups.length = 0 ∨ (h1.groups.length = 1 ∧ "all" ∈ h1.groups))) ∨
      ("ungrouped" ∉ h1.groups ∧ ¬ h1.implicit = true ∧
        (h1.groups.length = 0 ∨ (h1.groups.length = 1 ∧ "all" ∈ h1.groups)) ∧
        ∃ c, alookup st'.groups h1.name = some c ∧ gu2.name ≠ c.name ∧
          c.name ∈ gu2.child_groups)) := by
    intro n h1 hh1'
    have hh1st2 : alookup st2.hosts n = some h1 := by
      rw [← hhosts']
      exact hh1'
    have hstep := hhp.hproc n (List.not_mem_nil n)
    rw [hfix2, hh1st2] at hstep
    cases hl0 : alookup st.hosts n with
    | none =>
      rw [hl0] at hstep
      simp at hstep
    | some h0 =>
      rw [hl0] at hstep
      have hfe : h1 = hostStepSpec (allVars st1) (st1.groups.map (fun p => p.1)) h0 :=
        Option.some.inj hstep
      have hvfix : h1.implicit = true → combine_vars ga2.vars h1.vars = h1.vars := by
        intro himp
        have himp0 : h0.implicit = true := by
          rw [hfe] at himp
          exact himp
        have hv1 : h1.vars = combine_vars (allVars st1) h0.vars := by
          rw [hfe]
          show (if h0.implicit = true then combine_vars (allVars st1) h0.vars
            else h0.vars) = combine_vars (allVars st1) h0.vars
          rw [if_pos himp0]
        rw [hv1, hgav1]
        exact combine_vars_idem (by rw [hAv1]; exact hvnd) h0.vars
      by_cases hin0 : "ungrouped" ∈ h0.groups
      · by_cases hany0 : h0.groups.any (fun gn => gn ≠ "all" ∧ gn ≠ "ungrouped") = true
        · have hg1 : h1.groups = h0.groups.filter (· ≠ "ungrouped") := by
            rw [hfe, hostStepSpec_filter _ _ _ hin0 hany0]
          have hnin1 : "ungrouped" ∉ h1.groups := by
            rw [hg1]
            intro hmem
            exact absurd rfl (of_decide_eq_true (List.mem_filter.mp hmem).2)
          by_cases himp : h1.implicit = true
          · exact Or.inr (Or.inl ⟨hnin1, himp, hvfix himp⟩)
          · refine Or.inr (Or.inr (Or.inl ⟨hnin1, himp, ?_⟩))
            rcases List.any_eq_true.mp hany0 with ⟨g, hgmem, hgpd⟩
            have hgprop := of_decide_eq_true hgpd
            have hgin : g ∈ h1.groups := by
              rw [hg1]
              exact List.mem_filter.mpr ⟨hgmem, decide_eq_true hgprop.2⟩
            intro hcon
            rcases hcon with hl0' | ⟨hl1, hall⟩
            · rw [List.length_eq_zero] at hl0'
              rw [hl0'] at hgin
              cases hgin
            · rcases List.length_eq_one.mp hl1 with ⟨x, hx⟩
              rw [hx] at hgin hall
              exact hgprop.1 ((List.mem_singleton.mp hgin).trans
                (List.mem_singleton.mp hall).symm)
        · have hg1 : h1.groups = h0.groups := by
            rw [hfe, hostStepSpec_keep1 _ _ _ hin0 hany0]
          refine Or.inl ⟨by rw [hg1]; exact hin0, ?_, hvfix⟩
          rw [hg1]
          exact Bool.eq_false_iff.mpr hany0
      · by_cases himp0 : h0.implicit = true
        · have hg1 : h1.groups = h0.groups := by
            rw [hfe, hostStepSpec_skip _ _ _ hin0 (fun hcon => hcon.1 himp0)]
          have himp1 : h1.implicit = true := by
            rw [hfe]
            exact himp0
          exact Or.inr (Or.inl ⟨by rw [hg1]; exact hin0, himp1, hvfix himp1⟩)
        · by_cases hcond0 : h0.groups.length = 0 ∨
              (h0.groups.length = 1 ∧ "all" ∈ h0.groups)
          · by_cases hcol : h0.name ∈ st1.groups.map (fun p => p.1)
            · have hfe2 : h1 = h0 := by
                rw [hfe, hostStepSpec_collide _ _ _ hin0 ⟨himp0, hcond0⟩ hcol]
              have hh01 : alookup st1.hosts n = some h0 := by
                rw [hfix2]
                exact hl0
              rcases hhp.collis n (List.not_mem_nil n) h0 hh01 hin0 himp0 hcond0 hcol
                with ⟨hneu, g, hg, hmem⟩
              have hge : g = gu2 := Option.some.inj (hg.symm.trans hgu2)
              have hcol2 : h0.name ∈ st2.groups.map (fun p => p.1) := by
                rw [hhp.gkeys]
                exact hcol
              rcases Option.isSome_iff_exists.mp ((alookup_isSome _ _).mpr hcol2)
                with ⟨c, hc2⟩
              have hcn : c.name = h0.name := hnameL _ _ hc2
              refine Or.inr (Or.inr (Or.inr ⟨by rw [hfe2]; exact hin0,
                by rw [hfe2]; exact himp0, by rw [hfe2]; exact hcond0, c, ?_, ?_, ?_⟩))
              · rw [hfe2, hgroups']
                exact hc2
              · rw [hnameL _ _ hgu2, hcn]
                exact fun he => hneu he.symm
              · rw [hcn]
                rw [hge] at hmem
                exact hmem
            · have hg1 : h1.groups = h0.groups ++ ["ungrouped"] := by
                rw [hfe, hostStepSpec_attach _ _ _ hin0 ⟨himp0, hcond0⟩ hcol]
              have himp1 : ¬ h1.implicit = true := by
                rw [hfe]
                exact himp0
              have hin1 : "ungrouped" ∈ h1.groups := by
                rw [hg1]
                exact List.mem_append_right _ (List.mem_singleton.mpr rfl)
              refine Or.inl ⟨hin1, ?_, fun him => absurd him himp1⟩
              rw [hg1]
              have helem : ∀ x ∈ h0.groups ++ ["ungrouped"],
                  x = "all" ∨ x = "ungrouped" := by
                intro x hx
                rcases List.mem_append.mp hx with hx | hx
                · rcases hcond0 with hl | ⟨hl1, hall⟩
                  · rw [List.length_eq_zero] at hl
                    rw [hl] at hx
                    cases hx
                  · rcases List.length_eq_one.mp hl1 with ⟨y, hy⟩
                    rw [hy] at hx hall
                    exact Or.inl ((List.mem_singleton.mp hx).trans
                      (List.mem_singleton.mp hall).symm)
                · exact Or.inr (List.mem_singleton.mp hx)
              refine Bool.eq_false_iff.mpr ?_
              intro hany
              rcases List.any_eq_true.mp hany with ⟨x, hx, hxp⟩
              have hxprop := of_decide_eq_true hxp
              rcases helem x hx with he | he
              · exact hxprop.1 he
              · exact hxprop.2 he
          · have hg1 : h1.groups = h0.groups := by
              rw [hfe, hostStepSpec_skip _ _ _ hin0 (fun hcon => hcond0 hcon.2)]
            have himp1 : ¬ h1.implicit = true := by
              rw [hfe]
              exact himp0
            exact Or.inr (Or.inr (Or.inl ⟨by rw [hg1]; exact hin0, himp1,
              by rw [hg1]; exact hcond0⟩))
  have hgu' : alookup ({ st' with current_source := none } :
      InventoryData).groups "ungrouped" = some gu2 := by
    show alookup st'.groups "ungrouped" = some gu2
    rw [hgroups']
    exact hgu2
  have hga' : alookup ({ st' with current_source := none } :
      InventoryData).groups "all" = some ga2 := by
    show alookup st'.groups "all" = some ga2
    rw [hgroups']
    exact hga2
  have hndh' : (({ st' with current_source := none } :
      InventoryData).hosts.map (fun p => p.1)).Nodup := by
    show (st'.hosts.map (fun p => p.1)).Nodup
    rw [hhosts', hhp.hkeys, hfix2]
    exact hkn.2
  have hne' : ∀ k g, alookup ({ st' with current_source := none } :
      InventoryData).groups k = some g → g.name ≠ "all" → g.parent_groups ≠ [] := by
    intro k g hl
    have hl2 : alookup st'.groups k = some g := hl
    rw [hgroups'] at hl2
    exact hneL k g hl2
  have hgpass : reconcileGroups { st' with current_source := none } =
      .ok { st' with current_source := none } := by
    rw [reconcileGroups]
    exact foldlM_id _ _ _ (fun n _ => groupStep_id _ hne' n)
  have hhpass : reconcileHosts { st' with current_source := none } =
      .ok { st' with current_source := none } := by
    rw [reconcileHosts]
    apply foldlM_id
    intro n hn
    have hn2 : n ∈ st'.hosts.map (fun p => p.1) := hn
    rcases Option.isSome_iff_exists.mp ((alookup_isSome _ _).mpr hn2) with ⟨h1, hh1⟩
    have hh1b : alookup ({ st' with current_source := none } :
        InventoryData).hosts n = some h1 := hh1
    exact hostStep_id _ hndh' hcache' gu2 hgu' ga2 hga' n h1 hh1b (hstable n h1 hh1)
  refine ⟨{ { st' with current_source := none } with
            warnings := st'.warnings ++ conflictWarnings { st' with current_source := none },
            groups_dict_cache := [] }, ?_, ?_⟩
  · show (match reconcileGroups { st' with current_source := none } with
      | .error e => (.error e : Except String InventoryData)
      | .ok s1 =>
        match reconcileHosts s1 with
        | .error e => .error e
        | .ok s2 => .ok { s2 with
                          warnings := s2.warnings ++ conflictWarnings s2,
                          groups_dict_cache := [] }) =
      .ok { { st' with current_source := none } with
            warnings := st'.warnings ++ conflictWarnings { st' with current_source := none },
            groups_dict_cache := [] }
    rw [hgpass]
    show (match reconcileHosts { st' with current_source := none } with
      | .error e => (.error e : Except String InventoryData)
      | .ok s2 => .ok { s2 with
                        warnings := s2.warnings ++ conflictWarnings s2,
                        groups_dict_cache := [] }) =
      .ok { { st' with current_source := none } with
            warnings := st'.warnings ++ conflictWarnings { st' with current_source := none },
            groups_dict_cache := [] }
    rw [hhpass]
  · show ((st'.groups, st'.hosts, ([] : List (String × List String)), st'.localhost,
      (none : Option String)) :
        List (String × Group) × List (String × Host) × List (String × List String) ×
          Option LocalhostRef × Option String) =
      (st'.groups, st'.hosts, st'.groups_dict_cache, st'.localhost, st'.current_source)
    rw [hcache', hcs']

/-- C5, witness: the amended fixpoint statement applied to the well-formed
store `witA`, whose first reconciliation run succeeds. -/
theorem c5_amended_witness :
    NameConsistent witA ∧ KeysNodup witA ∧ ChildParentSym witA ∧ SymHG witA ∧
    (alookup witA.groups "ungrouped").isSome = true ∧
    (alookup witA.groups "all").isSome = true ∧
    ((allVars witA).map (fun p => p.1)).Nodup ∧
    reconcile_inventory witA = .ok witAres ∧
    (∃ st'', reconcile_inventory witAres = .ok st'' ∧ obs st'' = obs witAres) :=
  ⟨by decide, by decide, by decide, by decide, by decide, by decide, by decide, by rfl,
    c5_amended witA witAres (by decide) (by decide) (by decide) (by decide) (by decide)
      (by decide) (by decide) (by rfl)⟩

end Inventory
